import Mathlib

/-
Verification of the two-tier graph cache protocol (promotion / fetch /
eviction / long-term commit) of the graph-rag-guide repository.

The Python sources are embedded shallowly:

- `Evict`     models `community_version/evict_expired_short_term.py`
  (`purge_expired` and the `main` loop).
- `Cache`     models the promotion / fetch core of
  `community_version/cache_cypher_query.py` (the Cypher statements
  `PROMOTION_QUERY`, `FETCH_PARAS_QUERY` and the `_merge_*` helpers),
  with the two Neo4j stores represented as in-memory record lists.
- `Transfer`  models `community_version/short_to_long_transfer.py`
  (`_promote_one` and `main`).
- `Ner`       models the promotion entry points of
  `community_version/ner_service.py` (`_calculate_expiration`,
  `_promote_entities`).
- `Ingest`    models `merge_entity` of `community_version/ingest.py`.

Cypher semantics captured here: `MERGE` is upsert-by-key (`ON CREATE SET`
runs only when the pattern is created, a bare `SET` runs in both cases);
a `WHERE prop < x` comparison on a missing (`NULL`) property is `NULL`
and filters the row out; `MATCH (a),(b) MERGE (a)-[r]->(b)` is a no-op
when either endpoint is missing.  Node and relationship properties that
may be absent are `Option` valued.
-/

/-- Character-level embedding of Python's `str.lower()`. -/
def lowerStr (s : String) : String := ⟨s.data.map Char.toLower⟩

/-- Character-level embedding of Python's `str.upper()`. -/
def upperStr (s : String) : String := ⟨s.data.map Char.toUpper⟩

/-- Character-level embedding of Python's `str.strip()`. -/
def trimStr (s : String) : String :=
  ⟨((s.data.dropWhile Char.isWhitespace).reverse.dropWhile Char.isWhitespace).reverse⟩

/-- The visibility filter used verbatim by both `PROMOTION_QUERY` and
`FETCH_PARAS_QUERY`: `m.expiration IS NULL OR m.expiration = 0 OR
m.expiration > $now`. -/
def visibleExp (e : Option Int) (now : Int) : Bool :=
  match e with
  | none => true
  | some v => v == 0 || now < v

namespace Evict

/-- A short-term-store relationship as seen by the eviction sweeper:
an identity, two endpoint node ids and an optional `expiration`. -/
structure Rel where
  rid : Nat
  src : Nat
  dst : Nat
  expiration : Option Int
deriving DecidableEq, Repr

/-- A short-term-store node as seen by the eviction sweeper. -/
structure GNode where
  nid : Nat
  expiration : Option Int
deriving DecidableEq, Repr

/-- The whole short-term store, label-free, as the sweeper's
`MATCH ()-[r]-()` / `MATCH (n)` patterns see it. -/
structure GraphState where
  nodes : List GNode
  rels : List Rel
deriving DecidableEq, Repr

/-- The sweeper's `WHERE x.expiration < $now` predicate.  A missing
property compares to `NULL`, so the row is filtered out; a present
value is kept exactly when it is `< now` — there is no non-zero guard
in the source. -/
def expiredProp (e : Option Int) (now : Int) : Bool :=
  match e with
  | none => false
  | some v => v < now

/-- Embedding of `purge_expired` (evict_expired_short_term.py):
step 1 deletes up to `batch` relationships with `expiration < now`;
step 2 `DETACH DELETE`s up to `batch` nodes with `expiration < now`,
cascading to their remaining relationships.  Returns the new state and
the two counts. -/
def purge_expired (g : GraphState) (now : Int) (batch : Nat) :
    GraphState × Nat × Nat :=
  let doomedRels := (g.rels.filter (fun r => expiredProp r.expiration now)).take batch
  let rels1 := g.rels.filter (fun r => !(doomedRels.contains r))
  let doomedNodes := (g.nodes.filter (fun n => expiredProp n.expiration now)).take batch
  let nodeIds := doomedNodes.map GNode.nid
  let nodes2 := g.nodes.filter (fun n => !(doomedNodes.contains n))
  let rels2 := rels1.filter (fun r => !(nodeIds.contains r.src) && !(nodeIds.contains r.dst))
  (⟨nodes2, rels2⟩, doomedRels.length, doomedNodes.length)

/-- Embedding of the `main` loop: run `purge_expired` until both counts
are zero, accumulating totals.  `fuel` bounds the iteration count so the
function is structurally total. -/
def runToCompletion (fuel : Nat) (g : GraphState) (now : Int) (batch : Nat) :
    GraphState × Nat × Nat :=
  match fuel with
  | 0 => (g, 0, 0)
  | fuel + 1 =>
    let (g', r, n) := purge_expired g now batch
    if r == 0 && n == 0 then (g', r, n)
    else
      let (g'', tr, tn) := runToCompletion fuel g' now batch
      (g'', r + tr, n + tn)

end Evict

namespace Cache

/-- The target of a `MENTIONS` relationship: a `Paragraph` or a
`Document`, identified by its stable uuid (the source dispatches on the
target label and id-property name). -/
inductive TargetRef where
  | para (id : String)
  | doc (id : String)
deriving DecidableEq, Repr

/-- A short-term-cache `Entity` node (`_merge_entity` writes
`ent_uuid`, `name`, `label`, `expiration`). -/
structure SEntity where
  ent_uuid : String
  name : String
  label : String
  expiration : Option Int
deriving DecidableEq, Repr

/-- A short-term-cache `Paragraph` node. -/
structure SPara where
  para_uuid : String
  text : String
  index : Int
  doc_uuid : String
  expiration : Option Int
deriving DecidableEq, Repr

/-- A short-term-cache `Document` node.  `promoted`, `promotedAt` and
`validated` are the long-term-commit bookkeeping properties; they are
absent (`none`) until set. -/
structure SDoc where
  doc_uuid : String
  title : String
  content : String
  category : String
  expiration : Option Int
  promoted : Option Bool
  promotedAt : Option Int
  validated : Option Bool
deriving DecidableEq, Repr

/-- A short-term-cache `MENTIONS` relationship. -/
structure SMention where
  ent_uuid : String
  target : TargetRef
  expiration : Option Int
deriving DecidableEq, Repr

/-- A short-term-cache `PART_OF` relationship.  `_merge_part_of` never
writes any property on it, so `expiration` stays absent for edges it
creates. -/
structure SPartOf where
  para : String
  doc : String
  expiration : Option Int
deriving DecidableEq, Repr

/-- The short-term (working-set) store. -/
structure ShortStore where
  entities : List SEntity
  paragraphs : List SPara
  documents : List SDoc
  mentions : List SMention
  partOf : List SPartOf
deriving DecidableEq, Repr

/-- The empty working-set store. -/
def emptyShort : ShortStore := ⟨[], [], [], [], []⟩

/-- A long-term-store `Entity` node (ingest writes `ent_uuid`, `name`,
`label`, `expiration = 0`). -/
structure LEntity where
  ent_uuid : String
  name : String
  label : String
  expiration : Option Int
deriving DecidableEq, Repr

/-- A long-term-store `Paragraph` node. -/
structure LPara where
  para_uuid : String
  text : String
  index : Int
  doc_uuid : String
  expiration : Option Int
deriving DecidableEq, Repr

/-- A long-term-store `Document` node. -/
structure LDoc where
  doc_uuid : String
  title : String
  content : String
  category : String
  expiration : Option Int
deriving DecidableEq, Repr

/-- A long-term-store `MENTIONS` relationship. -/
structure LMention where
  ent_uuid : String
  target : TargetRef
  expiration : Option Int
deriving DecidableEq, Repr

/-- A long-term-store `PART_OF` relationship. -/
structure LPartOf where
  para : String
  doc : String
  expiration : Option Int
deriving DecidableEq, Repr

/-- The long-term (authoritative) store. -/
structure LongStore where
  entities : List LEntity
  paras : List LPara
  docs : List LDoc
  mentions : List LMention
  partOf : List LPartOf
deriving DecidableEq, Repr

/-- Embedding of `_merge_entity` (cache_cypher_query.py):
`MERGE (e:Entity {ent_uuid:$uuid}) ON CREATE SET e.name, e.label,
e.expiration SET e.expiration=$exp`.  On a match only `expiration` is
overwritten; on create all properties are written. -/
def mergeEntity (S : ShortStore) (uuid name label : String) (exp : Int) : ShortStore :=
  if S.entities.any (fun e => e.ent_uuid == uuid) then
    { S with entities := S.entities.map (fun e =>
        if e.ent_uuid == uuid then { e with expiration := some exp } else e) }
  else
    { S with entities := S.entities ++ [⟨uuid, name, label, some exp⟩] }

/-- Embedding of `_merge_paragraph`: `MERGE` on `para_uuid`,
`ON CREATE SET text/index/doc_uuid/expiration`, `SET expiration`. -/
def mergeParagraph (S : ShortStore) (uuid text : String) (idx : Int) (doc_uuid : String)
    (exp : Int) : ShortStore :=
  if S.paragraphs.any (fun p => p.para_uuid == uuid) then
    { S with paragraphs := S.paragraphs.map (fun p =>
        if p.para_uuid == uuid then { p with expiration := some exp } else p) }
  else
    { S with paragraphs := S.paragraphs ++ [⟨uuid, text, idx, doc_uuid, some exp⟩] }

/-- Embedding of `_merge_document`: `MERGE` on `doc_uuid`,
`ON CREATE SET title/content/category/expiration`, `SET expiration`. -/
def mergeDocument (S : ShortStore) (uuid title content category : String)
    (exp : Int) : ShortStore :=
  if S.documents.any (fun d => d.doc_uuid == uuid) then
    { S with documents := S.documents.map (fun d =>
        if d.doc_uuid == uuid then { d with expiration := some exp } else d) }
  else
    { S with documents := S.documents ++ [⟨uuid, title, content, category, some exp, none, none, none⟩] }

/-- Does a target node exist in the short store? (`MATCH (t:…)` in
`_merge_mentions` / `_merge_part_of`). -/
def targetExists (S : ShortStore) : TargetRef → Bool
  | .para pid => S.paragraphs.any (fun p => p.para_uuid == pid)
  | .doc did => S.documents.any (fun d => d.doc_uuid == did)

/-- Embedding of `_merge_part_of`:
`MATCH (p:Paragraph {para_uuid:$p}), (d:Document {doc_uuid:$d})
MERGE (p)-[:PART_OF]->(d)` — a no-op when either endpoint is missing,
and the created edge carries no properties at all. -/
def mergePartOf (S : ShortStore) (p d : String) : ShortStore :=
  if S.paragraphs.any (fun q => q.para_uuid == p) && S.documents.any (fun q => q.doc_uuid == d) then
    if S.partOf.any (fun po => po.para == p && po.doc == d) then S
    else { S with partOf := S.partOf ++ [⟨p, d, none⟩] }
  else S

/-- Embedding of `_merge_mentions`:
`MATCH (e), (t) MERGE (e)-[m:MENTIONS]->(t) SET m.expiration=$exp` —
a no-op when either endpoint is missing; `expiration` is overwritten
both on create and on match. -/
def mergeMentions (S : ShortStore) (ent : String) (t : TargetRef) (exp : Int) : ShortStore :=
  if S.entities.any (fun e => e.ent_uuid == ent) && targetExists S t then
    if S.mentions.any (fun m => m.ent_uuid == ent && m.target == t) then
      { S with mentions := S.mentions.map (fun m =>
          if m.ent_uuid == ent && m.target == t then { m with expiration := some exp } else m) }
    else { S with mentions := S.mentions ++ [⟨ent, t, some exp⟩] }
  else S

/-- Result of `OPTIONAL MATCH (t)-[:PART_OF]->(d:Document)` followed by
`COALESCE(d, t)`: either an actual `Document` node, or — when the
paragraph target has no `PART_OF` edge to a document — the paragraph
itself standing in for the document (`COALESCE` falls back to `t`). -/
inductive Resolved where
  | toDoc (d : LDoc)
  | orphan (para_uuid : String)
deriving DecidableEq, Repr

/-- Resolve one `MENTIONS` target `t` to the document rows of
`PROMOTION_QUERY`: a `Document` target is taken directly, a `Paragraph`
target is joined through its `PART_OF` edges. -/
def resolveTargets (L : LongStore) : TargetRef → List Resolved
  | .doc id => (L.docs.filter (fun d => d.doc_uuid == id)).map Resolved.toDoc
  | .para id =>
    let ds := ((L.partOf.filter (fun po => po.para == id)).flatMap
      (fun po => L.docs.filter (fun d => d.doc_uuid == po.doc))).map Resolved.toDoc
    if ds.isEmpty then [.orphan id] else ds

/-- `OPTIONAL MATCH (doc)<-[:PART_OF]-(p:Paragraph)` +
`collect(DISTINCT p)`: all paragraphs attached to the resolved
document. -/
def docParas (L : LongStore) : Resolved → List LPara
  | .toDoc d => (((L.partOf.filter (fun po => po.doc == d.doc_uuid)).flatMap
      (fun po => L.paras.filter (fun p => p.para_uuid == po.para)))).dedup
  | .orphan _ => []

/-- One record of `PROMOTION_QUERY` (`RETURN e, doc, paras`). -/
structure PromoRow where
  ent : LEntity
  resolved : Resolved
  paras : List LPara
deriving DecidableEq, Repr

/-- Embedding of `PROMOTION_QUERY`: all visible `MENTIONS` edges of the
entities matching `(name, label)`, resolved to their parent documents
(grouped per distinct document by `WITH e, doc, collect(DISTINCT p)`),
each with all paragraphs of that document. -/
def promotionQuery (L : LongStore) (name label : String) (now : Int) : List PromoRow :=
  (L.entities.filter (fun e => e.name == name && e.label == label)).flatMap (fun e =>
    let targets := (L.mentions.filter (fun m =>
      m.ent_uuid == e.ent_uuid && visibleExp m.expiration now)).map LMention.target
    ((targets.flatMap (resolveTargets L)).dedup).map (fun r => ⟨e, r, docParas L r⟩))

/-- Processing of one `PROMOTION_QUERY` record in `promote_entity`:
merge the entity; then (when document promotion is enabled and the
resolved document is a real `Document` node) merge the document and the
entity→document `MENTIONS` edge; then, for every collected paragraph,
merge the paragraph, its `PART_OF` edge and the entity→paragraph
`MENTIONS` edge. -/
def promoteRow (promoteDocs : Bool) (exp : Int) (S : ShortStore) (row : PromoRow) : ShortStore :=
  let S1 := mergeEntity S row.ent.ent_uuid row.ent.name row.ent.label exp
  let S2 :=
    match row.resolved with
    | .toDoc dn =>
      if promoteDocs then
        mergeMentions (mergeDocument S1 dn.doc_uuid dn.title dn.content dn.category exp)
          row.ent.ent_uuid (.doc dn.doc_uuid) exp
      else S1
    | .orphan _ => S1
  row.paras.foldl (fun S p =>
    mergeMentions
      (mergePartOf (mergeParagraph S p.para_uuid p.text p.index p.doc_uuid exp) p.para_uuid p.doc_uuid)
      row.ent.ent_uuid (.para p.para_uuid) exp) S2

/-- Core of `promote_entity`, parameterised by the expiration stamp
written on every touched element (the caller computes it from `now` and
a TTL). -/
def promoteWithExp (promoteDocs : Bool) (L : LongStore) (S : ShortStore)
    (name label : String) (now exp : Int) : ShortStore :=
  (promotionQuery L name label now).foldl (promoteRow promoteDocs exp) S

/-- `TTL_MS = 60 * 60 * 1000` from cache_cypher_query.py. -/
def TTL_MS : Int := 60 * 60 * 1000

/-- Embedding of `promote_entity` (cache_cypher_query.py):
`exp_ts = now_ms + TTL_MS`, then one `promoteRow` pass per query
record. -/
def promote_entity (promoteDocs : Bool) (L : LongStore) (S : ShortStore)
    (name label : String) (now : Int) : ShortStore :=
  promoteWithExp promoteDocs L S name label now (now + TTL_MS)

/-- The `WHERE [toLower(e.name), e.label] IN $entity_list` filter of
`FETCH_PARAS_QUERY`. -/
def keyMatch (keys : List (String × String)) (e : SEntity) : Bool :=
  keys.contains (lowerStr e.name, e.label)

/-- `count(e)` for one paragraph group of `FETCH_PARAS_QUERY`: the
number of `(entity, MENTIONS)` match rows reaching the paragraph
through a currently-visible edge from an entity in the input key set. -/
def fetchMatchCount (S : ShortStore) (keys : List (String × String)) (now : Int)
    (pid : String) : Nat :=
  ((S.entities.filter (keyMatch keys)).flatMap (fun e =>
    S.mentions.filter (fun m =>
      m.ent_uuid == e.ent_uuid && m.target == TargetRef.para pid &&
        visibleExp m.expiration now))).length

/-- `OPTIONAL MATCH (t)-[:PART_OF]->(d:Document)` for one fetched
paragraph (the schema guarantees at most one `PART_OF` target). -/
def lookupDocOf (S : ShortStore) (pid : String) : Option SDoc :=
  (S.partOf.find? (fun po => po.para == pid)).bind
    (fun po => S.documents.find? (fun d => d.doc_uuid == po.doc))

/-- One row of the `FETCH_PARAS_QUERY` result
(`text, idx, title, category, matchingEntities`). -/
structure FetchRow where
  text : String
  idx : Int
  title : String
  category : String
  matchingEntities : Nat
deriving DecidableEq, Repr

/-- Build the result row for one paragraph, with the
`coalesce(d.title,'Untitled')` / `coalesce(d.category,'N/A')`
defaults. -/
def mkFetchRow (S : ShortStore) (keys : List (String × String)) (now : Int)
    (t : SPara) : FetchRow :=
  let d := lookupDocOf S t.para_uuid
  ⟨t.text, t.index, (d.map SDoc.title).getD "Untitled",
    (d.map SDoc.category).getD "N/A", fetchMatchCount S keys now t.para_uuid⟩

/-- The `ORDER BY matchingEntities DESC, coalesce(t.index,0) ASC`
comparator. -/
def rankLE (a b : FetchRow) : Bool :=
  decide (b.matchingEntities < a.matchingEntities) ||
    (a.matchingEntities == b.matchingEntities && decide (a.idx ≤ b.idx))

/-- Embedding of `fetch_paragraphs` + `FETCH_PARAS_QUERY`: empty key
list short-circuits to `[]`; otherwise group the visible matches by
paragraph, build the display rows, order by match count descending with
the paragraph index as ascending tie-break, and truncate to `topK`. -/
def fetch_paragraphs (S : ShortStore) (keys : List (String × String)) (now : Int)
    (topK : Nat) : List FetchRow :=
  if keys.isEmpty then []
  else
    ((((S.paragraphs.filter (fun t => decide (0 < fetchMatchCount S keys now t.para_uuid))).map
      (mkFetchRow S keys now)).mergeSort rankLE)).take topK

/-- `MATCH (e:Entity {ent_uuid:$u})` succeeds. -/
def hasEnt (S : ShortStore) (u : String) : Bool :=
  S.entities.any (fun e => e.ent_uuid == u)

/-- `MATCH (p:Paragraph {para_uuid:$p})` succeeds. -/
def hasPara (S : ShortStore) (pid : String) : Bool :=
  S.paragraphs.any (fun p => p.para_uuid == pid)

/-- `MATCH (d:Document {doc_uuid:$d})` succeeds. -/
def hasDoc (S : ShortStore) (du : String) : Bool :=
  S.documents.any (fun d => d.doc_uuid == du)

/-- A `PART_OF` edge between the given keys exists. -/
def hasPartOf (S : ShortStore) (p d : String) : Bool :=
  S.partOf.any (fun po => po.para == p && po.doc == d)

/-- A `MENTIONS` edge with the given key exists. -/
def hasMention (S : ShortStore) (u : String) (t : TargetRef) : Bool :=
  S.mentions.any (fun m => m.ent_uuid == u && m.target == t)

/-- The entity uuids written by a promotion pass. -/
def entIds (rows : List PromoRow) : List String :=
  rows.map (fun r => r.ent.ent_uuid)

/-- The paragraph uuids written by a promotion pass. -/
def paraIds (rows : List PromoRow) : List String :=
  rows.flatMap (fun r => r.paras.map LPara.para_uuid)

/-- The document uuids written by a promotion pass (with document
promotion enabled). -/
def docIds (rows : List PromoRow) : List String :=
  rows.filterMap (fun r =>
    match r.resolved with
    | .toDoc d => some d.doc_uuid
    | .orphan _ => none)

/-- The `MENTIONS` edge keys written while processing one query row. -/
def rowMentionKeys (row : PromoRow) : List (String × TargetRef) :=
  (match row.resolved with
   | .toDoc d => [(row.ent.ent_uuid, TargetRef.doc d.doc_uuid)]
   | .orphan _ => []) ++
  row.paras.map (fun p => (row.ent.ent_uuid, TargetRef.para p.para_uuid))

/-- The `MENTIONS` edge keys written by a promotion pass. -/
def mentionKeys (rows : List PromoRow) : List (String × TargetRef) :=
  rows.flatMap rowMentionKeys

end Cache

namespace Transfer

/-- The long-term store as the commit engine writes it.  Node copies
carry exactly the property maps read from the short store (`SET n +=
$props`), so they reuse the short-store record types. -/
structure LTStore where
  docs : List Cache.SDoc
  paras : List Cache.SPara
  entities : List Cache.SEntity
  mentions : List Cache.SMention
  partOf : List Cache.SPartOf
deriving DecidableEq, Repr

/-- `SET d += $props` semantics on a `Document` property map: every key
present in the incoming map overwrites, keys absent from the incoming
map (`none`-valued `Option` fields) keep the old value. -/
def updDocProps (old new : Cache.SDoc) : Cache.SDoc :=
  { doc_uuid := new.doc_uuid, title := new.title, content := new.content,
    category := new.category,
    expiration := new.expiration.orElse (fun _ => old.expiration),
    promoted := new.promoted.orElse (fun _ => old.promoted),
    promotedAt := new.promotedAt.orElse (fun _ => old.promotedAt),
    validated := new.validated.orElse (fun _ => old.validated) }

/-- `SET p += $props` on a `Paragraph` property map. -/
def updParaProps (old new : Cache.SPara) : Cache.SPara :=
  { para_uuid := new.para_uuid, text := new.text, index := new.index,
    doc_uuid := new.doc_uuid,
    expiration := new.expiration.orElse (fun _ => old.expiration) }

/-- `SET e += $props` on an `Entity` property map. -/
def updEntProps (old new : Cache.SEntity) : Cache.SEntity :=
  { ent_uuid := new.ent_uuid, name := new.name, label := new.label,
    expiration := new.expiration.orElse (fun _ => old.expiration) }

/-- Embedding of `_merge_document` (short_to_long_transfer.py):
`MERGE (d:Document {doc_uuid:…}) SET d += $props`. -/
def ltMergeDocument (LT : LTStore) (d : Cache.SDoc) : LTStore :=
  if LT.docs.any (fun x => x.doc_uuid == d.doc_uuid) then
    { LT with docs := LT.docs.map (fun x =>
        if x.doc_uuid == d.doc_uuid then updDocProps x d else x) }
  else { LT with docs := LT.docs ++ [d] }

/-- Embedding of `_merge_paragraph` (short_to_long_transfer.py):
`MATCH (d:Document {doc_uuid:…}) MERGE (p:Paragraph {para_uuid:…})
SET p += $props MERGE (p)-[:PART_OF]->(d)` — a no-op when the parent
document is missing from the long-term store. -/
def ltMergeParagraph (LT : LTStore) (p : Cache.SPara) (du : String) : LTStore :=
  if LT.docs.any (fun x => x.doc_uuid == du) then
    let LT1 :=
      if LT.paras.any (fun x => x.para_uuid == p.para_uuid) then
        { LT with paras := LT.paras.map (fun x =>
            if x.para_uuid == p.para_uuid then updParaProps x p else x) }
      else { LT with paras := LT.paras ++ [p] }
    if LT1.partOf.any (fun po => po.para == p.para_uuid && po.doc == du) then LT1
    else { LT1 with partOf := LT1.partOf ++ [⟨p.para_uuid, du, none⟩] }
  else LT

/-- Embedding of `_merge_entity` (short_to_long_transfer.py). -/
def ltMergeEntity (LT : LTStore) (e : Cache.SEntity) : LTStore :=
  if LT.entities.any (fun x => x.ent_uuid == e.ent_uuid) then
    { LT with entities := LT.entities.map (fun x =>
        if x.ent_uuid == e.ent_uuid then updEntProps x e else x) }
  else { LT with entities := LT.entities ++ [e] }

/-- Does a mention target exist in the long-term store? -/
def ltTargetExists (LT : LTStore) : Cache.TargetRef → Bool
  | .para pid => LT.paras.any (fun p => p.para_uuid == pid)
  | .doc did => LT.docs.any (fun d => d.doc_uuid == did)

/-- Embedding of `_merge_mentions` (short_to_long_transfer.py):
`MATCH (e), (t) MERGE (e)-[m:MENTIONS]->(t) REMOVE m.expiration` —
a no-op when an endpoint is missing; `expiration` is removed both on
create and on match. -/
def ltMergeMentions (LT : LTStore) (ent : String) (t : Cache.TargetRef) : LTStore :=
  if LT.entities.any (fun e => e.ent_uuid == ent) && ltTargetExists LT t then
    if LT.mentions.any (fun m => m.ent_uuid == ent && m.target == t) then
      { LT with mentions := LT.mentions.map (fun m =>
          if m.ent_uuid == ent && m.target == t then { m with expiration := none } else m) }
    else { LT with mentions := LT.mentions ++ [⟨ent, t, none⟩] }
  else LT

/-- The paragraph records read by
`MATCH (p:Paragraph)-[:PART_OF]->(:Document {doc_uuid:$du}) RETURN p`
against the short store. -/
def transferParas (S : Cache.ShortStore) (du : String) : List Cache.SPara :=
  if S.documents.any (fun d => d.doc_uuid == du) then
    (S.partOf.filter (fun po => po.doc == du)).flatMap
      (fun po => S.paragraphs.filter (fun p => p.para_uuid == po.para))
  else []

/-- The `WHERE (x:Document AND x.doc_uuid=$du) OR (x:Paragraph AND
x.doc_uuid=$du)` test on a short-store `MENTIONS` edge: the target node
must exist and belong to document `du`. -/
def mentionHitsDoc (S : Cache.ShortStore) (du : String) (m : Cache.SMention) : Bool :=
  match m.target with
  | .doc did => did == du && S.documents.any (fun d => d.doc_uuid == did)
  | .para pid => S.paragraphs.any (fun p => p.para_uuid == pid && p.doc_uuid == du)

/-- `RETURN DISTINCT e` over all entities mentioning the document or one
of its paragraphs. -/
def transferEntities (S : Cache.ShortStore) (du : String) : List Cache.SEntity :=
  ((S.mentions.filter (mentionHitsDoc S du)).flatMap
    (fun m => S.entities.filter (fun e => e.ent_uuid == m.ent_uuid))).dedup

/-- The `(e.ent_uuid, target)` pairs of the `MENTIONS` edges to copy. -/
def transferEdges (S : Cache.ShortStore) (du : String) : List (String × Cache.TargetRef) :=
  (S.mentions.filter (mentionHitsDoc S du)).flatMap (fun m =>
    if S.entities.any (fun e => e.ent_uuid == m.ent_uuid) then [(m.ent_uuid, m.target)] else [])

/-- `SET d.promoted = true, d.promotedAt = timestamp()` on the source
document in the short store. -/
def markPromoted (S : Cache.ShortStore) (du : String) (ts : Int) : Cache.ShortStore :=
  { S with documents := S.documents.map (fun d =>
      if d.doc_uuid == du then { d with promoted := some true, promotedAt := some ts } else d) }

/-- Embedding of `_promote_one`: copy the document, its paragraphs (with
`PART_OF` edges), the mentioning entities and the `MENTIONS` edges into
the long-term store, then mark the short-store source as promoted. -/
def promote_one (S : Cache.ShortStore) (LT : LTStore) (d : Cache.SDoc) (ts : Int) :
    LTStore × Cache.ShortStore :=
  let LT1 := ltMergeDocument LT d
  let LT2 := (transferParas S d.doc_uuid).foldl (fun acc p => ltMergeParagraph acc p d.doc_uuid) LT1
  let LT3 := (transferEntities S d.doc_uuid).foldl ltMergeEntity LT2
  let LT4 := (transferEdges S d.doc_uuid).foldl (fun acc et => ltMergeMentions acc et.1 et.2) LT3
  (LT4, markPromoted S d.doc_uuid ts)

/-- The document list of `main`'s selection query:
`WHERE COALESCE(d.promoted,false)=false` and, when validation is
required, `AND d.validated=true` (a missing `validated` property fails
the test, Cypher `NULL` semantics). -/
def eligibleDocs (requireValidated : Bool) (S : Cache.ShortStore) : List Cache.SDoc :=
  S.documents.filter (fun d =>
    d.promoted.getD false == false && (!requireValidated || d.validated == some true))

/-- The per-document loop of `main`.  `failsAt` abstracts a backend
exception raised while committing the named document: the two in-flight
transactions are rolled back (no net writes for that document) and,
since the loop body has no exception handler, the exception propagates
and ends the run.  Returns the final stores, the uuids of the documents
whose commit completed and the uuids of the documents attempted. -/
def goTransfer (failsAt : String → Bool) (ts : Int) :
    List Cache.SDoc → Cache.ShortStore → LTStore →
      Cache.ShortStore × LTStore × List String × List String
  | [], S, LT => (S, LT, [], [])
  | d :: ds, S, LT =>
    if failsAt d.doc_uuid then (S, LT, [], [d.doc_uuid])
    else
      let (LT', S') := promote_one S LT d ts
      let (Sf, LTf, committed, attempted) := goTransfer failsAt ts ds S' LT'
      (Sf, LTf, d.doc_uuid :: committed, d.doc_uuid :: attempted)

/-- Embedding of `main` (short_to_long_transfer.py): select the
eligible documents once up front, then commit them one at a time. -/
def runTransfer (requireValidated : Bool) (failsAt : String → Bool)
    (S : Cache.ShortStore) (LT : LTStore) (ts : Int) :
    Cache.ShortStore × LTStore × List String × List String :=
  goTransfer failsAt ts (eligibleDocs requireValidated S) S LT

/-- The state reached after committing a list of documents without any
failure (used to pin down what a partially failed run leaves behind). -/
def commitFold (ts : Int) : List Cache.SDoc → Cache.ShortStore → LTStore →
    Cache.ShortStore × LTStore
  | [], S, LT => (S, LT)
  | d :: ds, S, LT =>
    let (LT', S') := promote_one S LT d ts
    commitFold ts ds S' LT'

end Transfer

namespace Ner

/-- `PROMOTION_TTL_MS` default from ner_service.py. -/
def DEFAULT_PROMOTION_TTL_MS : Int := 24 * 60 * 60 * 1000

/-- Embedding of `_calculate_expiration` (ner_service.py): a missing
TTL falls back to the default; a TTL `≤ 0` yields the permanent stamp
`0`; otherwise `now + ttl`. -/
def calculate_expiration (now : Int) (ttl : Option Int) : Int :=
  let t := ttl.getD DEFAULT_PROMOTION_TTL_MS
  if t ≤ 0 then 0 else now + t

/-- The key-normalising dedup loop of `_promote_entities`:
`key = (name.strip().lower(), label.strip().upper())`, kept when both
components are non-empty and the key is unseen, preserving order. -/
def dedupPairsAux : List (String × String) → List (String × String) → List (String × String)
  | [], acc => acc
  | (n, l) :: rest, acc =>
    let key := (lowerStr (trimStr n), upperStr (trimStr l))
    if !(key.1 == "") && !(key.2 == "") && !(acc.contains key) then
      dedupPairsAux rest (acc ++ [key])
    else dedupPairsAux rest acc

/-- The deduplicated, normalised key list of `_promote_entities`. -/
def dedupPairs (pairs : List (String × String)) : List (String × String) :=
  dedupPairsAux pairs []

/-- Embedding of `_promote_entities` (ner_service.py): short-circuit on
an empty input or an empty deduped list, otherwise promote every
deduped key with one shared expiration stamp and return the *number of
deduped keys attempted* (the service's `promoted` count).  The
per-entity body `_promote_entity` is the same statement sequence as
`promote_entity` of cache_cypher_query.py with the expiration stamp
passed in, so it is shared as `Cache.promoteWithExp`. -/
def promote_entities (promoteDocs : Bool) (L : Cache.LongStore) (S : Cache.ShortStore)
    (pairs : List (String × String)) (ttl : Option Int) (now : Int) :
    Cache.ShortStore × Nat :=
  if pairs.isEmpty then (S, 0)
  else
    let deduped := dedupPairs pairs
    if deduped.isEmpty then (S, 0)
    else
      let exp := calculate_expiration now ttl
      (deduped.foldl (fun acc k => Cache.promoteWithExp promoteDocs L acc k.1 k.2 now exp) S,
        deduped.length)

end Ner

namespace Ingest

/-- Embedding of `merge_entity` (ingest.py):
`MERGE (e:Entity {name: $name})` with `$name = name.lower().strip()` —
the merge key is the lower-cased name ALONE — and
`ON CREATE SET e.ent_uuid, e.label, e.expiration = 0`; nothing is
written when a node with that name already exists. -/
def merge_entity (es : List Cache.LEntity) (ent_uuid name label : String) :
    List Cache.LEntity :=
  let key := trimStr (lowerStr name)
  if es.any (fun e => e.name == key) then es
  else es ++ [⟨ent_uuid, key, label, some 0⟩]

end Ingest

/-- Claim C1 — counterexample.  The claim states that an element with
`expiration = 0` (permanent) is never deleted by a single sweep.  In the
source the deletion predicate is `expiration < $now` with no non-zero
guard, so a relationship carrying `expiration = 0` is deleted as soon as
`now > 0`: here the only relationship has `expiration = some 0` and a
sweep at `now = 5` removes it. -/
theorem C1_counterexample :
    (⟨10, 1, 2, some 0⟩ : Evict.Rel).expiration = some 0 ∧
    (Evict.purge_expired ⟨[⟨1, none⟩, ⟨2, none⟩], [⟨10, 1, 2, some 0⟩]⟩ 5 10000).1.rels = []
      := by decide

/-- Negated `contains` is exactly non-membership. -/
theorem contains_false_iff {α : Type} [DecidableEq α] (l : List α) (a : α) :
    (!(l.contains a)) = true ↔ a ∉ l := by
  simp [List.elem_iff]

/-- The node list produced by one sweep, spelled out. -/
theorem purge_nodes_eq (g : Evict.GraphState) (now : Int) (batch : Nat) :
    (Evict.purge_expired g now batch).1.nodes =
      g.nodes.filter (fun n =>
        !(((g.nodes.filter (fun n => Evict.expiredProp n.expiration now)).take batch).contains n)) :=
  rfl

/-- The relationship list produced by one sweep, spelled out. -/
theorem purge_rels_eq (g : Evict.GraphState) (now : Int) (batch : Nat) :
    (Evict.purge_expired g now batch).1.rels =
      (g.rels.filter (fun r =>
        !(((g.rels.filter (fun r => Evict.expiredProp r.expiration now)).take batch).contains r))).filter
        (fun r =>
          !((((g.nodes.filter (fun n => Evict.expiredProp n.expiration now)).take batch).map Evict.GNode.nid).contains r.src) &&
          !((((g.nodes.filter (fun n => Evict.expiredProp n.expiration now)).take batch).map Evict.GNode.nid).contains r.dst)) :=
  rfl

/-- Claim C1 — amended.  A sweep protects exactly the elements whose
`expiration` property is absent, not those with `expiration = 0`: when
the batch cap covers all expired elements, phase 1 deletes exactly the
relationships whose `expiration` is set and `< now`, and phase 2 deletes
exactly the nodes whose `expiration` is set and `< now`, cascading to
relationships attached to a deleted node.  `expiredProp` holds iff the
property is present with value `< now` (including the value `0` whenever
`now > 0`). -/
theorem C1_amended (g : Evict.GraphState) (now : Int) (batch : Nat)
    (hbr : (g.rels.filter (fun r => Evict.expiredProp r.expiration now)).length ≤ batch)
    (hbn : (g.nodes.filter (fun n => Evict.expiredProp n.expiration now)).length ≤ batch) :
    (∀ n, n ∈ (Evict.purge_expired g now batch).1.nodes ↔
      n ∈ g.nodes ∧ Evict.expiredProp n.expiration now = false) ∧
    (∀ r, r ∈ (Evict.purge_expired g now batch).1.rels ↔
      r ∈ g.rels ∧ Evict.expiredProp r.expiration now = false ∧
      ¬ ∃ n, n ∈ g.nodes ∧ Evict.expiredProp n.expiration now = true ∧
        (n.nid = r.src ∨ n.nid = r.dst)) ∧
    (∀ e : Option Int, Evict.expiredProp e now = true ↔ ∃ v, e = some v ∧ v < now) := by
  have htr : (g.rels.filter (fun r => Evict.expiredProp r.expiration now)).take batch
      = g.rels.filter (fun r => Evict.expiredProp r.expiration now) :=
    List.take_of_length_le hbr
  have htn : (g.nodes.filter (fun n => Evict.expiredProp n.expiration now)).take batch
      = g.nodes.filter (fun n => Evict.expiredProp n.expiration now) :=
    List.take_of_length_le hbn
  refine ⟨?_, ?_, ?_⟩
  · intro n
    rw [purge_nodes_eq, htn, List.mem_filter]
    constructor
    · rintro ⟨hn, hb⟩
      rw [contains_false_iff] at hb
      refine ⟨hn, ?_⟩
      by_contra hx
      rw [Bool.not_eq_false] at hx
      exact hb (List.mem_filter.mpr ⟨hn, hx⟩)
    · rintro ⟨hn, hf⟩
      refine ⟨hn, ?_⟩
      rw [contains_false_iff]
      intro hmem
      have := (List.mem_filter.mp hmem).2
      rw [hf] at this
      exact absurd this (by simp)
  · intro r
    rw [purge_rels_eq, htr, htn, List.mem_filter, List.mem_filter, Bool.and_eq_true]
    constructor
    · rintro ⟨⟨hr, hb⟩, hsrc, hdst⟩
      rw [contains_false_iff] at hb
      have hexp : Evict.expiredProp r.expiration now = false := by
        by_contra hx
        rw [Bool.not_eq_false] at hx
        exact hb (List.mem_filter.mpr ⟨hr, hx⟩)
      refine ⟨hr, hexp, ?_⟩
      rintro ⟨n, hn, hne, hcase⟩
      rcases hcase with h | h
      · rw [contains_false_iff] at hsrc
        exact hsrc (List.mem_map.mpr ⟨n, List.mem_filter.mpr ⟨hn, hne⟩, h⟩)
      · rw [contains_false_iff] at hdst
        exact hdst (List.mem_map.mpr ⟨n, List.mem_filter.mpr ⟨hn, hne⟩, h⟩)
    · rintro ⟨hr, hexp, hnone⟩
      refine ⟨⟨hr, ?_⟩, ?_, ?_⟩
      · rw [contains_false_iff]
        intro hmem
        have := (List.mem_filter.mp hmem).2
        rw [hexp] at this
        exact absurd this (by simp)
      · rw [contains_false_iff]
        intro hmem
        rcases List.mem_map.mp hmem with ⟨n, hn, hnid⟩
        rcases List.mem_filter.mp hn with ⟨hn', hne⟩
        exact hnone ⟨n, hn', hne, Or.inl hnid⟩
      · rw [contains_false_iff]
        intro hmem
        rcases List.mem_map.mp hmem with ⟨n, hn, hnid⟩
        rcases List.mem_filter.mp hn with ⟨hn', hne⟩
        exact hnone ⟨n, hn', hne, Or.inr hnid⟩
  · intro e
    cases e with
    | none => simp [Evict.expiredProp]
    | some v => simp [Evict.expiredProp]

/-- Claim C1 — witness for the amended theorem at a concrete graph:
one permanent node, one expired node, one permanent relationship and one
expired relationship, swept at `now = 100` with batch cap 10. -/
theorem C1_amended_witness :
    (∀ n, n ∈ (Evict.purge_expired ⟨[⟨1, none⟩, ⟨2, some 50⟩],
        [⟨10, 1, 1, none⟩, ⟨11, 1, 2, some 60⟩]⟩ 100 10).1.nodes ↔
      n ∈ [(⟨1, none⟩ : Evict.GNode), ⟨2, some 50⟩] ∧
        Evict.expiredProp n.expiration 100 = false) ∧
    (∀ r, r ∈ (Evict.purge_expired ⟨[⟨1, none⟩, ⟨2, some 50⟩],
        [⟨10, 1, 1, none⟩, ⟨11, 1, 2, some 60⟩]⟩ 100 10).1.rels ↔
      r ∈ [(⟨10, 1, 1, none⟩ : Evict.Rel), ⟨11, 1, 2, some 60⟩] ∧
        Evict.expiredProp r.expiration 100 = false ∧
      ¬ ∃ n, n ∈ [(⟨1, none⟩ : Evict.GNode), ⟨2, some 50⟩] ∧
          Evict.expiredProp n.expiration 100 = true ∧
          (n.nid = r.src ∨ n.nid = r.dst)) ∧
    (∀ e : Option Int, Evict.expiredProp e 100 = true ↔ ∃ v, e = some v ∧ v < 100) :=
  C1_amended ⟨[⟨1, none⟩, ⟨2, some 50⟩], [⟨10, 1, 1, none⟩, ⟨11, 1, 2, some 60⟩]⟩
    100 10 (by decide) (by decide)

/-- Claim C9 — counterexample.  The claim states that two ingested
occurrences with the same lower-cased name but different labels resolve
to two distinct `Entity` nodes.  The source merges on the lower-cased
name ALONE (`MERGE (e:Entity {name: $name})`), so `("Apple","ORG")`
followed by `("apple","GPE")` leaves a single node that keeps the first
label. -/
theorem C9_counterexample :
    (Ingest.merge_entity (Ingest.merge_entity [] "u1" "Apple" "ORG") "u2" "apple" "GPE").length = 1 ∧
    Ingest.merge_entity (Ingest.merge_entity [] "u1" "Apple" "ORG") "u2" "apple" "GPE"
      = [⟨"u1", "apple", "ORG", some 0⟩] := by decide

/-- Claim C9 — amended.  In the authoritative store the ingest identity
of an `Entity` is the normalised (lower-cased, stripped) name alone:
merging two occurrences whose normalised names agree — whatever their
labels — into a store that does not yet hold that name yields exactly
one node, carrying the first occurrence's uuid and label. -/
theorem C9_amended (es : List Cache.LEntity) (u1 u2 n1 n2 l1 l2 : String)
    (hsame : trimStr (lowerStr n1) = trimStr (lowerStr n2))
    (hnew : ∀ e ∈ es, e.name ≠ trimStr (lowerStr n1)) :
    Ingest.merge_entity (Ingest.merge_entity es u1 n1 l1) u2 n2 l2
      = es ++ [⟨u1, trimStr (lowerStr n1), l1, some 0⟩] := by
  have h1 : (es.any (fun e => e.name == trimStr (lowerStr n1))) = false := by
    rw [List.any_eq_false]
    intro e he
    simpa using hnew e he
  have hstep : Ingest.merge_entity es u1 n1 l1
      = es ++ [⟨u1, trimStr (lowerStr n1), l1, some 0⟩] := by
    unfold Ingest.merge_entity
    simp [h1]
  rw [hstep]
  unfold Ingest.merge_entity
  have h2 : ((es ++ [(⟨u1, trimStr (lowerStr n1), l1, some 0⟩ : Cache.LEntity)]).any
      (fun e => e.name == trimStr (lowerStr n2))) = true := by
    rw [List.any_eq_true]
    exact ⟨⟨u1, trimStr (lowerStr n1), l1, some 0⟩, by simp, by simp [hsame]⟩
  simp [h2]

/-- Claim C9 — witness: merging `("Apple","ORG")` then `("APPLE ","GPE")`
into an empty store leaves the single node `("apple","ORG")`. -/
theorem C9_amended_witness :
    Ingest.merge_entity (Ingest.merge_entity [] "u1" "Apple" "ORG") "u2" "APPLE " "GPE"
      = [] ++ [⟨"u1", trimStr (lowerStr "Apple"), "ORG", some 0⟩] :=
  C9_amended [] "u1" "u2" "Apple" "APPLE " "ORG" "GPE" (by decide) (by decide)

/-- Claim C7 — counterexample.  The claim states that after a failure on
one document every subsequent eligible document is still attempted.  The
per-document loop of `main` has no exception handler, so a backend
failure on `d2` ends the run: `d1` is committed, `d2` is attempted and
rolled back, and the still-eligible `d3` is never attempted. -/
theorem C7_counterexample :
    (Transfer.runTransfer false (fun u => u == "d2")
        ⟨[], [], [⟨"d1", "t", "c", "x", some 100, none, none, none⟩,
          ⟨"d2", "t", "c", "x", some 100, none, none, none⟩,
          ⟨"d3", "t", "c", "x", some 100, none, none, none⟩], [], []⟩
        ⟨[], [], [], [], []⟩ 77).2.2.2 = ["d1", "d2"] ∧
    (Transfer.runTransfer false (fun u => u == "d2")
        ⟨[], [], [⟨"d1", "t", "c", "x", some 100, none, none, none⟩,
          ⟨"d2", "t", "c", "x", some 100, none, none, none⟩,
          ⟨"d3", "t", "c", "x", some 100, none, none, none⟩], [], []⟩
        ⟨[], [], [], [], []⟩ 77).2.2.1 = ["d1"] ∧
    "d3" ∈ (Transfer.eligibleDocs false
        ⟨[], [], [⟨"d1", "t", "c", "x", some 100, none, none, none⟩,
          ⟨"d2", "t", "c", "x", some 100, none, none, none⟩,
          ⟨"d3", "t", "c", "x", some 100, none, none, none⟩], [], []⟩).map Cache.SDoc.doc_uuid ∧
    "d3" ∉ ["d1", "d2"] := by decide

/-- The per-document loop on a list that fails first at `d`: the prefix
before `d` commits normally, `d`'s transactions roll back, and the loop
ends there. -/
theorem goTransfer_spec (failsAt : String → Bool) (ts : Int)
    (pre post : List Cache.SDoc) (d : Cache.SDoc)
    (hpre : ∀ x ∈ pre, failsAt x.doc_uuid = false)
    (hd : failsAt d.doc_uuid = true) :
    ∀ (S : Cache.ShortStore) (LT : Transfer.LTStore),
      Transfer.goTransfer failsAt ts (pre ++ d :: post) S LT
        = ((Transfer.commitFold ts pre S LT).1, (Transfer.commitFold ts pre S LT).2,
            pre.map Cache.SDoc.doc_uuid, pre.map Cache.SDoc.doc_uuid ++ [d.doc_uuid]) := by
  induction pre with
  | nil =>
    intro S LT
    simp [Transfer.goTransfer, hd, Transfer.commitFold]
  | cons x xs ih =>
    intro S LT
    have hx : failsAt x.doc_uuid = false := hpre x (by simp)
    have hxs : ∀ y ∈ xs, failsAt y.doc_uuid = false := fun y hy => hpre y (by simp [hy])
    have ih' := ih hxs (Transfer.promote_one S LT x ts).2 (Transfer.promote_one S LT x ts).1
    simp only [List.cons_append, Transfer.goTransfer, hx, Bool.false_eq_true, if_false]
    simp only [List.append_eq] at ih' ⊢
    rw [ih']
    simp [Transfer.commitFold]

/-- Claim C7 — amended.  When the commit engine fails on one document,
every earlier document of the run remains fully committed (the final
stores are exactly the fold of the per-document commit over the prefix),
but the failing document's own commit rolls back and NO subsequent
eligible document is attempted: the run ends at the failure instead of
continuing with the rest of the batch. -/
theorem C7_amended (requireValidated : Bool) (failsAt : String → Bool)
    (S : Cache.ShortStore) (LT : Transfer.LTStore) (ts : Int)
    (pre post : List Cache.SDoc) (d : Cache.SDoc)
    (helig : Transfer.eligibleDocs requireValidated S = pre ++ d :: post)
    (hpre : ∀ x ∈ pre, failsAt x.doc_uuid = false)
    (hd : failsAt d.doc_uuid = true) :
    Transfer.runTransfer requireValidated failsAt S LT ts
      = ((Transfer.commitFold ts pre S LT).1, (Transfer.commitFold ts pre S LT).2,
          pre.map Cache.SDoc.doc_uuid, pre.map Cache.SDoc.doc_uuid ++ [d.doc_uuid]) := by
  unfold Transfer.runTransfer
  rw [helig]
  exact goTransfer_spec failsAt ts pre post d hpre hd S LT

/-- Claim C7 — witness at the three-document store of the
counterexample: `pre = [d1]`, failing document `d2`, skipped `d3`. -/
theorem C7_amended_witness :
    Transfer.runTransfer false (fun u => u == "d2")
        ⟨[], [], [⟨"d1", "t", "c", "x", some 100, none, none, none⟩,
          ⟨"d2", "t", "c", "x", some 100, none, none, none⟩,
          ⟨"d3", "t", "c", "x", some 100, none, none, none⟩], [], []⟩
        ⟨[], [], [], [], []⟩ 77
      = ((Transfer.commitFold 77 [⟨"d1", "t", "c", "x", some 100, none, none, none⟩]
            ⟨[], [], [⟨"d1", "t", "c", "x", some 100, none, none, none⟩,
              ⟨"d2", "t", "c", "x", some 100, none, none, none⟩,
              ⟨"d3", "t", "c", "x", some 100, none, none, none⟩], [], []⟩
            ⟨[], [], [], [], []⟩).1,
          (Transfer.commitFold 77 [⟨"d1", "t", "c", "x", some 100, none, none, none⟩]
            ⟨[], [], [⟨"d1", "t", "c", "x", some 100, none, none, none⟩,
              ⟨"d2", "t", "c", "x", some 100, none, none, none⟩,
              ⟨"d3", "t", "c", "x", some 100, none, none, none⟩], [], []⟩
            ⟨[], [], [], [], []⟩).2,
          [⟨"d1", "t", "c", "x", some 100, none, none, none⟩].map Cache.SDoc.doc_uuid,
          [⟨"d1", "t", "c", "x", some 100, none, none, none⟩].map Cache.SDoc.doc_uuid
            ++ ["d2"]) :=
  C7_amended false (fun u => u == "d2") _ _ 77
    [⟨"d1", "t", "c", "x", some 100, none, none, none⟩]
    [⟨"d3", "t", "c", "x", some 100, none, none, none⟩]
    ⟨"d2", "t", "c", "x", some 100, none, none, none⟩
    (by decide) (by decide) (by decide)

/-- Claim C8 — counterexample.  The claim states that a key with zero
visible Mentions edges reports zero items copied.  Here the entity
`("foo","ORG")` exists in the authoritative store but has no `MENTIONS`
edge at all, so the promotion read returns no record and nothing is
written — yet `_promote_entities` reports `1` (the number of deduped
keys attempted), not `0`. -/
theorem C8_counterexample :
    Cache.promotionQuery ⟨[⟨"e1", "foo", "ORG", some 0⟩], [], [], [], []⟩ "foo" "ORG" 1000 = [] ∧
    Ner.promote_entities true ⟨[⟨"e1", "foo", "ORG", some 0⟩], [], [], [], []⟩ Cache.emptyShort
        [("foo", "ORG")] none 1000 = (Cache.emptyShort, 1) := by decide

/-- Claim C8 — amended.  When every deduped input key yields zero
records from the authoritative promotion read, promotion performs no
writes to the working-set store (the store is returned unchanged) and
the call succeeds; but the reported count is the number of deduped keys
*attempted* (zero only when the input list or the deduped list is
empty), not the number of items copied. -/
theorem C8_amended (promoteDocs : Bool) (L : Cache.LongStore) (S : Cache.ShortStore)
    (pairs : List (String × String)) (ttl : Option Int) (now : Int)
    (h : ∀ k ∈ Ner.dedupPairs pairs, Cache.promotionQuery L k.1 k.2 now = []) :
    Ner.promote_entities promoteDocs L S pairs ttl now
      = (S, if pairs.isEmpty then 0 else (Ner.dedupPairs pairs).length) := by
  have hfold : ∀ (ks : List (String × String)) (S0 : Cache.ShortStore),
      (∀ k ∈ ks, Cache.promotionQuery L k.1 k.2 now = []) →
      ks.foldl (fun acc k => Cache.promoteWithExp promoteDocs L acc k.1 k.2 now
        (Ner.calculate_expiration now ttl)) S0 = S0 := by
    intro ks
    induction ks with
    | nil => intro S0 _; rfl
    | cons k ks ih =>
      intro S0 hk
      have h0 : Cache.promotionQuery L k.1 k.2 now = [] := hk k (by simp)
      have hone : Cache.promoteWithExp promoteDocs L S0 k.1 k.2 now
          (Ner.calculate_expiration now ttl) = S0 := by
        unfold Cache.promoteWithExp
        rw [h0]
        rfl
      simp only [List.foldl_cons, hone]
      exact ih _ (fun x hx => hk x (by simp [hx]))
  unfold Ner.promote_entities
  cases hp : pairs.isEmpty with
  | true => simp [hp]
  | false =>
    cases hdq : (Ner.dedupPairs pairs).isEmpty with
    | true =>
      have : Ner.dedupPairs pairs = [] := List.isEmpty_iff.mp hdq
      simp [hp, hdq, this]
    | false =>
      simp only [hp, Bool.false_eq_true, if_false, hdq]
      rw [hfold (Ner.dedupPairs pairs) S h]

/-- Claim C8 — witness at the counterexample input: one existing entity
with no visible edges, attempted once. -/
theorem C8_amended_witness :
    Ner.promote_entities true ⟨[⟨"e1", "foo", "ORG", some 0⟩], [], [], [], []⟩ Cache.emptyShort
        [("foo", "ORG")] none 1000
      = (Cache.emptyShort, if ([("foo", "ORG")] : List (String × String)).isEmpty then 0
          else (Ner.dedupPairs [("foo", "ORG")]).length) :=
  C8_amended true ⟨[⟨"e1", "foo", "ORG", some 0⟩], [], [], [], []⟩ Cache.emptyShort
    [("foo", "ORG")] none 1000 (by decide)

/-- Claim C2 — counterexample.  The claim states that the Document copy
written by the commit engine has no expiration set.  `_merge_document`
executes `SET d += $props` with the full short-store property map, so a
working-set document carrying `expiration = 123` is committed to the
authoritative store with `expiration = 123` intact (only the `MENTIONS`
edges get `REMOVE m.expiration`). -/
theorem C2_counterexample :
    (Transfer.promote_one
        ⟨[], [], [⟨"d1", "T", "C", "cat", some 123, none, none, none⟩], [], []⟩
        ⟨[], [], [], [], []⟩ ⟨"d1", "T", "C", "cat", some 123, none, none, none⟩ 77).1.docs
      = [⟨"d1", "T", "C", "cat", some 123, none, none, none⟩] ∧
    (⟨"d1", "T", "C", "cat", some 123, none, none, none⟩ : Cache.SDoc).expiration
      = some 123 := by decide

/-- Document merges leave the long-term mention list unchanged. -/
theorem ltMergeDocument_mentions (LT : Transfer.LTStore) (d : Cache.SDoc) :
    (Transfer.ltMergeDocument LT d).mentions = LT.mentions := by
  unfold Transfer.ltMergeDocument
  split <;> rfl

/-- Paragraph merges leave the long-term mention list unchanged. -/
theorem ltMergeParagraph_mentions (LT : Transfer.LTStore) (p : Cache.SPara) (du : String) :
    (Transfer.ltMergeParagraph LT p du).mentions = LT.mentions := by
  unfold Transfer.ltMergeParagraph
  split
  · dsimp only
    split <;> split <;> rfl
  · rfl

/-- Entity merges leave the long-term mention list unchanged. -/
theorem ltMergeEntity_mentions (LT : Transfer.LTStore) (e : Cache.SEntity) :
    (Transfer.ltMergeEntity LT e).mentions = LT.mentions := by
  unfold Transfer.ltMergeEntity
  split <;> rfl

/-- Every mention present after `_merge_mentions` (transfer) is either
stripped (`expiration = none`) or was already present. -/
theorem ltMergeMentions_inv (LT : Transfer.LTStore) (ent : String) (t : Cache.TargetRef)
    (m : Cache.SMention) (hm : m ∈ (Transfer.ltMergeMentions LT ent t).mentions) :
    m.expiration = none ∨ m ∈ LT.mentions := by
  unfold Transfer.ltMergeMentions at hm
  by_cases h1 : (LT.entities.any (fun e => e.ent_uuid == ent)
      && Transfer.ltTargetExists LT t) = true
  · rw [if_pos h1] at hm
    by_cases h2 : (LT.mentions.any (fun m => m.ent_uuid == ent && m.target == t)) = true
    · rw [if_pos h2] at hm
      simp only [List.mem_map] at hm
      obtain ⟨m0, hm0, heq⟩ := hm
      by_cases h3 : (m0.ent_uuid == ent && m0.target == t) = true
      · rw [if_pos h3] at heq
        exact Or.inl (by rw [← heq])
      · rw [if_neg h3] at heq
        exact Or.inr (heq ▸ hm0)
    · rw [if_neg h2] at hm
      rcases List.mem_append.mp hm with h | h
      · exact Or.inr h
      · simp only [List.mem_singleton] at h
        exact Or.inl (by rw [h])
  · rw [if_neg h1] at hm
    exact Or.inr hm

/-- Document merges leave the long-term paragraph list unchanged. -/
theorem ltMergeDocument_paras (LT : Transfer.LTStore) (d : Cache.SDoc) :
    (Transfer.ltMergeDocument LT d).paras = LT.paras := by
  unfold Transfer.ltMergeDocument
  split <;> rfl

/-- Mention merges leave the long-term paragraph list unchanged. -/
theorem ltMergeMentions_paras (LT : Transfer.LTStore) (ent : String) (t : Cache.TargetRef) :
    (Transfer.ltMergeMentions LT ent t).paras = LT.paras := by
  unfold Transfer.ltMergeMentions
  split
  · split <;> rfl
  · rfl

/-- Entity merges leave the long-term paragraph list unchanged. -/
theorem ltMergeEntity_paras (LT : Transfer.LTStore) (e : Cache.SEntity) :
    (Transfer.ltMergeEntity LT e).paras = LT.paras := by
  unfold Transfer.ltMergeEntity
  split <;> rfl

/-- Paragraph merges leave the long-term document list unchanged. -/
theorem ltMergeParagraph_docs (LT : Transfer.LTStore) (p : Cache.SPara) (du : String) :
    (Transfer.ltMergeParagraph LT p du).docs = LT.docs := by
  unfold Transfer.ltMergeParagraph
  split
  · dsimp only
    split <;> split <;> rfl
  · rfl

/-- Entity merges leave the long-term document list unchanged. -/
theorem ltMergeEntity_docs (LT : Transfer.LTStore) (e : Cache.SEntity) :
    (Transfer.ltMergeEntity LT e).docs = LT.docs := by
  unfold Transfer.ltMergeEntity
  split <;> rfl

/-- Mention merges leave the long-term document list unchanged. -/
theorem ltMergeMentions_docs (LT : Transfer.LTStore) (ent : String) (t : Cache.TargetRef) :
    (Transfer.ltMergeMentions LT ent t).docs = LT.docs := by
  unfold Transfer.ltMergeMentions
  split
  · split <;> rfl
  · rfl

/-- Document merges leave the long-term entity list unchanged. -/
theorem ltMergeDocument_entities (LT : Transfer.LTStore) (d : Cache.SDoc) :
    (Transfer.ltMergeDocument LT d).entities = LT.entities := by
  unfold Transfer.ltMergeDocument
  split <;> rfl

/-- Paragraph merges leave the long-term entity list unchanged. -/
theorem ltMergeParagraph_entities (LT : Transfer.LTStore) (p : Cache.SPara) (du : String) :
    (Transfer.ltMergeParagraph LT p du).entities = LT.entities := by
  unfold Transfer.ltMergeParagraph
  split
  · dsimp only
    split <;> split <;> rfl
  · rfl

/-- Mention merges leave the long-term entity list unchanged. -/
theorem ltMergeMentions_entities (LT : Transfer.LTStore) (ent : String) (t : Cache.TargetRef) :
    (Transfer.ltMergeMentions LT ent t).entities = LT.entities := by
  unfold Transfer.ltMergeMentions
  split
  · split <;> rfl
  · rfl

/-- `p += props` is the identity replacement when the incoming map
carries every property, i.e. when its `expiration` is present. -/
theorem updParaProps_eq (x q : Cache.SPara) (h : q.expiration ≠ none) :
    Transfer.updParaProps x q = q := by
  obtain ⟨u, t, i, du, e⟩ := q
  cases e with
  | none => exact absurd rfl h
  | some v => rfl

/-- `e += props` is the identity replacement when the incoming map
carries every property. -/
theorem updEntProps_eq (x q : Cache.SEntity) (h : q.expiration ≠ none) :
    Transfer.updEntProps x q = q := by
  obtain ⟨u, n, l, e⟩ := q
  cases e with
  | none => exact absurd rfl h
  | some v => rfl

/-- The paragraphs read by the transfer are paragraphs of the short
store. -/
theorem transferParas_subset (S : Cache.ShortStore) (du : String)
    (q : Cache.SPara) (hq : q ∈ Transfer.transferParas S du) : q ∈ S.paragraphs := by
  unfold Transfer.transferParas at hq
  by_cases h : (S.documents.any (fun d => d.doc_uuid == du)) = true
  · rw [if_pos h] at hq
    obtain ⟨po, _, hq⟩ := List.mem_flatMap.mp hq
    exact (List.mem_filter.mp hq).1
  · rw [if_neg h] at hq
    exact absurd hq (List.not_mem_nil q)

/-- The entities read by the transfer are entities of the short store. -/
theorem transferEntities_subset (S : Cache.ShortStore) (du : String)
    (q : Cache.SEntity) (hq : q ∈ Transfer.transferEntities S du) : q ∈ S.entities := by
  unfold Transfer.transferEntities at hq
  rw [List.mem_dedup] at hq
  obtain ⟨m, _, hq⟩ := List.mem_flatMap.mp hq
  exact (List.mem_filter.mp hq).1

/-- Paragraph merges produce only old paragraphs or the incoming copy. -/
theorem ltMergeParagraph_inv (LT : Transfer.LTStore) (q : Cache.SPara) (du : String)
    (hdq : q.expiration ≠ none)
    (p : Cache.SPara) (hp : p ∈ (Transfer.ltMergeParagraph LT q du).paras) :
    p ∈ LT.paras ∨ p = q := by
  unfold Transfer.ltMergeParagraph at hp
  by_cases h1 : (LT.docs.any (fun x => x.doc_uuid == du)) = true
  · rw [if_pos h1] at hp
    by_cases h2 : (LT.paras.any (fun x => x.para_uuid == q.para_uuid)) = true
    · rw [if_pos h2] at hp
      dsimp only at hp
      have hp' : p ∈ LT.paras.map (fun x =>
          if (x.para_uuid == q.para_uuid) = true then Transfer.updParaProps x q else x) := by
        revert hp
        split <;> intro hp <;> exact hp
      simp only [List.mem_map] at hp'
      obtain ⟨p0, hp0, heq⟩ := hp'
      by_cases h4 : (p0.para_uuid == q.para_uuid) = true
      · rw [if_pos h4] at heq
        exact Or.inr (by rw [← heq, updParaProps_eq p0 q hdq])
      · rw [if_neg h4] at heq
        exact Or.inl (heq ▸ hp0)
    · rw [if_neg h2] at hp
      dsimp only at hp
      have hp' : p ∈ LT.paras ++ [q] := by
        revert hp
        split <;> intro hp <;> exact hp
      rcases List.mem_append.mp hp' with h | h
      · exact Or.inl h
      · simp only [List.mem_singleton] at h
        exact Or.inr h
  · rw [if_neg h1] at hp
    exact Or.inl hp

/-- Entity merges produce only old entities or the incoming copy. -/
theorem ltMergeEntity_inv (LT : Transfer.LTStore) (q : Cache.SEntity)
    (hdq : q.expiration ≠ none)
    (e : Cache.SEntity) (he : e ∈ (Transfer.ltMergeEntity LT q).entities) :
    e ∈ LT.entities ∨ e = q := by
  unfold Transfer.ltMergeEntity at he
  by_cases h2 : (LT.entities.any (fun x => x.ent_uuid == q.ent_uuid)) = true
  · rw [if_pos h2] at he
    simp only [List.mem_map] at he
    obtain ⟨e0, he0, heq⟩ := he
    by_cases h4 : (e0.ent_uuid == q.ent_uuid) = true
    · rw [if_pos h4] at heq
      exact Or.inr (by rw [← heq, updEntProps_eq e0 q hdq])
    · rw [if_neg h4] at heq
      exact Or.inl (heq ▸ he0)
  · rw [if_neg h2] at he
    rcases List.mem_append.mp he with h | h
    · exact Or.inl h
    · simp only [List.mem_singleton] at h
      exact Or.inr h

/-- The long-term store written by one document commit, spelled out. -/
theorem promote_one_fst (S : Cache.ShortStore) (LT : Transfer.LTStore)
    (d : Cache.SDoc) (ts : Int) :
    (Transfer.promote_one S LT d ts).1 =
      (Transfer.transferEdges S d.doc_uuid).foldl
        (fun acc et => Transfer.ltMergeMentions acc et.1 et.2)
        ((Transfer.transferEntities S d.doc_uuid).foldl Transfer.ltMergeEntity
          ((Transfer.transferParas S d.doc_uuid).foldl
            (fun acc p => Transfer.ltMergeParagraph acc p d.doc_uuid)
            (Transfer.ltMergeDocument LT d))) := rfl

/-- A paragraph-merge pass leaves the mention list unchanged. -/
theorem foldl_ltMergeParagraph_mentions (du : String) (qs : List Cache.SPara) :
    ∀ LT0 : Transfer.LTStore,
      ((qs.foldl (fun acc q => Transfer.ltMergeParagraph acc q du) LT0).mentions)
        = LT0.mentions := by
  induction qs with
  | nil => intro LT0; rfl
  | cons q qs ih =>
    intro LT0
    simp only [List.foldl_cons]
    rw [ih, ltMergeParagraph_mentions]

/-- An entity-merge pass leaves the mention list unchanged. -/
theorem foldl_ltMergeEntity_mentions (qs : List Cache.SEntity) :
    ∀ LT0 : Transfer.LTStore,
      ((qs.foldl Transfer.ltMergeEntity LT0).mentions) = LT0.mentions := by
  induction qs with
  | nil => intro LT0; rfl
  | cons q qs ih =>
    intro LT0
    simp only [List.foldl_cons]
    rw [ih, ltMergeEntity_mentions]

/-- The mention-edge pass only leaves stripped or pre-existing edges. -/
theorem foldl_ltMergeMentions_inv (eds : List (String × Cache.TargetRef)) :
    ∀ (LT0 : Transfer.LTStore) (m : Cache.SMention),
      m ∈ (eds.foldl (fun acc et => Transfer.ltMergeMentions acc et.1 et.2) LT0).mentions →
      m.expiration = none ∨ m ∈ LT0.mentions := by
  induction eds with
  | nil => intro LT0 m hm; exact Or.inr hm
  | cons et eds ih =>
    intro LT0 m hm
    simp only [List.foldl_cons] at hm
    rcases ih _ m hm with h | h
    · exact Or.inl h
    · exact ltMergeMentions_inv LT0 et.1 et.2 m h

/-- A paragraph-merge pass leaves the document list unchanged. -/
theorem foldl_ltMergeParagraph_docs (du : String) (qs : List Cache.SPara) :
    ∀ LT0 : Transfer.LTStore,
      ((qs.foldl (fun acc q => Transfer.ltMergeParagraph acc q du) LT0).docs) = LT0.docs := by
  induction qs with
  | nil => intro LT0; rfl
  | cons q qs ih =>
    intro LT0
    simp only [List.foldl_cons]
    rw [ih, ltMergeParagraph_docs]

/-- An entity-merge pass leaves the document list unchanged. -/
theorem foldl_ltMergeEntity_docs (qs : List Cache.SEntity) :
    ∀ LT0 : Transfer.LTStore,
      ((qs.foldl Transfer.ltMergeEntity LT0).docs) = LT0.docs := by
  induction qs with
  | nil => intro LT0; rfl
  | cons q qs ih =>
    intro LT0
    simp only [List.foldl_cons]
    rw [ih, ltMergeEntity_docs]

/-- The mention-edge pass leaves the document list unchanged. -/
theorem foldl_ltMergeMentions_docs (eds : List (String × Cache.TargetRef)) :
    ∀ LT0 : Transfer.LTStore,
      ((eds.foldl (fun acc et => Transfer.ltMergeMentions acc et.1 et.2) LT0).docs)
        = LT0.docs := by
  induction eds with
  | nil => intro LT0; rfl
  | cons et eds ih =>
    intro LT0
    simp only [List.foldl_cons]
    rw [ih, ltMergeMentions_docs]

/-- An entity-merge pass leaves the paragraph list unchanged. -/
theorem foldl_ltMergeEntity_paras (qs : List Cache.SEntity) :
    ∀ LT0 : Transfer.LTStore,
      ((qs.foldl Transfer.ltMergeEntity LT0).paras) = LT0.paras := by
  induction qs with
  | nil => intro LT0; rfl
  | cons q qs ih =>
    intro LT0
    simp only [List.foldl_cons]
    rw [ih, ltMergeEntity_paras]

/-- The mention-edge pass leaves the paragraph list unchanged. -/
theorem foldl_ltMergeMentions_paras (eds : List (String × Cache.TargetRef)) :
    ∀ LT0 : Transfer.LTStore,
      ((eds.foldl (fun acc et => Transfer.ltMergeMentions acc et.1 et.2) LT0).paras)
        = LT0.paras := by
  induction eds with
  | nil => intro LT0; rfl
  | cons et eds ih =>
    intro LT0
    simp only [List.foldl_cons]
    rw [ih, ltMergeMentions_paras]

/-- The mention-edge pass leaves the entity list unchanged. -/
theorem foldl_ltMergeMentions_entities (eds : List (String × Cache.TargetRef)) :
    ∀ LT0 : Transfer.LTStore,
      ((eds.foldl (fun acc et => Transfer.ltMergeMentions acc et.1 et.2) LT0).entities)
        = LT0.entities := by
  induction eds with
  | nil => intro LT0; rfl
  | cons et eds ih =>
    intro LT0
    simp only [List.foldl_cons]
    rw [ih, ltMergeMentions_entities]

/-- A paragraph-merge pass leaves the entity list unchanged. -/
theorem foldl_ltMergeParagraph_entities (du : String) (qs : List Cache.SPara) :
    ∀ LT0 : Transfer.LTStore,
      ((qs.foldl (fun acc q => Transfer.ltMergeParagraph acc q du) LT0).entities)
        = LT0.entities := by
  induction qs with
  | nil => intro LT0; rfl
  | cons q qs ih =>
    intro LT0
    simp only [List.foldl_cons]
    rw [ih, ltMergeParagraph_entities]

/-- A paragraph-merge pass adds only copies taken from its input list. -/
theorem foldl_ltMergeParagraph_inv (du : String) (qs : List Cache.SPara)
    (hq : ∀ q ∈ qs, q.expiration ≠ none) :
    ∀ (LT0 : Transfer.LTStore) (p : Cache.SPara),
      p ∈ (qs.foldl (fun acc q => Transfer.ltMergeParagraph acc q du) LT0).paras →
      p ∈ LT0.paras ∨ p ∈ qs := by
  induction qs with
  | nil => intro LT0 p hp; exact Or.inl hp
  | cons q qs ih =>
    intro LT0 p hp
    simp only [List.foldl_cons] at hp
    rcases ih (fun x hx => hq x (by simp [hx])) _ p hp with h | h
    · rcases ltMergeParagraph_inv LT0 q du (hq q (by simp)) p h with h' | h'
      · exact Or.inl h'
      · exact Or.inr (by simp [h'])
    · exact Or.inr (by simp [h])

/-- An entity-merge pass adds only copies taken from its input list. -/
theorem foldl_ltMergeEntity_inv (qs : List Cache.SEntity)
    (hq : ∀ q ∈ qs, q.expiration ≠ none) :
    ∀ (LT0 : Transfer.LTStore) (e : Cache.SEntity),
      e ∈ (qs.foldl Transfer.ltMergeEntity LT0).entities →
      e ∈ LT0.entities ∨ e ∈ qs := by
  induction qs with
  | nil => intro LT0 e he; exact Or.inl he
  | cons q qs ih =>
    intro LT0 e he
    simp only [List.foldl_cons] at he
    rcases ih (fun x hx => hq x (by simp [hx])) _ e he with h | h
    · rcases ltMergeEntity_inv LT0 q (hq q (by simp)) e h with h' | h'
      · exact Or.inl h'
      · exact Or.inr (by simp [h'])
    · exact Or.inr (by simp [h])

/-- Claim C2 — amended.  For a document commit, only the `MENTIONS` edge
copies are stripped of `expiration` (any mention present afterwards is
either stripped or pre-existing); the node copies are written with their
working-set property maps verbatim, so the committed `Document` record
is exactly the short-store record — `expiration` included — and every
committed `Paragraph`/`Entity` record is a verbatim short-store record
(stated for working sets whose nodes carry a present `expiration`, as
promotion always stamps one). -/
theorem C2_amended (S : Cache.ShortStore) (LT : Transfer.LTStore)
    (d : Cache.SDoc) (ts : Int)
    (hP : ∀ p ∈ S.paragraphs, p.expiration ≠ none)
    (hE : ∀ e ∈ S.entities, e.expiration ≠ none) :
    (∀ m ∈ (Transfer.promote_one S LT d ts).1.mentions,
      m.expiration = none ∨ m ∈ LT.mentions) ∧
    (LT.docs = [] → (Transfer.promote_one S LT d ts).1.docs = [d]) ∧
    (∀ p ∈ (Transfer.promote_one S LT d ts).1.paras,
      p ∈ LT.paras ∨ p ∈ S.paragraphs) ∧
    (∀ e ∈ (Transfer.promote_one S LT d ts).1.entities,
      e ∈ LT.entities ∨ e ∈ S.entities) := by
  rw [promote_one_fst]
  refine ⟨?_, ?_, ?_, ?_⟩
  · intro m hm
    rcases foldl_ltMergeMentions_inv _ _ m hm with h | h
    · exact Or.inl h
    · rw [foldl_ltMergeEntity_mentions, foldl_ltMergeParagraph_mentions,
        ltMergeDocument_mentions] at h
      exact Or.inr h
  · intro hnil
    rw [foldl_ltMergeMentions_docs, foldl_ltMergeEntity_docs,
      foldl_ltMergeParagraph_docs]
    unfold Transfer.ltMergeDocument
    rw [hnil]
    rfl
  · intro p hp
    rw [foldl_ltMergeMentions_paras, foldl_ltMergeEntity_paras] at hp
    have hq : ∀ q ∈ Transfer.transferParas S d.doc_uuid, q.expiration ≠ none :=
      fun q hqmem => hP q (transferParas_subset S d.doc_uuid q hqmem)
    rcases foldl_ltMergeParagraph_inv _ _ hq _ p hp with h | h
    · rw [ltMergeDocument_paras] at h
      exact Or.inl h
    · exact Or.inr (transferParas_subset S d.doc_uuid p h)
  · intro e he
    rw [foldl_ltMergeMentions_entities] at he
    have hq : ∀ q ∈ Transfer.transferEntities S d.doc_uuid, q.expiration ≠ none :=
      fun q hqmem => hE q (transferEntities_subset S d.doc_uuid q hqmem)
    rcases foldl_ltMergeEntity_inv _ hq _ e he with h | h
    · rw [foldl_ltMergeParagraph_entities, ltMergeDocument_entities] at h
      exact Or.inl h
    · exact Or.inr (transferEntities_subset S d.doc_uuid e h)

/-- Claim C2 — witness at a one-document working set carrying
`expiration = 123`. -/
theorem C2_amended_witness :
    (∀ m ∈ (Transfer.promote_one
        ⟨[], [], [⟨"d1", "T", "C", "cat", some 123, none, none, none⟩], [], []⟩
        ⟨[], [], [], [], []⟩ ⟨"d1", "T", "C", "cat", some 123, none, none, none⟩ 77).1.mentions,
      m.expiration = none ∨ m ∈ (⟨[], [], [], [], []⟩ : Transfer.LTStore).mentions) ∧
    ((⟨[], [], [], [], []⟩ : Transfer.LTStore).docs = [] →
      (Transfer.promote_one
        ⟨[], [], [⟨"d1", "T", "C", "cat", some 123, none, none, none⟩], [], []⟩
        ⟨[], [], [], [], []⟩ ⟨"d1", "T", "C", "cat", some 123, none, none, none⟩ 77).1.docs
        = [⟨"d1", "T", "C", "cat", some 123, none, none, none⟩]) ∧
    (∀ p ∈ (Transfer.promote_one
        ⟨[], [], [⟨"d1", "T", "C", "cat", some 123, none, none, none⟩], [], []⟩
        ⟨[], [], [], [], []⟩ ⟨"d1", "T", "C", "cat", some 123, none, none, none⟩ 77).1.paras,
      p ∈ (⟨[], [], [], [], []⟩ : Transfer.LTStore).paras ∨
        p ∈ (⟨[], [], [⟨"d1", "T", "C", "cat", some 123, none, none, none⟩], [],
          []⟩ : Cache.ShortStore).paragraphs) ∧
    (∀ e ∈ (Transfer.promote_one
        ⟨[], [], [⟨"d1", "T", "C", "cat", some 123, none, none, none⟩], [], []⟩
        ⟨[], [], [], [], []⟩ ⟨"d1", "T", "C", "cat", some 123, none, none, none⟩ 77).1.entities,
      e ∈ (⟨[], [], [], [], []⟩ : Transfer.LTStore).entities ∨
        e ∈ (⟨[], [], [⟨"d1", "T", "C", "cat", some 123, none, none, none⟩], [],
          []⟩ : Cache.ShortStore).entities) :=
  C2_amended ⟨[], [], [⟨"d1", "T", "C", "cat", some 123, none, none, none⟩], [], []⟩
    ⟨[], [], [], [], []⟩ ⟨"d1", "T", "C", "cat", some 123, none, none, none⟩ 77
    (by decide) (by decide)

/-- Claim C3 — confirmed.  The shared visibility filter holds exactly
when `expiration` is unset, `0`, or strictly greater than `now`; a
paragraph all of whose `MENTIONS` edges are invisible has match count
`0` and is excluded from the fetch grouping (every returned row stems
from a paragraph with a positive match count); and the promotion read
sees exactly the visible subset of the authoritative `MENTIONS` edges
(filtering the store down to the visible edges leaves the query result
unchanged). -/
theorem C3_visibility (S : Cache.ShortStore) (keys : List (String × String))
    (L : Cache.LongStore) (name label : String) (now : Int) (topK : Nat) :
    (∀ e : Option Int, visibleExp e now = true ↔
      (e = none ∨ e = some 0 ∨ ∃ v, e = some v ∧ now < v)) ∧
    (∀ pid : String,
      (∀ m ∈ S.mentions, m.target = Cache.TargetRef.para pid →
        visibleExp m.expiration now = false) →
      Cache.fetchMatchCount S keys now pid = 0) ∧
    (∀ r ∈ Cache.fetch_paragraphs S keys now topK,
      ∃ t ∈ S.paragraphs, 0 < Cache.fetchMatchCount S keys now t.para_uuid ∧
        r = Cache.mkFetchRow S keys now t) ∧
    (Cache.promotionQuery L name label now =
      Cache.promotionQuery
        ⟨L.entities, L.paras, L.docs,
          L.mentions.filter (fun m => visibleExp m.expiration now), L.partOf⟩
        name label now) := by
  refine ⟨?_, ?_, ?_, ?_⟩
  · intro e
    cases e <;> simp [visibleExp]
  · intro pid h
    unfold Cache.fetchMatchCount
    rw [List.length_eq_zero, List.eq_nil_iff_forall_not_mem]
    intro m hm
    obtain ⟨e', _, hm'⟩ := List.mem_flatMap.mp hm
    obtain ⟨hmem, hcond⟩ := List.mem_filter.mp hm'
    simp only [Bool.and_eq_true, beq_iff_eq] at hcond
    have := h m hmem hcond.1.2
    rw [hcond.2] at this
    exact absurd this (by simp)
  · intro r hr
    unfold Cache.fetch_paragraphs at hr
    by_cases hk : keys.isEmpty = true
    · rw [if_pos hk] at hr
      exact absurd hr (List.not_mem_nil r)
    · rw [if_neg hk] at hr
      have hr1 : r ∈ ((S.paragraphs.filter (fun t =>
          decide (0 < Cache.fetchMatchCount S keys now t.para_uuid))).map
            (Cache.mkFetchRow S keys now)).mergeSort Cache.rankLE :=
        (List.take_sublist _ _).subset hr
      rw [(List.mergeSort_perm _ _).mem_iff] at hr1
      obtain ⟨t, ht, heq⟩ := List.mem_map.mp hr1
      obtain ⟨htmem, htc⟩ := List.mem_filter.mp ht
      exact ⟨t, htmem, of_decide_eq_true htc, heq.symm⟩
  · unfold Cache.promotionQuery
    have h : ∀ e : Cache.LEntity,
        (L.mentions.filter (fun m =>
          m.ent_uuid == e.ent_uuid && visibleExp m.expiration now))
          = ((L.mentions.filter (fun m => visibleExp m.expiration now)).filter
              (fun m => m.ent_uuid == e.ent_uuid && visibleExp m.expiration now)) := by
      intro e
      rw [List.filter_filter]
      apply List.filter_congr
      intro m _
      cases hv : visibleExp m.expiration now <;>
        cases he : (m.ent_uuid == e.ent_uuid) <;> simp [hv, he]
    apply congrArg
    funext e
    rw [h e]
    rfl

/-- Claim C3 — witness at a store holding one expired edge
(`expiration = now − 1` with `now = 1000`): the paragraph's match count
is zero and fetch returns nothing derived from it. -/
theorem C3_visibility_witness :
    (∀ e : Option Int, visibleExp e 1000 = true ↔
      (e = none ∨ e = some 0 ∨ ∃ v, e = some v ∧ 1000 < v)) ∧
    (∀ pid : String,
      (∀ m ∈ (⟨[⟨"e1", "acme", "ORG", some 999⟩],
          [⟨"p1", "txt", 0, "d1", some 999⟩], [],
          [⟨"e1", Cache.TargetRef.para "p1", some 999⟩], []⟩ : Cache.ShortStore).mentions,
        m.target = Cache.TargetRef.para pid →
        visibleExp m.expiration 1000 = false) →
      Cache.fetchMatchCount ⟨[⟨"e1", "acme", "ORG", some 999⟩],
          [⟨"p1", "txt", 0, "d1", some 999⟩], [],
          [⟨"e1", Cache.TargetRef.para "p1", some 999⟩], []⟩
        [("acme", "ORG")] 1000 pid = 0) ∧
    (∀ r ∈ Cache.fetch_paragraphs ⟨[⟨"e1", "acme", "ORG", some 999⟩],
          [⟨"p1", "txt", 0, "d1", some 999⟩], [],
          [⟨"e1", Cache.TargetRef.para "p1", some 999⟩], []⟩
        [("acme", "ORG")] 1000 10,
      ∃ t ∈ (⟨[⟨"e1", "acme", "ORG", some 999⟩],
          [⟨"p1", "txt", 0, "d1", some 999⟩], [],
          [⟨"e1", Cache.TargetRef.para "p1", some 999⟩], []⟩ : Cache.ShortStore).paragraphs,
        0 < Cache.fetchMatchCount ⟨[⟨"e1", "acme", "ORG", some 999⟩],
            [⟨"p1", "txt", 0, "d1", some 999⟩], [],
            [⟨"e1", Cache.TargetRef.para "p1", some 999⟩], []⟩
          [("acme", "ORG")] 1000 t.para_uuid ∧
        r = Cache.mkFetchRow ⟨[⟨"e1", "acme", "ORG", some 999⟩],
            [⟨"p1", "txt", 0, "d1", some 999⟩], [],
            [⟨"e1", Cache.TargetRef.para "p1", some 999⟩], []⟩
          [("acme", "ORG")] 1000 t) ∧
    (Cache.promotionQuery ⟨[], [], [], [], []⟩ "acme" "ORG" 1000 =
      Cache.promotionQuery
        ⟨[], [], [],
          ([] : List Cache.LMention).filter (fun m => visibleExp m.expiration 1000), []⟩
        "acme" "ORG" 1000) :=
  C3_visibility ⟨[⟨"e1", "acme", "ORG", some 999⟩],
      [⟨"p1", "txt", 0, "d1", some 999⟩], [],
      [⟨"e1", Cache.TargetRef.para "p1", some 999⟩], []⟩
    [("acme", "ORG")] ⟨[], [], [], [], []⟩ "acme" "ORG" 1000 10

/-- Entity merges leave the cached paragraph list unchanged. -/
theorem mergeEntity_paragraphs (S : Cache.ShortStore) (u n l : String) (exp : Int) :
    (Cache.mergeEntity S u n l exp).paragraphs = S.paragraphs := by
  unfold Cache.mergeEntity
  split <;> rfl

/-- Entity merges leave the cached document list unchanged. -/
theorem mergeEntity_documents (S : Cache.ShortStore) (u n l : String) (exp : Int) :
    (Cache.mergeEntity S u n l exp).documents = S.documents := by
  unfold Cache.mergeEntity
  split <;> rfl

/-- Entity merges leave the cached mention list unchanged. -/
theorem mergeEntity_mentions (S : Cache.ShortStore) (u n l : String) (exp : Int) :
    (Cache.mergeEntity S u n l exp).mentions = S.mentions := by
  unfold Cache.mergeEntity
  split <;> rfl

/-- Entity merges leave the cached `PART_OF` list unchanged. -/
theorem mergeEntity_partOf (S : Cache.ShortStore) (u n l : String) (exp : Int) :
    (Cache.mergeEntity S u n l exp).partOf = S.partOf := by
  unfold Cache.mergeEntity
  split <;> rfl

/-- Paragraph merges leave the cached entity list unchanged. -/
theorem mergeParagraph_entities (S : Cache.ShortStore) (u t : String) (i : Int)
    (du : String) (exp : Int) :
    (Cache.mergeParagraph S u t i du exp).entities = S.entities := by
  unfold Cache.mergeParagraph
  split <;> rfl

/-- Paragraph merges leave the cached document list unchanged. -/
theorem mergeParagraph_documents (S : Cache.ShortStore) (u t : String) (i : Int)
    (du : String) (exp : Int) :
    (Cache.mergeParagraph S u t i du exp).documents = S.documents := by
  unfold Cache.mergeParagraph
  split <;> rfl

/-- Paragraph merges leave the cached mention list unchanged. -/
theorem mergeParagraph_mentions (S : Cache.ShortStore) (u t : String) (i : Int)
    (du : String) (exp : Int) :
    (Cache.mergeParagraph S u t i du exp).mentions = S.mentions := by
  unfold Cache.mergeParagraph
  split <;> rfl

/-- Paragraph merges leave the cached `PART_OF` list unchanged. -/
theorem mergeParagraph_partOf (S : Cache.ShortStore) (u t : String) (i : Int)
    (du : String) (exp : Int) :
    (Cache.mergeParagraph S u t i du exp).partOf = S.partOf := by
  unfold Cache.mergeParagraph
  split <;> rfl

/-- Document merges leave the cached entity list unchanged. -/
theorem mergeDocument_entities (S : Cache.ShortStore) (u t c g : String) (exp : Int) :
    (Cache.mergeDocument S u t c g exp).entities = S.entities := by
  unfold Cache.mergeDocument
  split <;> rfl

/-- Document merges leave the cached paragraph list unchanged. -/
theorem mergeDocument_paragraphs (S : Cache.ShortStore) (u t c g : String) (exp : Int) :
    (Cache.mergeDocument S u t c g exp).paragraphs = S.paragraphs := by
  unfold Cache.mergeDocument
  split <;> rfl

/-- Document merges leave the cached mention list unchanged. -/
theorem mergeDocument_mentions (S : Cache.ShortStore) (u t c g : String) (exp : Int) :
    (Cache.mergeDocument S u t c g exp).mentions = S.mentions := by
  unfold Cache.mergeDocument
  split <;> rfl

/-- Document merges leave the cached `PART_OF` list unchanged. -/
theorem mergeDocument_partOf (S : Cache.ShortStore) (u t c g : String) (exp : Int) :
    (Cache.mergeDocument S u t c g exp).partOf = S.partOf := by
  unfold Cache.mergeDocument
  split <;> rfl

/-- `PART_OF` merges leave the cached entity list unchanged. -/
theorem mergePartOf_entities (S : Cache.ShortStore) (p d : String) :
    (Cache.mergePartOf S p d).entities = S.entities := by
  unfold Cache.mergePartOf
  split
  · split <;> rfl
  · rfl

/-- `PART_OF` merges leave the cached paragraph list unchanged. -/
theorem mergePartOf_paragraphs (S : Cache.ShortStore) (p d : String) :
    (Cache.mergePartOf S p d).paragraphs = S.paragraphs := by
  unfold Cache.mergePartOf
  split
  · split <;> rfl
  · rfl

/-- `PART_OF` merges leave the cached document list unchanged. -/
theorem mergePartOf_documents (S : Cache.ShortStore) (p d : String) :
    (Cache.mergePartOf S p d).documents = S.documents := by
  unfold Cache.mergePartOf
  split
  · split <;> rfl
  · rfl

/-- `PART_OF` merges leave the cached mention list unchanged. -/
theorem mergePartOf_mentions (S : Cache.ShortStore) (p d : String) :
    (Cache.mergePartOf S p d).mentions = S.mentions := by
  unfold Cache.mergePartOf
  split
  · split <;> rfl
  · rfl

/-- Mention merges leave the cached entity list unchanged. -/
theorem mergeMentions_entities (S : Cache.ShortStore) (ent : String)
    (t : Cache.TargetRef) (exp : Int) :
    (Cache.mergeMentions S ent t exp).entities = S.entities := by
  unfold Cache.mergeMentions
  split
  · split <;> rfl
  · rfl

/-- Mention merges leave the cached paragraph list unchanged. -/
theorem mergeMentions_paragraphs (S : Cache.ShortStore) (ent : String)
    (t : Cache.TargetRef) (exp : Int) :
    (Cache.mergeMentions S ent t exp).paragraphs = S.paragraphs := by
  unfold Cache.mergeMentions
  split
  · split <;> rfl
  · rfl

/-- Mention merges leave the cached document list unchanged. -/
theorem mergeMentions_documents (S : Cache.ShortStore) (ent : String)
    (t : Cache.TargetRef) (exp : Int) :
    (Cache.mergeMentions S ent t exp).documents = S.documents := by
  unfold Cache.mergeMentions
  split
  · split <;> rfl
  · rfl

/-- Mention merges leave the cached `PART_OF` list unchanged. -/
theorem mergeMentions_partOf (S : Cache.ShortStore) (ent : String)
    (t : Cache.TargetRef) (exp : Int) :
    (Cache.mergeMentions S ent t exp).partOf = S.partOf := by
  unfold Cache.mergeMentions
  split
  · split <;> rfl
  · rfl

/-- `_merge_entity` (cache) keeps every pre-existing entity, changing at
most its `expiration`. -/
theorem mergeEntity_frame (S : Cache.ShortStore) (u n l : String) (exp : Int) :
    ∀ e ∈ S.entities, ∃ e', e' ∈ (Cache.mergeEntity S u n l exp).entities ∧
      e'.ent_uuid = e.ent_uuid ∧ e'.name = e.name ∧ e'.label = e.label ∧
      (e'.expiration = e.expiration ∨ e'.expiration = some exp) := by
  intro e he
  unfold Cache.mergeEntity
  by_cases h : (S.entities.any (fun x => x.ent_uuid == u)) = true
  · rw [if_pos h]
    by_cases h2 : (e.ent_uuid == u) = true
    · exact ⟨{ e with expiration := some exp },
        List.mem_map.mpr ⟨e, he, by rw [if_pos h2]⟩, rfl, rfl, rfl, Or.inr rfl⟩
    · exact ⟨e, List.mem_map.mpr ⟨e, he, by rw [if_neg h2]⟩, rfl, rfl, rfl, Or.inl rfl⟩
  · rw [if_neg h]
    exact ⟨e, List.mem_append_left _ he, rfl, rfl, rfl, Or.inl rfl⟩

/-- `_merge_paragraph` (cache) keeps every pre-existing paragraph,
changing at most its `expiration`. -/
theorem mergeParagraph_frame (S : Cache.ShortStore) (u t : String) (i : Int)
    (du : String) (exp : Int) :
    ∀ p ∈ S.paragraphs, ∃ p', p' ∈ (Cache.mergeParagraph S u t i du exp).paragraphs ∧
      p'.para_uuid = p.para_uuid ∧ p'.text = p.text ∧ p'.index = p.index ∧
      p'.doc_uuid = p.doc_uuid ∧
      (p'.expiration = p.expiration ∨ p'.expiration = some exp) := by
  intro p hp
  unfold Cache.mergeParagraph
  by_cases h : (S.paragraphs.any (fun x => x.para_uuid == u)) = true
  · rw [if_pos h]
    by_cases h2 : (p.para_uuid == u) = true
    · exact ⟨{ p with expiration := some exp },
        List.mem_map.mpr ⟨p, hp, by rw [if_pos h2]⟩, rfl, rfl, rfl, rfl, Or.inr rfl⟩
    · exact ⟨p, List.mem_map.mpr ⟨p, hp, by rw [if_neg h2]⟩, rfl, rfl, rfl, rfl, Or.inl rfl⟩
  · rw [if_neg h]
    exact ⟨p, List.mem_append_left _ hp, rfl, rfl, rfl, rfl, Or.inl rfl⟩

/-- `_merge_document` (cache) keeps every pre-existing document,
changing at most its `expiration`. -/
theorem mergeDocument_frame (S : Cache.ShortStore) (u t c g : String) (exp : Int) :
    ∀ d ∈ S.documents, ∃ d', d' ∈ (Cache.mergeDocument S u t c g exp).documents ∧
      d'.doc_uuid = d.doc_uuid ∧ d'.title = d.title ∧ d'.content = d.content ∧
      d'.category = d.category ∧ d'.promoted = d.promoted ∧
      d'.promotedAt = d.promotedAt ∧ d'.validated = d.validated ∧
      (d'.expiration = d.expiration ∨ d'.expiration = some exp) := by
  intro d hd
  unfold Cache.mergeDocument
  by_cases h : (S.documents.any (fun x => x.doc_uuid == u)) = true
  · rw [if_pos h]
    by_cases h2 : (d.doc_uuid == u) = true
    · exact ⟨{ d with expiration := some exp },
        List.mem_map.mpr ⟨d, hd, by rw [if_pos h2]⟩, rfl, rfl, rfl, rfl, rfl, rfl, rfl,
        Or.inr rfl⟩
    · exact ⟨d, List.mem_map.mpr ⟨d, hd, by rw [if_neg h2]⟩, rfl, rfl, rfl, rfl, rfl, rfl,
        rfl, Or.inl rfl⟩
  · rw [if_neg h]
    exact ⟨d, List.mem_append_left _ hd, rfl, rfl, rfl, rfl, rfl, rfl, rfl, Or.inl rfl⟩

/-- The per-paragraph write loop of `promote_entity` leaves the cached
entity list unchanged. -/
theorem promoteParasFold_entities (ent : String) (exp : Int) (ps : List Cache.LPara) :
    ∀ S0 : Cache.ShortStore,
      ((ps.foldl (fun S p => Cache.mergeMentions
          (Cache.mergePartOf (Cache.mergeParagraph S p.para_uuid p.text p.index p.doc_uuid exp)
            p.para_uuid p.doc_uuid)
          ent (Cache.TargetRef.para p.para_uuid) exp) S0).entities) = S0.entities := by
  induction ps with
  | nil => intro S0; rfl
  | cons q qs ih =>
    intro S0
    simp only [List.foldl_cons]
    rw [ih, mergeMentions_entities, mergePartOf_entities, mergeParagraph_entities]

/-- The per-paragraph write loop leaves the cached document list
unchanged. -/
theorem promoteParasFold_documents (ent : String) (exp : Int) (ps : List Cache.LPara) :
    ∀ S0 : Cache.ShortStore,
      ((ps.foldl (fun S p => Cache.mergeMentions
          (Cache.mergePartOf (Cache.mergeParagraph S p.para_uuid p.text p.index p.doc_uuid exp)
            p.para_uuid p.doc_uuid)
          ent (Cache.TargetRef.para p.para_uuid) exp) S0).documents) = S0.documents := by
  induction ps with
  | nil => intro S0; rfl
  | cons q qs ih =>
    intro S0
    simp only [List.foldl_cons]
    rw [ih, mergeMentions_documents, mergePartOf_documents, mergeParagraph_documents]

/-- The per-paragraph write loop keeps every pre-existing paragraph,
changing at most its `expiration`. -/
theorem promoteParasFold_frame_para (ent : String) (exp : Int) (ps : List Cache.LPara) :
    ∀ (S0 : Cache.ShortStore), ∀ p ∈ S0.paragraphs,
      ∃ p', p' ∈ ((ps.foldl (fun S p => Cache.mergeMentions
          (Cache.mergePartOf (Cache.mergeParagraph S p.para_uuid p.text p.index p.doc_uuid exp)
            p.para_uuid p.doc_uuid)
          ent (Cache.TargetRef.para p.para_uuid) exp) S0).paragraphs) ∧
        p'.para_uuid = p.para_uuid ∧ p'.text = p.text ∧ p'.index = p.index ∧
        p'.doc_uuid = p.doc_uuid ∧
        (p'.expiration = p.expiration ∨ p'.expiration = some exp) := by
  induction ps with
  | nil => intro S0 p hp; exact ⟨p, hp, rfl, rfl, rfl, rfl, Or.inl rfl⟩
  | cons q qs ih =>
    intro S0 p hp
    obtain ⟨p1, hp1, h1u, h1t, h1i, h1d, h1e⟩ :=
      mergeParagraph_frame S0 q.para_uuid q.text q.index q.doc_uuid exp p hp
    have hp1' : p1 ∈ (Cache.mergeMentions
        (Cache.mergePartOf (Cache.mergeParagraph S0 q.para_uuid q.text q.index q.doc_uuid exp)
          q.para_uuid q.doc_uuid)
        ent (Cache.TargetRef.para q.para_uuid) exp).paragraphs := by
      rw [mergeMentions_paragraphs, mergePartOf_paragraphs]
      exact hp1
    obtain ⟨p', hp', h2u, h2t, h2i, h2d, h2e⟩ := ih _ p1 hp1'
    refine ⟨p', by simpa only [List.foldl_cons] using hp',
      h2u.trans h1u, h2t.trans h1t, h2i.trans h1i, h2d.trans h1d, ?_⟩
    rcases h2e with h2e | h2e
    · rcases h1e with h1e | h1e
      · exact Or.inl (h2e.trans h1e)
      · exact Or.inr (h2e.trans h1e)
    · exact Or.inr h2e

/-- Processing one promotion record leaves the cached entity list equal
to the entity merge alone. -/
theorem promoteRow_entities (pd : Bool) (exp : Int) (S : Cache.ShortStore)
    (row : Cache.PromoRow) :
    (Cache.promoteRow pd exp S row).entities =
      (Cache.mergeEntity S row.ent.ent_uuid row.ent.name row.ent.label exp).entities := by
  unfold Cache.promoteRow
  rw [promoteParasFold_entities]
  cases row.resolved with
  | toDoc dn =>
    dsimp only
    by_cases hpd : pd = true
    · rw [if_pos hpd, mergeMentions_entities, mergeDocument_entities]
    · rw [if_neg hpd]
  | orphan pid => rfl

/-- Processing one promotion record keeps every pre-existing paragraph,
changing at most its `expiration`. -/
theorem promoteRow_frame_para (pd : Bool) (exp : Int) (S : Cache.ShortStore)
    (row : Cache.PromoRow) :
    ∀ p ∈ S.paragraphs, ∃ p', p' ∈ (Cache.promoteRow pd exp S row).paragraphs ∧
      p'.para_uuid = p.para_uuid ∧ p'.text = p.text ∧ p'.index = p.index ∧
      p'.doc_uuid = p.doc_uuid ∧
      (p'.expiration = p.expiration ∨ p'.expiration = some exp) := by
  intro p hp
  unfold Cache.promoteRow
  apply promoteParasFold_frame_para
  cases row.resolved with
  | toDoc dn =>
    dsimp only
    by_cases hpd : pd = true
    · rw [if_pos hpd, mergeMentions_paragraphs, mergeDocument_paragraphs,
        mergeEntity_paragraphs]
      exact hp
    · rw [if_neg hpd, mergeEntity_paragraphs]
      exact hp
  | orphan pid =>
    dsimp only
    rw [mergeEntity_paragraphs]
    exact hp

/-- Processing one promotion record keeps every pre-existing document,
changing at most its `expiration`. -/
theorem promoteRow_frame_doc (pd : Bool) (exp : Int) (S : Cache.ShortStore)
    (row : Cache.PromoRow) :
    ∀ d ∈ S.documents, ∃ d', d' ∈ (Cache.promoteRow pd exp S row).documents ∧
      d'.doc_uuid = d.doc_uuid ∧ d'.title = d.title ∧ d'.content = d.content ∧
      d'.category = d.category ∧ d'.promoted = d.promoted ∧
      d'.promotedAt = d.promotedAt ∧ d'.validated = d.validated ∧
      (d'.expiration = d.expiration ∨ d'.expiration = some exp) := by
  intro d hd
  unfold Cache.promoteRow
  have hd1 : d ∈ (Cache.mergeEntity S row.ent.ent_uuid row.ent.name row.ent.label
      exp).documents := by
    rw [mergeEntity_documents]
    exact hd
  cases row.resolved with
  | toDoc dn =>
    dsimp only
    by_cases hpd : pd = true
    · rw [if_pos hpd]
      obtain ⟨d', hd', hprops⟩ :=
        mergeDocument_frame _ dn.doc_uuid dn.title dn.content dn.category exp d hd1
      refine ⟨d', ?_, hprops⟩
      rw [promoteParasFold_documents, mergeMentions_documents]
      exact hd'
    · rw [if_neg hpd]
      exact ⟨d, by rw [promoteParasFold_documents]; exact hd1, rfl, rfl, rfl, rfl, rfl,
        rfl, rfl, Or.inl rfl⟩
  | orphan pid =>
    dsimp only
    exact ⟨d, by rw [promoteParasFold_documents]; exact hd1, rfl, rfl, rfl, rfl, rfl,
      rfl, rfl, Or.inl rfl⟩

/-- Processing one promotion record keeps every pre-existing entity,
changing at most its `expiration`. -/
theorem promoteRow_frame_ent (pd : Bool) (exp : Int) (S : Cache.ShortStore)
    (row : Cache.PromoRow) :
    ∀ e ∈ S.entities, ∃ e', e' ∈ (Cache.promoteRow pd exp S row).entities ∧
      e'.ent_uuid = e.ent_uuid ∧ e'.name = e.name ∧ e'.label = e.label ∧
      (e'.expiration = e.expiration ∨ e'.expiration = some exp) := by
  intro e he
  rw [promoteRow_entities]
  exact mergeEntity_frame S row.ent.ent_uuid row.ent.name row.ent.label exp e he

/-- A whole promotion pass keeps every pre-existing entity, changing at
most its `expiration`. -/
theorem promoteFold_frame_ent (pd : Bool) (exp : Int) (rows : List Cache.PromoRow) :
    ∀ (S : Cache.ShortStore), ∀ e ∈ S.entities,
      ∃ e', e' ∈ (rows.foldl (Cache.promoteRow pd exp) S).entities ∧
        e'.ent_uuid = e.ent_uuid ∧ e'.name = e.name ∧ e'.label = e.label ∧
        (e'.expiration = e.expiration ∨ e'.expiration = some exp) := by
  induction rows with
  | nil => intro S e he; exact ⟨e, he, rfl, rfl, rfl, Or.inl rfl⟩
  | cons row rows ih =>
    intro S e he
    obtain ⟨e1, he1, h1u, h1n, h1l, h1e⟩ := promoteRow_frame_ent pd exp S row e he
    obtain ⟨e', he', h2u, h2n, h2l, h2e⟩ := ih _ e1 he1
    refine ⟨e', by simpa only [List.foldl_cons] using he',
      h2u.trans h1u, h2n.trans h1n, h2l.trans h1l, ?_⟩
    rcases h2e with h2e | h2e
    · rcases h1e with h1e | h1e
      · exact Or.inl (h2e.trans h1e)
      · exact Or.inr (h2e.trans h1e)
    · exact Or.inr h2e

/-- A whole promotion pass keeps every pre-existing paragraph, changing
at most its `expiration`. -/
theorem promoteFold_frame_para (pd : Bool) (exp : Int) (rows : List Cache.PromoRow) :
    ∀ (S : Cache.ShortStore), ∀ p ∈ S.paragraphs,
      ∃ p', p' ∈ (rows.foldl (Cache.promoteRow pd exp) S).paragraphs ∧
        p'.para_uuid = p.para_uuid ∧ p'.text = p.text ∧ p'.index = p.index ∧
        p'.doc_uuid = p.doc_uuid ∧
        (p'.expiration = p.expiration ∨ p'.expiration = some exp) := by
  induction rows with
  | nil => intro S p hp; exact ⟨p, hp, rfl, rfl, rfl, rfl, Or.inl rfl⟩
  | cons row rows ih =>
    intro S p hp
    obtain ⟨p1, hp1, h1u, h1t, h1i, h1d, h1e⟩ := promoteRow_frame_para pd exp S row p hp
    obtain ⟨p', hp', h2u, h2t, h2i, h2d, h2e⟩ := ih _ p1 hp1
    refine ⟨p', by simpa only [List.foldl_cons] using hp',
      h2u.trans h1u, h2t.trans h1t, h2i.trans h1i, h2d.trans h1d, ?_⟩
    rcases h2e with h2e | h2e
    · rcases h1e with h1e | h1e
      · exact Or.inl (h2e.trans h1e)
      · exact Or.inr (h2e.trans h1e)
    · exact Or.inr h2e

/-- A whole promotion pass keeps every pre-existing document, changing
at most its `expiration`. -/
theorem promoteFold_frame_doc (pd : Bool) (exp : Int) (rows : List Cache.PromoRow) :
    ∀ (S : Cache.ShortStore), ∀ d ∈ S.documents,
      ∃ d', d' ∈ (rows.foldl (Cache.promoteRow pd exp) S).documents ∧
        d'.doc_uuid = d.doc_uuid ∧ d'.title = d.title ∧ d'.content = d.content ∧
        d'.category = d.category ∧ d'.promoted = d.promoted ∧
        d'.promotedAt = d.promotedAt ∧ d'.validated = d.validated ∧
        (d'.expiration = d.expiration ∨ d'.expiration = some exp) := by
  induction rows with
  | nil => intro S d hd; exact ⟨d, hd, rfl, rfl, rfl, rfl, rfl, rfl, rfl, Or.inl rfl⟩
  | cons row rows ih =>
    intro S d hd
    obtain ⟨d1, hd1, h1u, h1t, h1c, h1g, h1p, h1a, h1v, h1e⟩ :=
      promoteRow_frame_doc pd exp S row d hd
    obtain ⟨d', hd', h2u, h2t, h2c, h2g, h2p, h2a, h2v, h2e⟩ := ih _ d1 hd1
    refine ⟨d', by simpa only [List.foldl_cons] using hd',
      h2u.trans h1u, h2t.trans h1t, h2c.trans h1c, h2g.trans h1g, h2p.trans h1p,
      h2a.trans h1a, h2v.trans h1v, ?_⟩
    rcases h2e with h2e | h2e
    · rcases h1e with h1e | h1e
      · exact Or.inl (h2e.trans h1e)
      · exact Or.inr (h2e.trans h1e)
    · exact Or.inr h2e

/-- Claim C10 — confirmed.  A promotion pass touching nodes already
present in the working-set store changes at most their `expiration`
property: every pre-existing `Entity`, `Paragraph` or `Document` node is
still present afterwards with its identifying and content properties
(`name`, `label`, `text`, `index`, `doc_uuid`, `title`, `content`,
`category`, and the bookkeeping flags) unchanged, and an `expiration`
that is either untouched or overwritten with the promotion stamp. -/
theorem C10_frame (pd : Bool) (L : Cache.LongStore) (S : Cache.ShortStore)
    (name label : String) (now exp : Int) :
    (∀ e ∈ S.entities,
      ∃ e', e' ∈ (Cache.promoteWithExp pd L S name label now exp).entities ∧
        e'.ent_uuid = e.ent_uuid ∧ e'.name = e.name ∧ e'.label = e.label ∧
        (e'.expiration = e.expiration ∨ e'.expiration = some exp)) ∧
    (∀ p ∈ S.paragraphs,
      ∃ p', p' ∈ (Cache.promoteWithExp pd L S name label now exp).paragraphs ∧
        p'.para_uuid = p.para_uuid ∧ p'.text = p.text ∧ p'.index = p.index ∧
        p'.doc_uuid = p.doc_uuid ∧
        (p'.expiration = p.expiration ∨ p'.expiration = some exp)) ∧
    (∀ d ∈ S.documents,
      ∃ d', d' ∈ (Cache.promoteWithExp pd L S name label now exp).documents ∧
        d'.doc_uuid = d.doc_uuid ∧ d'.title = d.title ∧ d'.content = d.content ∧
        d'.category = d.category ∧ d'.promoted = d.promoted ∧
        d'.promotedAt = d.promotedAt ∧ d'.validated = d.validated ∧
        (d'.expiration = d.expiration ∨ d'.expiration = some exp)) :=
  ⟨fun e he => promoteFold_frame_ent pd exp (Cache.promotionQuery L name label now) S e he,
   fun p hp => promoteFold_frame_para pd exp (Cache.promotionQuery L name label now) S p hp,
   fun d hd => promoteFold_frame_doc pd exp (Cache.promotionQuery L name label now) S d hd⟩

/-- Claim C10 — witness: a store holding one entity, one paragraph and
one document, re-promoted from a one-document authoritative store. -/
theorem C10_frame_witness :
    (∀ e ∈ (⟨[⟨"e1", "acme", "ORG", some 5⟩], [⟨"p1", "txt", 0, "d1", some 5⟩],
        [⟨"d1", "T", "C", "cat", some 5, none, none, none⟩],
        [], []⟩ : Cache.ShortStore).entities,
      ∃ e', e' ∈ (Cache.promoteWithExp true
          ⟨[⟨"e1", "acme", "ORG", some 0⟩], [⟨"p1", "txt", 0, "d1", some 0⟩],
            [⟨"d1", "T", "C", "cat", some 0⟩],
            [⟨"e1", Cache.TargetRef.para "p1", some 0⟩], [⟨"p1", "d1", some 0⟩]⟩
          ⟨[⟨"e1", "acme", "ORG", some 5⟩], [⟨"p1", "txt", 0, "d1", some 5⟩],
            [⟨"d1", "T", "C", "cat", some 5, none, none, none⟩], [], []⟩
          "acme" "ORG" 100 160).entities ∧
        e'.ent_uuid = e.ent_uuid ∧ e'.name = e.name ∧ e'.label = e.label ∧
        (e'.expiration = e.expiration ∨ e'.expiration = some 160)) ∧
    (∀ p ∈ (⟨[⟨"e1", "acme", "ORG", some 5⟩], [⟨"p1", "txt", 0, "d1", some 5⟩],
        [⟨"d1", "T", "C", "cat", some 5, none, none, none⟩],
        [], []⟩ : Cache.ShortStore).paragraphs,
      ∃ p', p' ∈ (Cache.promoteWithExp true
          ⟨[⟨"e1", "acme", "ORG", some 0⟩], [⟨"p1", "txt", 0, "d1", some 0⟩],
            [⟨"d1", "T", "C", "cat", some 0⟩],
            [⟨"e1", Cache.TargetRef.para "p1", some 0⟩], [⟨"p1", "d1", some 0⟩]⟩
          ⟨[⟨"e1", "acme", "ORG", some 5⟩], [⟨"p1", "txt", 0, "d1", some 5⟩],
            [⟨"d1", "T", "C", "cat", some 5, none, none, none⟩], [], []⟩
          "acme" "ORG" 100 160).paragraphs ∧
        p'.para_uuid = p.para_uuid ∧ p'.text = p.text ∧ p'.index = p.index ∧
        p'.doc_uuid = p.doc_uuid ∧
        (p'.expiration = p.expiration ∨ p'.expiration = some 160)) ∧
    (∀ d ∈ (⟨[⟨"e1", "acme", "ORG", some 5⟩], [⟨"p1", "txt", 0, "d1", some 5⟩],
        [⟨"d1", "T", "C", "cat", some 5, none, none, none⟩],
        [], []⟩ : Cache.ShortStore).documents,
      ∃ d', d' ∈ (Cache.promoteWithExp true
          ⟨[⟨"e1", "acme", "ORG", some 0⟩], [⟨"p1", "txt", 0, "d1", some 0⟩],
            [⟨"d1", "T", "C", "cat", some 0⟩],
            [⟨"e1", Cache.TargetRef.para "p1", some 0⟩], [⟨"p1", "d1", some 0⟩]⟩
          ⟨[⟨"e1", "acme", "ORG", some 5⟩], [⟨"p1", "txt", 0, "d1", some 5⟩],
            [⟨"d1", "T", "C", "cat", some 5, none, none, none⟩], [], []⟩
          "acme" "ORG" 100 160).documents ∧
        d'.doc_uuid = d.doc_uuid ∧ d'.title = d.title ∧ d'.content = d.content ∧
        d'.category = d.category ∧ d'.promoted = d.promoted ∧
        d'.promotedAt = d.promotedAt ∧ d'.validated = d.validated ∧
        (d'.expiration = d.expiration ∨ d'.expiration = some 160)) :=
  C10_frame true
    ⟨[⟨"e1", "acme", "ORG", some 0⟩], [⟨"p1", "txt", 0, "d1", some 0⟩],
      [⟨"d1", "T", "C", "cat", some 0⟩],
      [⟨"e1", Cache.TargetRef.para "p1", some 0⟩], [⟨"p1", "d1", some 0⟩]⟩
    ⟨[⟨"e1", "acme", "ORG", some 5⟩], [⟨"p1", "txt", 0, "d1", some 5⟩],
      [⟨"d1", "T", "C", "cat", some 5, none, none, none⟩], [], []⟩
    "acme" "ORG" 100 160

/-- The fetch comparator is transitive. -/
theorem rankLE_trans (a b c : Cache.FetchRow) (h1 : Cache.rankLE a b = true)
    (h2 : Cache.rankLE b c = true) : Cache.rankLE a c = true := by
  simp only [Cache.rankLE, Bool.or_eq_true, Bool.and_eq_true, decide_eq_true_eq,
    beq_iff_eq] at h1 h2 ⊢
  omega

/-- The fetch comparator is total. -/
theorem rankLE_total (a b : Cache.FetchRow) :
    (Cache.rankLE a b || Cache.rankLE b a) = true := by
  simp only [Cache.rankLE, Bool.or_eq_true, Bool.and_eq_true, decide_eq_true_eq,
    beq_iff_eq]
  omega

/-- With `MENTIONS` edges unique per `(entity, target)` key, the edge
rows one entity contributes to one paragraph group collapse to an
indicator. -/
theorem mentions_filter_len (u pid : String) (now : Int) (ms : List Cache.SMention)
    (hm : ms.Pairwise (fun a b => ¬(a.ent_uuid = b.ent_uuid ∧ a.target = b.target))) :
    (ms.filter (fun m => m.ent_uuid == u && m.target == Cache.TargetRef.para pid &&
        visibleExp m.expiration now)).length
      = if ms.any (fun m => m.ent_uuid == u && m.target == Cache.TargetRef.para pid &&
          visibleExp m.expiration now) then 1 else 0 := by
  induction ms with
  | nil => rfl
  | cons m ms ih =>
    rcases List.pairwise_cons.mp hm with ⟨hhead, htail⟩
    by_cases hc : (m.ent_uuid == u && m.target == Cache.TargetRef.para pid &&
        visibleExp m.expiration now) = true
    · have hrest : (ms.filter (fun m => m.ent_uuid == u &&
          m.target == Cache.TargetRef.para pid && visibleExp m.expiration now)) = [] := by
        rw [List.filter_eq_nil_iff]
        intro x hx hxc
        simp only [Bool.and_eq_true, beq_iff_eq] at hc hxc
        exact hhead x hx ⟨hc.1.1.trans hxc.1.1.symm, hc.1.2.trans hxc.1.2.symm⟩
      simp [List.filter_cons, List.any_cons, hc, hrest]
    · have hc' : (m.ent_uuid == u && m.target == Cache.TargetRef.para pid &&
          visibleExp m.expiration now) = false := by
        simpa using hc
      simp only [List.filter_cons, List.any_cons, hc', Bool.false_or, if_false]
      exact ih htail

/-- With unique edges, the fetch `count(e)` of a paragraph equals the
number of stored entities from the input key set that mention it through
a currently-visible edge (one count per distinct entity node). -/
theorem fetchMatchCount_eq (S : Cache.ShortStore) (keys : List (String × String))
    (now : Int) (pid : String)
    (hm : S.mentions.Pairwise (fun a b => ¬(a.ent_uuid = b.ent_uuid ∧ a.target = b.target))) :
    Cache.fetchMatchCount S keys now pid
      = (S.entities.filter (fun e => Cache.keyMatch keys e &&
          S.mentions.any (fun m => m.ent_uuid == e.ent_uuid &&
            m.target == Cache.TargetRef.para pid && visibleExp m.expiration now))).length := by
  unfold Cache.fetchMatchCount
  induction S.entities with
  | nil => rfl
  | cons e es ih =>
    by_cases hk : Cache.keyMatch keys e = true
    · rw [List.filter_cons_of_pos hk, List.flatMap_cons, List.length_append,
        mentions_filter_len e.ent_uuid pid now S.mentions hm]
      by_cases ha : (S.mentions.any (fun m => m.ent_uuid == e.ent_uuid &&
          m.target == Cache.TargetRef.para pid && visibleExp m.expiration now)) = true
      · rw [List.filter_cons_of_pos (by simp [hk, ha]), if_pos ha, List.length_cons, ih]
        omega
      · rw [List.filter_cons_of_neg (by simp [hk, ha]), if_neg ha, ih]
        omega
    · rw [List.filter_cons_of_neg (by simpa using hk),
        List.filter_cons_of_neg (by simp [hk]), ih]

/-- Claim C6 — confirmed.  For a working set whose `MENTIONS` edges are
unique per `(entity, target)` key (the invariant every `MERGE` upholds),
Fetch groups the visible matches by paragraph; every returned row stems
from a stored paragraph whose `matchCount` equals the number of distinct
stored entities from the input key set that visibly mention it, and is
positive; the result is ordered by `matchCount` descending with the
paragraph ordinal index ascending as tie-break; and it is truncated to
`topK`. -/
theorem C6_rank (S : Cache.ShortStore) (keys : List (String × String))
    (now : Int) (topK : Nat)
    (hm : S.mentions.Pairwise (fun a b => ¬(a.ent_uuid = b.ent_uuid ∧ a.target = b.target))) :
    (Cache.fetch_paragraphs S keys now topK).length ≤ topK ∧
    (Cache.fetch_paragraphs S keys now topK).Pairwise (fun a b =>
      b.matchingEntities < a.matchingEntities ∨
        (a.matchingEntities = b.matchingEntities ∧ a.idx ≤ b.idx)) ∧
    (∀ r ∈ Cache.fetch_paragraphs S keys now topK,
      ∃ t ∈ S.paragraphs, r = Cache.mkFetchRow S keys now t ∧
        r.matchingEntities = (S.entities.filter (fun e => Cache.keyMatch keys e &&
          S.mentions.any (fun m => m.ent_uuid == e.ent_uuid &&
            m.target == Cache.TargetRef.para t.para_uuid &&
            visibleExp m.expiration now))).length ∧
        0 < r.matchingEntities) := by
  refine ⟨?_, ?_, ?_⟩
  · unfold Cache.fetch_paragraphs
    by_cases hk : keys.isEmpty = true
    · rw [if_pos hk]
      simp
    · rw [if_neg hk]
      exact List.length_take_le _ _
  · unfold Cache.fetch_paragraphs
    by_cases hk : keys.isEmpty = true
    · rw [if_pos hk]
      exact List.Pairwise.nil
    · rw [if_neg hk]
      have hs := @List.sorted_mergeSort _ Cache.rankLE
        (fun a b c => rankLE_trans a b c) rankLE_total
        ((S.paragraphs.filter (fun t =>
          decide (0 < Cache.fetchMatchCount S keys now t.para_uuid))).map
            (Cache.mkFetchRow S keys now))
      have hp := List.Pairwise.sublist (List.take_sublist topK _) hs
      refine hp.imp ?_
      intro a b hab
      simpa only [Cache.rankLE, Bool.or_eq_true, Bool.and_eq_true, decide_eq_true_eq,
        beq_iff_eq] using hab
  · intro r hr
    unfold Cache.fetch_paragraphs at hr
    by_cases hk : keys.isEmpty = true
    · rw [if_pos hk] at hr
      exact absurd hr (List.not_mem_nil r)
    · rw [if_neg hk] at hr
      have hr1 : r ∈ ((S.paragraphs.filter (fun t =>
          decide (0 < Cache.fetchMatchCount S keys now t.para_uuid))).map
            (Cache.mkFetchRow S keys now)).mergeSort Cache.rankLE :=
        (List.take_sublist _ _).subset hr
      rw [(List.mergeSort_perm _ _).mem_iff] at hr1
      obtain ⟨t, ht, heq⟩ := List.mem_map.mp hr1
      obtain ⟨htmem, htc⟩ := List.mem_filter.mp ht
      have hcnt : r.matchingEntities = Cache.fetchMatchCount S keys now t.para_uuid := by
        rw [← heq]
        rfl
      refine ⟨t, htmem, heq.symm, ?_, ?_⟩
      · rw [hcnt, fetchMatchCount_eq S keys now t.para_uuid hm]
      · rw [hcnt]
        exact of_decide_eq_true htc

unseal List.merge List.mergeSort in
/-- Claim C6 — witness at the spec's ranking example: paragraphs with
match counts `[3,1,3,2]` at ordinal indices `[5,1,2,9]` fetched with
`topK = 4` come back ordered `[(idx 2, 3), (idx 5, 3), (idx 9, 2),
(idx 1, 1)]` — count descending, index ascending on ties — and the
general theorem is applied at that store. -/
theorem C6_rank_witness :
    ((Cache.fetch_paragraphs
        ⟨[⟨"u1", "n1", "ORG", some 0⟩, ⟨"u2", "n2", "ORG", some 0⟩,
          ⟨"u3", "n3", "ORG", some 0⟩],
         [⟨"a", "ta", 5, "d1", some 0⟩, ⟨"b", "tb", 1, "d1", some 0⟩,
          ⟨"c", "tc", 2, "d1", some 0⟩, ⟨"d", "td", 9, "d1", some 0⟩],
         [],
         [⟨"u1", Cache.TargetRef.para "a", some 0⟩, ⟨"u2", Cache.TargetRef.para "a", some 0⟩,
          ⟨"u3", Cache.TargetRef.para "a", some 0⟩, ⟨"u1", Cache.TargetRef.para "b", some 0⟩,
          ⟨"u1", Cache.TargetRef.para "c", some 0⟩, ⟨"u2", Cache.TargetRef.para "c", some 0⟩,
          ⟨"u3", Cache.TargetRef.para "c", some 0⟩, ⟨"u1", Cache.TargetRef.para "d", some 0⟩,
          ⟨"u2", Cache.TargetRef.para "d", some 0⟩],
         []⟩
        [("n1", "ORG"), ("n2", "ORG"), ("n3", "ORG")] 10 4).map
          (fun r => (r.idx, r.matchingEntities))
      = [(2, 3), (5, 3), (9, 2), (1, 1)]) ∧
    ((Cache.fetch_paragraphs
        ⟨[⟨"u1", "n1", "ORG", some 0⟩, ⟨"u2", "n2", "ORG", some 0⟩,
          ⟨"u3", "n3", "ORG", some 0⟩],
         [⟨"a", "ta", 5, "d1", some 0⟩, ⟨"b", "tb", 1, "d1", some 0⟩,
          ⟨"c", "tc", 2, "d1", some 0⟩, ⟨"d", "td", 9, "d1", some 0⟩],
         [],
         [⟨"u1", Cache.TargetRef.para "a", some 0⟩, ⟨"u2", Cache.TargetRef.para "a", some 0⟩,
          ⟨"u3", Cache.TargetRef.para "a", some 0⟩, ⟨"u1", Cache.TargetRef.para "b", some 0⟩,
          ⟨"u1", Cache.TargetRef.para "c", some 0⟩, ⟨"u2", Cache.TargetRef.para "c", some 0⟩,
          ⟨"u3", Cache.TargetRef.para "c", some 0⟩, ⟨"u1", Cache.TargetRef.para "d", some 0⟩,
          ⟨"u2", Cache.TargetRef.para "d", some 0⟩],
         []⟩
        [("n1", "ORG"), ("n2", "ORG"), ("n3", "ORG")] 10 4).length ≤ 4 ∧
      (Cache.fetch_paragraphs
        ⟨[⟨"u1", "n1", "ORG", some 0⟩, ⟨"u2", "n2", "ORG", some 0⟩,
          ⟨"u3", "n3", "ORG", some 0⟩],
         [⟨"a", "ta", 5, "d1", some 0⟩, ⟨"b", "tb", 1, "d1", some 0⟩,
          ⟨"c", "tc", 2, "d1", some 0⟩, ⟨"d", "td", 9, "d1", some 0⟩],
         [],
         [⟨"u1", Cache.TargetRef.para "a", some 0⟩, ⟨"u2", Cache.TargetRef.para "a", some 0⟩,
          ⟨"u3", Cache.TargetRef.para "a", some 0⟩, ⟨"u1", Cache.TargetRef.para "b", some 0⟩,
          ⟨"u1", Cache.TargetRef.para "c", some 0⟩, ⟨"u2", Cache.TargetRef.para "c", some 0⟩,
          ⟨"u3", Cache.TargetRef.para "c", some 0⟩, ⟨"u1", Cache.TargetRef.para "d", some 0⟩,
          ⟨"u2", Cache.TargetRef.para "d", some 0⟩],
         []⟩
        [("n1", "ORG"), ("n2", "ORG"), ("n3", "ORG")] 10 4).Pairwise (fun a b =>
          b.matchingEntities < a.matchingEntities ∨
            (a.matchingEntities = b.matchingEntities ∧ a.idx ≤ b.idx)) ∧
      (∀ r ∈ Cache.fetch_paragraphs
        ⟨[⟨"u1", "n1", "ORG", some 0⟩, ⟨"u2", "n2", "ORG", some 0⟩,
          ⟨"u3", "n3", "ORG", some 0⟩],
         [⟨"a", "ta", 5, "d1", some 0⟩, ⟨"b", "tb", 1, "d1", some 0⟩,
          ⟨"c", "tc", 2, "d1", some 0⟩, ⟨"d", "td", 9, "d1", some 0⟩],
         [],
         [⟨"u1", Cache.TargetRef.para "a", some 0⟩, ⟨"u2", Cache.TargetRef.para "a", some 0⟩,
          ⟨"u3", Cache.TargetRef.para "a", some 0⟩, ⟨"u1", Cache.TargetRef.para "b", some 0⟩,
          ⟨"u1", Cache.TargetRef.para "c", some 0⟩, ⟨"u2", Cache.TargetRef.para "c", some 0⟩,
          ⟨"u3", Cache.TargetRef.para "c", some 0⟩, ⟨"u1", Cache.TargetRef.para "d", some 0⟩,
          ⟨"u2", Cache.TargetRef.para "d", some 0⟩],
         []⟩
        [("n1", "ORG"), ("n2", "ORG"), ("n3", "ORG")] 10 4,
        ∃ t ∈ (⟨[⟨"u1", "n1", "ORG", some 0⟩, ⟨"u2", "n2", "ORG", some 0⟩,
          ⟨"u3", "n3", "ORG", some 0⟩],
         [⟨"a", "ta", 5, "d1", some 0⟩, ⟨"b", "tb", 1, "d1", some 0⟩,
          ⟨"c", "tc", 2, "d1", some 0⟩, ⟨"d", "td", 9, "d1", some 0⟩],
         [],
         [⟨"u1", Cache.TargetRef.para "a", some 0⟩, ⟨"u2", Cache.TargetRef.para "a", some 0⟩,
          ⟨"u3", Cache.TargetRef.para "a", some 0⟩, ⟨"u1", Cache.TargetRef.para "b", some 0⟩,
          ⟨"u1", Cache.TargetRef.para "c", some 0⟩, ⟨"u2", Cache.TargetRef.para "c", some 0⟩,
          ⟨"u3", Cache.TargetRef.para "c", some 0⟩, ⟨"u1", Cache.TargetRef.para "d", some 0⟩,
          ⟨"u2", Cache.TargetRef.para "d", some 0⟩],
         []⟩ : Cache.ShortStore).paragraphs,
          r = Cache.mkFetchRow
            ⟨[⟨"u1", "n1", "ORG", some 0⟩, ⟨"u2", "n2", "ORG", some 0⟩,
              ⟨"u3", "n3", "ORG", some 0⟩],
             [⟨"a", "ta", 5, "d1", some 0⟩, ⟨"b", "tb", 1, "d1", some 0⟩,
              ⟨"c", "tc", 2, "d1", some 0⟩, ⟨"d", "td", 9, "d1", some 0⟩],
             [],
             [⟨"u1", Cache.TargetRef.para "a", some 0⟩, ⟨"u2", Cache.TargetRef.para "a", some 0⟩,
              ⟨"u3", Cache.TargetRef.para "a", some 0⟩, ⟨"u1", Cache.TargetRef.para "b", some 0⟩,
              ⟨"u1", Cache.TargetRef.para "c", some 0⟩, ⟨"u2", Cache.TargetRef.para "c", some 0⟩,
              ⟨"u3", Cache.TargetRef.para "c", some 0⟩, ⟨"u1", Cache.TargetRef.para "d", some 0⟩,
              ⟨"u2", Cache.TargetRef.para "d", some 0⟩],
             []⟩
            [("n1", "ORG"), ("n2", "ORG"), ("n3", "ORG")] 10 t ∧
          r.matchingEntities = ((⟨[⟨"u1", "n1", "ORG", some 0⟩, ⟨"u2", "n2", "ORG", some 0⟩,
              ⟨"u3", "n3", "ORG", some 0⟩],
             [⟨"a", "ta", 5, "d1", some 0⟩, ⟨"b", "tb", 1, "d1", some 0⟩,
              ⟨"c", "tc", 2, "d1", some 0⟩, ⟨"d", "td", 9, "d1", some 0⟩],
             [],
             [⟨"u1", Cache.TargetRef.para "a", some 0⟩, ⟨"u2", Cache.TargetRef.para "a", some 0⟩,
              ⟨"u3", Cache.TargetRef.para "a", some 0⟩, ⟨"u1", Cache.TargetRef.para "b", some 0⟩,
              ⟨"u1", Cache.TargetRef.para "c", some 0⟩, ⟨"u2", Cache.TargetRef.para "c", some 0⟩,
              ⟨"u3", Cache.TargetRef.para "c", some 0⟩, ⟨"u1", Cache.TargetRef.para "d", some 0⟩,
              ⟨"u2", Cache.TargetRef.para "d", some 0⟩],
             []⟩ : Cache.ShortStore).entities.filter (fun e =>
                Cache.keyMatch [("n1", "ORG"), ("n2", "ORG"), ("n3", "ORG")] e &&
                (⟨[⟨"u1", "n1", "ORG", some 0⟩, ⟨"u2", "n2", "ORG", some 0⟩,
                  ⟨"u3", "n3", "ORG", some 0⟩],
                 [⟨"a", "ta", 5, "d1", some 0⟩, ⟨"b", "tb", 1, "d1", some 0⟩,
                  ⟨"c", "tc", 2, "d1", some 0⟩, ⟨"d", "td", 9, "d1", some 0⟩],
                 [],
                 [⟨"u1", Cache.TargetRef.para "a", some 0⟩, ⟨"u2", Cache.TargetRef.para "a", some 0⟩,
                  ⟨"u3", Cache.TargetRef.para "a", some 0⟩, ⟨"u1", Cache.TargetRef.para "b", some 0⟩,
                  ⟨"u1", Cache.TargetRef.para "c", some 0⟩, ⟨"u2", Cache.TargetRef.para "c", some 0⟩,
                  ⟨"u3", Cache.TargetRef.para "c", some 0⟩, ⟨"u1", Cache.TargetRef.para "d", some 0⟩,
                  ⟨"u2", Cache.TargetRef.para "d", some 0⟩],
                 []⟩ : Cache.ShortStore).mentions.any (fun m =>
                    m.ent_uuid == e.ent_uuid && m.target == Cache.TargetRef.para t.para_uuid &&
                    visibleExp m.expiration 10))).length ∧
          0 < r.matchingEntities)) :=
  ⟨rfl,
   C6_rank
    ⟨[⟨"u1", "n1", "ORG", some 0⟩, ⟨"u2", "n2", "ORG", some 0⟩,
      ⟨"u3", "n3", "ORG", some 0⟩],
     [⟨"a", "ta", 5, "d1", some 0⟩, ⟨"b", "tb", 1, "d1", some 0⟩,
      ⟨"c", "tc", 2, "d1", some 0⟩, ⟨"d", "td", 9, "d1", some 0⟩],
     [],
     [⟨"u1", Cache.TargetRef.para "a", some 0⟩, ⟨"u2", Cache.TargetRef.para "a", some 0⟩,
      ⟨"u3", Cache.TargetRef.para "a", some 0⟩, ⟨"u1", Cache.TargetRef.para "b", some 0⟩,
      ⟨"u1", Cache.TargetRef.para "c", some 0⟩, ⟨"u2", Cache.TargetRef.para "c", some 0⟩,
      ⟨"u3", Cache.TargetRef.para "c", some 0⟩, ⟨"u1", Cache.TargetRef.para "d", some 0⟩,
      ⟨"u2", Cache.TargetRef.para "d", some 0⟩],
     []⟩
    [("n1", "ORG"), ("n2", "ORG"), ("n3", "ORG")] 10 4 (by decide)⟩

/-- An entity-node merge preserves every present entity key. -/
theorem mergeEntity_hasEnt_mono (S : Cache.ShortStore) (u n l : String) (exp : Int)
    (v : String) (h : Cache.hasEnt S v = true) :
    Cache.hasEnt (Cache.mergeEntity S u n l exp) v = true := by
  unfold Cache.hasEnt at h ⊢
  unfold Cache.mergeEntity
  obtain ⟨x, hx, hxv⟩ := List.any_eq_true.mp h
  by_cases hc : (S.entities.any (fun e => e.ent_uuid == u)) = true
  · rw [if_pos hc]
    refine List.any_eq_true.mpr ⟨if (x.ent_uuid == u) = true then
      { x with expiration := some exp } else x, List.mem_map.mpr ⟨x, hx, rfl⟩, ?_⟩
    split <;> exact hxv
  · rw [if_neg hc]
    exact List.any_eq_true.mpr ⟨x, List.mem_append_left _ hx, hxv⟩

/-- An entity-node merge makes its own key present. -/
theorem mergeEntity_hasEnt_self (S : Cache.ShortStore) (u n l : String) (exp : Int) :
    Cache.hasEnt (Cache.mergeEntity S u n l exp) u = true := by
  unfold Cache.hasEnt Cache.mergeEntity
  by_cases hc : (S.entities.any (fun e => e.ent_uuid == u)) = true
  · rw [if_pos hc]
    obtain ⟨x, hx, hxv⟩ := List.any_eq_true.mp hc
    refine List.any_eq_true.mpr ⟨{ x with expiration := some exp },
      List.mem_map.mpr ⟨x, hx, by rw [if_pos hxv]⟩, hxv⟩
  · rw [if_neg hc]
    exact List.any_eq_true.mpr ⟨⟨u, n, l, some exp⟩,
      List.mem_append_right _ (by simp), by simp⟩

/-- A paragraph-node merge preserves every present paragraph key. -/
theorem mergeParagraph_hasPara_mono (S : Cache.ShortStore) (u t : String) (i : Int)
    (du : String) (exp : Int) (v : String) (h : Cache.hasPara S v = true) :
    Cache.hasPara (Cache.mergeParagraph S u t i du exp) v = true := by
  unfold Cache.hasPara at h ⊢
  unfold Cache.mergeParagraph
  obtain ⟨x, hx, hxv⟩ := List.any_eq_true.mp h
  by_cases hc : (S.paragraphs.any (fun p => p.para_uuid == u)) = true
  · rw [if_pos hc]
    refine List.any_eq_true.mpr ⟨if (x.para_uuid == u) = true then
      { x with expiration := some exp } else x, List.mem_map.mpr ⟨x, hx, rfl⟩, ?_⟩
    split <;> exact hxv
  · rw [if_neg hc]
    exact List.any_eq_true.mpr ⟨x, List.mem_append_left _ hx, hxv⟩

/-- A paragraph-node merge makes its own key present. -/
theorem mergeParagraph_hasPara_self (S : Cache.ShortStore) (u t : String) (i : Int)
    (du : String) (exp : Int) :
    Cache.hasPara (Cache.mergeParagraph S u t i du exp) u = true := by
  unfold Cache.hasPara Cache.mergeParagraph
  by_cases hc : (S.paragraphs.any (fun p => p.para_uuid == u)) = true
  · rw [if_pos hc]
    obtain ⟨x, hx, hxv⟩ := List.any_eq_true.mp hc
    refine List.any_eq_true.mpr ⟨{ x with expiration := some exp },
      List.mem_map.mpr ⟨x, hx, by rw [if_pos hxv]⟩, hxv⟩
  · rw [if_neg hc]
    exact List.any_eq_true.mpr ⟨⟨u, t, i, du, some exp⟩,
      List.mem_append_right _ (by simp), by simp⟩

/-- A document-node merge preserves every present document key. -/
theorem mergeDocument_hasDoc_mono (S : Cache.ShortStore) (u t c g : String) (exp : Int)
    (v : String) (h : Cache.hasDoc S v = true) :
    Cache.hasDoc (Cache.mergeDocument S u t c g exp) v = true := by
  unfold Cache.hasDoc at h ⊢
  unfold Cache.mergeDocument
  obtain ⟨x, hx, hxv⟩ := List.any_eq_true.mp h
  by_cases hc : (S.documents.any (fun d => d.doc_uuid == u)) = true
  · rw [if_pos hc]
    refine List.any_eq_true.mpr ⟨if (x.doc_uuid == u) = true then
      { x with expiration := some exp } else x, List.mem_map.mpr ⟨x, hx, rfl⟩, ?_⟩
    split <;> exact hxv
  · rw [if_neg hc]
    exact List.any_eq_true.mpr ⟨x, List.mem_append_left _ hx, hxv⟩

/-- A document-node merge makes its own key present. -/
theorem mergeDocument_hasDoc_self (S : Cache.ShortStore) (u t c g : String) (exp : Int) :
    Cache.hasDoc (Cache.mergeDocument S u t c g exp) u = true := by
  unfold Cache.hasDoc Cache.mergeDocument
  by_cases hc : (S.documents.any (fun d => d.doc_uuid == u)) = true
  · rw [if_pos hc]
    obtain ⟨x, hx, hxv⟩ := List.any_eq_true.mp hc
    refine List.any_eq_true.mpr ⟨{ x with expiration := some exp },
      List.mem_map.mpr ⟨x, hx, by rw [if_pos hxv]⟩, hxv⟩
  · rw [if_neg hc]
    exact List.any_eq_true.mpr ⟨⟨u, t, c, g, some exp, none, none, none⟩,
      List.mem_append_right _ (by simp), by simp⟩

/-- The `PART_OF` merge creates (or keeps) its edge when both endpoints
are present. -/
theorem mergePartOf_hasPartOf_self (S : Cache.ShortStore) (p d : String)
    (hp : Cache.hasPara S p = true) (hd : Cache.hasDoc S d = true) :
    Cache.hasPartOf (Cache.mergePartOf S p d) p d = true := by
  unfold Cache.hasPartOf Cache.mergePartOf
  unfold Cache.hasPara at hp
  unfold Cache.hasDoc at hd
  rw [if_pos (by rw [hp, hd]; rfl)]
  by_cases hc : (S.partOf.any (fun po => po.para == p && po.doc == d)) = true
  · rw [if_pos hc]
    exact hc
  · rw [if_neg hc]
    exact List.any_eq_true.mpr ⟨⟨p, d, none⟩, List.mem_append_right _ (by simp), by simp⟩

/-- The `PART_OF` merge preserves every present edge. -/
theorem mergePartOf_hasPartOf_mono (S : Cache.ShortStore) (p d a b : String)
    (h : Cache.hasPartOf S a b = true) :
    Cache.hasPartOf (Cache.mergePartOf S p d) a b = true := by
  unfold Cache.hasPartOf at h ⊢
  unfold Cache.mergePartOf
  obtain ⟨x, hx, hxv⟩ := List.any_eq_true.mp h
  split
  · split
    · exact List.any_eq_true.mpr ⟨x, hx, hxv⟩
    · exact List.any_eq_true.mpr ⟨x, List.mem_append_left _ hx, hxv⟩
  · exact List.any_eq_true.mpr ⟨x, hx, hxv⟩

/-- The `MENTIONS` merge creates (or refreshes) its edge when both
endpoints are present. -/
theorem mergeMentions_hasMention_self (S : Cache.ShortStore) (ent : String)
    (t : Cache.TargetRef) (exp : Int)
    (he : Cache.hasEnt S ent = true) (ht : Cache.targetExists S t = true) :
    Cache.hasMention (Cache.mergeMentions S ent t exp) ent t = true := by
  unfold Cache.hasMention Cache.mergeMentions
  unfold Cache.hasEnt at he
  rw [if_pos (by rw [he, ht]; rfl)]
  by_cases hc : (S.mentions.any (fun m => m.ent_uuid == ent && m.target == t)) = true
  · rw [if_pos hc]
    obtain ⟨x, hx, hxv⟩ := List.any_eq_true.mp hc
    refine List.any_eq_true.mpr ⟨{ x with expiration := some exp },
      List.mem_map.mpr ⟨x, hx, by rw [if_pos hxv]⟩, hxv⟩
  · rw [if_neg hc]
    exact List.any_eq_true.mpr ⟨⟨ent, t, some exp⟩,
      List.mem_append_right _ (by simp), by simp⟩

/-- The `MENTIONS` merge preserves every present edge key. -/
theorem mergeMentions_hasMention_mono (S : Cache.ShortStore) (ent : String)
    (t : Cache.TargetRef) (exp : Int) (u : String) (s : Cache.TargetRef)
    (h : Cache.hasMention S u s = true) :
    Cache.hasMention (Cache.mergeMentions S ent t exp) u s = true := by
  unfold Cache.hasMention at h ⊢
  unfold Cache.mergeMentions
  obtain ⟨x, hx, hxv⟩ := List.any_eq_true.mp h
  split
  · split
    · refine List.any_eq_true.mpr ⟨if (x.ent_uuid == ent && x.target == t) = true then
        { x with expiration := some exp } else x, List.mem_map.mpr ⟨x, hx, rfl⟩, ?_⟩
      split <;> exact hxv
    · exact List.any_eq_true.mpr ⟨x, List.mem_append_left _ hx, hxv⟩
  · exact List.any_eq_true.mpr ⟨x, hx, hxv⟩

/-- `MATCH (t:Paragraph …)` in `_merge_mentions` is the paragraph
presence test. -/
theorem targetExists_para (S : Cache.ShortStore) (pid : String) :
    Cache.targetExists S (Cache.TargetRef.para pid) = Cache.hasPara S pid := rfl

/-- The per-paragraph promotion step leaves the entity presence test
unchanged. -/
theorem promoStep_hasEnt (ent : String) (exp : Int) (q : Cache.LPara)
    (S : Cache.ShortStore) (v : String) :
    Cache.hasEnt (Cache.mergeMentions (Cache.mergePartOf
      (Cache.mergeParagraph S q.para_uuid q.text q.index q.doc_uuid exp)
      q.para_uuid q.doc_uuid) ent (Cache.TargetRef.para q.para_uuid) exp) v
      = Cache.hasEnt S v := by
  unfold Cache.hasEnt
  rw [mergeMentions_entities, mergePartOf_entities, mergeParagraph_entities]

/-- The per-paragraph promotion step leaves the document presence test
unchanged. -/
theorem promoStep_hasDoc (ent : String) (exp : Int) (q : Cache.LPara)
    (S : Cache.ShortStore) (v : String) :
    Cache.hasDoc (Cache.mergeMentions (Cache.mergePartOf
      (Cache.mergeParagraph S q.para_uuid q.text q.index q.doc_uuid exp)
      q.para_uuid q.doc_uuid) ent (Cache.TargetRef.para q.para_uuid) exp) v
      = Cache.hasDoc S v := by
  unfold Cache.hasDoc
  rw [mergeMentions_documents, mergePartOf_documents, mergeParagraph_documents]

/-- The per-paragraph promotion step preserves paragraph presence. -/
theorem promoStep_hasPara (ent : String) (exp : Int) (q : Cache.LPara)
    (S : Cache.ShortStore) (v : String) (h : Cache.hasPara S v = true) :
    Cache.hasPara (Cache.mergeMentions (Cache.mergePartOf
      (Cache.mergeParagraph S q.para_uuid q.text q.index q.doc_uuid exp)
      q.para_uuid q.doc_uuid) ent (Cache.TargetRef.para q.para_uuid) exp) v = true := by
  unfold Cache.hasPara
  rw [mergeMentions_paragraphs, mergePartOf_paragraphs]
  exact mergeParagraph_hasPara_mono S q.para_uuid q.text q.index q.doc_uuid exp v h

/-- The per-paragraph promotion step preserves `PART_OF` edges. -/
theorem promoStep_hasPartOf (ent : String) (exp : Int) (q : Cache.LPara)
    (S : Cache.ShortStore) (a b : String) (h : Cache.hasPartOf S a b = true) :
    Cache.hasPartOf (Cache.mergeMentions (Cache.mergePartOf
      (Cache.mergeParagraph S q.para_uuid q.text q.index q.doc_uuid exp)
      q.para_uuid q.doc_uuid) ent (Cache.TargetRef.para q.para_uuid) exp) a b = true := by
  unfold Cache.hasPartOf
  rw [mergeMentions_partOf]
  apply mergePartOf_hasPartOf_mono
  unfold Cache.hasPartOf at h ⊢
  rw [mergeParagraph_partOf]
  exact h

/-- The per-paragraph promotion step preserves `MENTIONS` edges. -/
theorem promoStep_hasMention (ent : String) (exp : Int) (q : Cache.LPara)
    (S : Cache.ShortStore) (u : String) (s : Cache.TargetRef)
    (h : Cache.hasMention S u s = true) :
    Cache.hasMention (Cache.mergeMentions (Cache.mergePartOf
      (Cache.mergeParagraph S q.para_uuid q.text q.index q.doc_uuid exp)
      q.para_uuid q.doc_uuid) ent (Cache.TargetRef.para q.para_uuid) exp) u s = true := by
  apply mergeMentions_hasMention_mono
  unfold Cache.hasMention at h ⊢
  rw [mergePartOf_mentions, mergeParagraph_mentions]
  exact h

/-- Processing its own paragraph, the promotion step writes the
paragraph node, the `PART_OF` edge and the entity→paragraph `MENTIONS`
edge (given the entity and the parent document are already present). -/
theorem promoStep_reach (ent : String) (exp : Int) (q : Cache.LPara)
    (S : Cache.ShortStore)
    (he : Cache.hasEnt S ent = true) (hd : Cache.hasDoc S q.doc_uuid = true) :
    Cache.hasPara (Cache.mergeMentions (Cache.mergePartOf
      (Cache.mergeParagraph S q.para_uuid q.text q.index q.doc_uuid exp)
      q.para_uuid q.doc_uuid) ent (Cache.TargetRef.para q.para_uuid) exp) q.para_uuid = true ∧
    Cache.hasPartOf (Cache.mergeMentions (Cache.mergePartOf
      (Cache.mergeParagraph S q.para_uuid q.text q.index q.doc_uuid exp)
      q.para_uuid q.doc_uuid) ent (Cache.TargetRef.para q.para_uuid) exp)
      q.para_uuid q.doc_uuid = true ∧
    Cache.hasMention (Cache.mergeMentions (Cache.mergePartOf
      (Cache.mergeParagraph S q.para_uuid q.text q.index q.doc_uuid exp)
      q.para_uuid q.doc_uuid) ent (Cache.TargetRef.para q.para_uuid) exp)
      ent (Cache.TargetRef.para q.para_uuid) = true := by
  have hpara1 : Cache.hasPara (Cache.mergeParagraph S q.para_uuid q.text q.index
      q.doc_uuid exp) q.para_uuid = true :=
    mergeParagraph_hasPara_self S q.para_uuid q.text q.index q.doc_uuid exp
  have hdoc1 : Cache.hasDoc (Cache.mergeParagraph S q.para_uuid q.text q.index
      q.doc_uuid exp) q.doc_uuid = true := by
    unfold Cache.hasDoc
    rw [mergeParagraph_documents]
    exact hd
  have hpo : Cache.hasPartOf (Cache.mergePartOf (Cache.mergeParagraph S q.para_uuid
      q.text q.index q.doc_uuid exp) q.para_uuid q.doc_uuid) q.para_uuid q.doc_uuid = true :=
    mergePartOf_hasPartOf_self _ q.para_uuid q.doc_uuid hpara1 hdoc1
  have hpara2 : Cache.hasPara (Cache.mergePartOf (Cache.mergeParagraph S q.para_uuid
      q.text q.index q.doc_uuid exp) q.para_uuid q.doc_uuid) q.para_uuid = true := by
    unfold Cache.hasPara
    rw [mergePartOf_paragraphs]
    exact hpara1
  have hent2 : Cache.hasEnt (Cache.mergePartOf (Cache.mergeParagraph S q.para_uuid
      q.text q.index q.doc_uuid exp) q.para_uuid q.doc_uuid) ent = true := by
    unfold Cache.hasEnt
    rw [mergePartOf_entities, mergeParagraph_entities]
    exact he
  refine ⟨?_, ?_, ?_⟩
  · unfold Cache.hasPara
    rw [mergeMentions_paragraphs]
    exact hpara2
  · unfold Cache.hasPartOf
    rw [mergeMentions_partOf]
    exact hpo
  · exact mergeMentions_hasMention_self _ ent (Cache.TargetRef.para q.para_uuid) exp
      hent2 (by rw [targetExists_para]; exact hpara2)

/-- Running the whole per-paragraph loop writes node, `PART_OF` edge and
`MENTIONS` edge for every paragraph of the collected list. -/
theorem paraFold_reach (ent : String) (exp : Int) (du : String)
    (ps : List Cache.LPara) (q : Cache.LPara) (hq : q ∈ ps) (hqd : q.doc_uuid = du) :
    ∀ S : Cache.ShortStore, Cache.hasEnt S ent = true → Cache.hasDoc S du = true →
      Cache.hasPara (ps.foldl (fun S p => Cache.mergeMentions
          (Cache.mergePartOf (Cache.mergeParagraph S p.para_uuid p.text p.index p.doc_uuid exp)
            p.para_uuid p.doc_uuid)
          ent (Cache.TargetRef.para p.para_uuid) exp) S) q.para_uuid = true ∧
      Cache.hasPartOf (ps.foldl (fun S p => Cache.mergeMentions
          (Cache.mergePartOf (Cache.mergeParagraph S p.para_uuid p.text p.index p.doc_uuid exp)
            p.para_uuid p.doc_uuid)
          ent (Cache.TargetRef.para p.para_uuid) exp) S) q.para_uuid du = true ∧
      Cache.hasMention (ps.foldl (fun S p => Cache.mergeMentions
          (Cache.mergePartOf (Cache.mergeParagraph S p.para_uuid p.text p.index p.doc_uuid exp)
            p.para_uuid p.doc_uuid)
          ent (Cache.TargetRef.para p.para_uuid) exp) S)
        ent (Cache.TargetRef.para q.para_uuid) = true := by
  induction ps with
  | nil => exact absurd hq (List.not_mem_nil q)
  | cons x xs ih =>
    intro S he hd
    rcases List.mem_cons.mp hq with hqx | hqxs
    · subst hqx
      obtain ⟨h1, h2, h3⟩ := promoStep_reach ent exp q S he (hqd ▸ hd)
      simp only [List.foldl_cons]
      have hfold : ∀ (S0 : Cache.ShortStore),
          Cache.hasPara S0 q.para_uuid = true →
          Cache.hasPartOf S0 q.para_uuid du = true →
          Cache.hasMention S0 ent (Cache.TargetRef.para q.para_uuid) = true →
          Cache.hasPara (xs.foldl (fun S p => Cache.mergeMentions
            (Cache.mergePartOf (Cache.mergeParagraph S p.para_uuid p.text p.index
              p.doc_uuid exp) p.para_uuid p.doc_uuid)
            ent (Cache.TargetRef.para p.para_uuid) exp) S0) q.para_uuid = true ∧
          Cache.hasPartOf (xs.foldl (fun S p => Cache.mergeMentions
            (Cache.mergePartOf (Cache.mergeParagraph S p.para_uuid p.text p.index
              p.doc_uuid exp) p.para_uuid p.doc_uuid)
            ent (Cache.TargetRef.para p.para_uuid) exp) S0) q.para_uuid du = true ∧
          Cache.hasMention (xs.foldl (fun S p => Cache.mergeMentions
            (Cache.mergePartOf (Cache.mergeParagraph S p.para_uuid p.text p.index
              p.doc_uuid exp) p.para_uuid p.doc_uuid)
            ent (Cache.TargetRef.para p.para_uuid) exp) S0)
            ent (Cache.TargetRef.para q.para_uuid) = true := by
        clear ih h1 h2 h3 he hd hq
        induction xs with
        | nil => exact fun S0 a b c => ⟨a, b, c⟩
        | cons y ys ihy =>
          intro S0 a b c
          simp only [List.foldl_cons]
          exact ihy _ (promoStep_hasPara ent exp y S0 _ a)
            (promoStep_hasPartOf ent exp y S0 _ _ b)
            (promoStep_hasMention ent exp y S0 _ _ c)
      exact hfold _ h1 (hqd ▸ h2) h3
    · simp only [List.foldl_cons]
      exact ih hqxs _ (by rw [promoStep_hasEnt]; exact he)
        (by rw [promoStep_hasDoc]; exact hd)

/-- Processing one promotion record with document promotion enabled
writes the entity, the document, and — for each collected paragraph —
the paragraph node, its `PART_OF` edge and its `MENTIONS` edge. -/
theorem promoteRow_reach (exp : Int) (S : Cache.ShortStore) (e : Cache.LEntity)
    (dn : Cache.LDoc) (paras : List Cache.LPara) (q : Cache.LPara)
    (hq : q ∈ paras) (hqd : q.doc_uuid = dn.doc_uuid) :
    Cache.hasEnt (Cache.promoteRow true exp S ⟨e, Cache.Resolved.toDoc dn, paras⟩)
      e.ent_uuid = true ∧
    Cache.hasDoc (Cache.promoteRow true exp S ⟨e, Cache.Resolved.toDoc dn, paras⟩)
      dn.doc_uuid = true ∧
    Cache.hasPara (Cache.promoteRow true exp S ⟨e, Cache.Resolved.toDoc dn, paras⟩)
      q.para_uuid = true ∧
    Cache.hasPartOf (Cache.promoteRow true exp S ⟨e, Cache.Resolved.toDoc dn, paras⟩)
      q.para_uuid dn.doc_uuid = true ∧
    Cache.hasMention (Cache.promoteRow true exp S ⟨e, Cache.Resolved.toDoc dn, paras⟩)
      e.ent_uuid (Cache.TargetRef.para q.para_uuid) = true := by
  have he1 : Cache.hasEnt (Cache.mergeEntity S e.ent_uuid e.name e.label exp)
      e.ent_uuid = true := mergeEntity_hasEnt_self S e.ent_uuid e.name e.label exp
  have he2 : Cache.hasEnt (Cache.mergeMentions (Cache.mergeDocument
      (Cache.mergeEntity S e.ent_uuid e.name e.label exp) dn.doc_uuid dn.title dn.content
      dn.category exp) e.ent_uuid (Cache.TargetRef.doc dn.doc_uuid) exp) e.ent_uuid
      = true := by
    unfold Cache.hasEnt
    rw [mergeMentions_entities, mergeDocument_entities]
    exact he1
  have hd2 : Cache.hasDoc (Cache.mergeMentions (Cache.mergeDocument
      (Cache.mergeEntity S e.ent_uuid e.name e.label exp) dn.doc_uuid dn.title dn.content
      dn.category exp) e.ent_uuid (Cache.TargetRef.doc dn.doc_uuid) exp) dn.doc_uuid
      = true := by
    unfold Cache.hasDoc
    rw [mergeMentions_documents]
    exact mergeDocument_hasDoc_self _ dn.doc_uuid dn.title dn.content dn.category exp
  obtain ⟨h1, h2, h3⟩ := paraFold_reach e.ent_uuid exp dn.doc_uuid paras q hq hqd _ he2 hd2
  unfold Cache.promoteRow
  dsimp only
  rw [if_pos rfl]
  refine ⟨?_, ?_, h1, h2, h3⟩
  · unfold Cache.hasEnt
    rw [promoteParasFold_entities]
    exact he2
  · unfold Cache.hasDoc
    rw [promoteParasFold_documents]
    exact hd2

/-- Processing any promotion record preserves every presence fact. -/
theorem promoteRow_pres (pd : Bool) (exp : Int) (S : Cache.ShortStore)
    (row : Cache.PromoRow) :
    (∀ v, Cache.hasEnt S v = true →
      Cache.hasEnt (Cache.promoteRow pd exp S row) v = true) ∧
    (∀ v, Cache.hasDoc S v = true →
      Cache.hasDoc (Cache.promoteRow pd exp S row) v = true) ∧
    (∀ v, Cache.hasPara S v = true →
      Cache.hasPara (Cache.promoteRow pd exp S row) v = true) ∧
    (∀ a b, Cache.hasPartOf S a b = true →
      Cache.hasPartOf (Cache.promoteRow pd exp S row) a b = true) ∧
    (∀ u s, Cache.hasMention S u s = true →
      Cache.hasMention (Cache.promoteRow pd exp S row) u s = true) := by
  have hfold : ∀ (ps : List Cache.LPara) (S0 : Cache.ShortStore),
      (∀ v, Cache.hasEnt S0 v = true → Cache.hasEnt (ps.foldl (fun S p =>
        Cache.mergeMentions (Cache.mergePartOf (Cache.mergeParagraph S p.para_uuid p.text
          p.index p.doc_uuid exp) p.para_uuid p.doc_uuid)
        row.ent.ent_uuid (Cache.TargetRef.para p.para_uuid) exp) S0) v = true) ∧
      (∀ v, Cache.hasDoc S0 v = true → Cache.hasDoc (ps.foldl (fun S p =>
        Cache.mergeMentions (Cache.mergePartOf (Cache.mergeParagraph S p.para_uuid p.text
          p.index p.doc_uuid exp) p.para_uuid p.doc_uuid)
        row.ent.ent_uuid (Cache.TargetRef.para p.para_uuid) exp) S0) v = true) ∧
      (∀ v, Cache.hasPara S0 v = true → Cache.hasPara (ps.foldl (fun S p =>
        Cache.mergeMentions (Cache.mergePartOf (Cache.mergeParagraph S p.para_uuid p.text
          p.index p.doc_uuid exp) p.para_uuid p.doc_uuid)
        row.ent.ent_uuid (Cache.TargetRef.para p.para_uuid) exp) S0) v = true) ∧
      (∀ a b, Cache.hasPartOf S0 a b = true → Cache.hasPartOf (ps.foldl (fun S p =>
        Cache.mergeMentions (Cache.mergePartOf (Cache.mergeParagraph S p.para_uuid p.text
          p.index p.doc_uuid exp) p.para_uuid p.doc_uuid)
        row.ent.ent_uuid (Cache.TargetRef.para p.para_uuid) exp) S0) a b = true) ∧
      (∀ u s, Cache.hasMention S0 u s = true → Cache.hasMention (ps.foldl (fun S p =>
        Cache.mergeMentions (Cache.mergePartOf (Cache.mergeParagraph S p.para_uuid p.text
          p.index p.doc_uuid exp) p.para_uuid p.doc_uuid)
        row.ent.ent_uuid (Cache.TargetRef.para p.para_uuid) exp) S0) u s = true) := by
    intro ps
    induction ps with
    | nil => exact fun S0 => ⟨fun v h => h, fun v h => h, fun v h => h,
        fun a b h => h, fun u s h => h⟩
    | cons y ys ihy =>
      intro S0
      constructor
      · intro v h
        simp only [List.foldl_cons]
        exact (ihy _).1 v (by rw [promoStep_hasEnt]; exact h)
      constructor
      · intro v h
        simp only [List.foldl_cons]
        exact (ihy _).2.1 v (by rw [promoStep_hasDoc]; exact h)
      constructor
      · intro v h
        simp only [List.foldl_cons]
        exact (ihy _).2.2.1 v (promoStep_hasPara _ exp y S0 v h)
      constructor
      · intro a b h
        simp only [List.foldl_cons]
        exact (ihy _).2.2.2.1 a b (promoStep_hasPartOf _ exp y S0 a b h)
      · intro u s h
        simp only [List.foldl_cons]
        exact (ihy _).2.2.2.2 u s (promoStep_hasMention _ exp y S0 u s h)
  have hS2 : ∀ (v : String), (Cache.hasEnt S v = true →
      Cache.hasEnt (Cache.promoteRow pd exp S row) v = true) := by
    intro v h
    unfold Cache.promoteRow
    dsimp only
    refine (hfold row.paras _).1 v ?_
    have h1 : Cache.hasEnt (Cache.mergeEntity S row.ent.ent_uuid row.ent.name
        row.ent.label exp) v = true :=
      mergeEntity_hasEnt_mono S row.ent.ent_uuid row.ent.name row.ent.label exp v h
    cases hres : row.resolved with
    | toDoc dn =>
      dsimp only
      by_cases hpd : pd = true
      · rw [if_pos hpd]
        unfold Cache.hasEnt
        rw [mergeMentions_entities, mergeDocument_entities]
        exact h1
      · rw [if_neg hpd]
        exact h1
    | orphan pid => exact h1
  have hS2d : ∀ (v : String), (Cache.hasDoc S v = true →
      Cache.hasDoc (Cache.promoteRow pd exp S row) v = true) := by
    intro v h
    unfold Cache.promoteRow
    dsimp only
    refine (hfold row.paras _).2.1 v ?_
    have h1 : Cache.hasDoc (Cache.mergeEntity S row.ent.ent_uuid row.ent.name
        row.ent.label exp) v = true := by
      unfold Cache.hasDoc
      rw [mergeEntity_documents]
      exact h
    cases hres : row.resolved with
    | toDoc dn =>
      dsimp only
      by_cases hpd : pd = true
      · rw [if_pos hpd]
        unfold Cache.hasDoc
        rw [mergeMentions_documents]
        exact mergeDocument_hasDoc_mono _ dn.doc_uuid dn.title dn.content dn.category exp v h1
      · rw [if_neg hpd]
        exact h1
    | orphan pid => exact h1
  have hS2p : ∀ (v : String), (Cache.hasPara S v = true →
      Cache.hasPara (Cache.promoteRow pd exp S row) v = true) := by
    intro v h
    unfold Cache.promoteRow
    dsimp only
    refine (hfold row.paras _).2.2.1 v ?_
    have h1 : Cache.hasPara (Cache.mergeEntity S row.ent.ent_uuid row.ent.name
        row.ent.label exp) v = true := by
      unfold Cache.hasPara
      rw [mergeEntity_paragraphs]
      exact h
    cases hres : row.resolved with
    | toDoc dn =>
      dsimp only
      by_cases hpd : pd = true
      · rw [if_pos hpd]
        unfold Cache.hasPara
        rw [mergeMentions_paragraphs, mergeDocument_paragraphs]
        exact h1
      · rw [if_neg hpd]
        exact h1
    | orphan pid => exact h1
  have hS2po : ∀ (a b : String), (Cache.hasPartOf S a b = true →
      Cache.hasPartOf (Cache.promoteRow pd exp S row) a b = true) := by
    intro a b h
    unfold Cache.promoteRow
    dsimp only
    refine (hfold row.paras _).2.2.2.1 a b ?_
    have h1 : Cache.hasPartOf (Cache.mergeEntity S row.ent.ent_uuid row.ent.name
        row.ent.label exp) a b = true := by
      unfold Cache.hasPartOf
      rw [mergeEntity_partOf]
      exact h
    cases hres : row.resolved with
    | toDoc dn =>
      dsimp only
      by_cases hpd : pd = true
      · rw [if_pos hpd]
        unfold Cache.hasPartOf
        rw [mergeMentions_partOf, mergeDocument_partOf]
        exact h1
      · rw [if_neg hpd]
        exact h1
    | orphan pid => exact h1
  have hS2m : ∀ (u : String) (s : Cache.TargetRef), (Cache.hasMention S u s = true →
      Cache.hasMention (Cache.promoteRow pd exp S row) u s = true) := by
    intro u s h
    unfold Cache.promoteRow
    dsimp only
    refine (hfold row.paras _).2.2.2.2 u s ?_
    have h1 : Cache.hasMention (Cache.mergeEntity S row.ent.ent_uuid row.ent.name
        row.ent.label exp) u s = true := by
      unfold Cache.hasMention
      rw [mergeEntity_mentions]
      exact h
    cases hres : row.resolved with
    | toDoc dn =>
      dsimp only
      by_cases hpd : pd = true
      · rw [if_pos hpd]
        apply mergeMentions_hasMention_mono
        unfold Cache.hasMention
        rw [mergeDocument_mentions]
        exact h1
      · rw [if_neg hpd]
        exact h1
    | orphan pid => exact h1
  exact ⟨hS2, hS2d, hS2p, hS2po, hS2m⟩

/-- A promotion pass over a row list establishes, for each member row of
the document-resolved shape and each of its collected paragraphs, the
presence of every element the row writes. -/
theorem rowsFold_reach (exp : Int) (rows : List Cache.PromoRow)
    (e : Cache.LEntity) (dn : Cache.LDoc) (paras : List Cache.LPara)
    (hrow : (⟨e, Cache.Resolved.toDoc dn, paras⟩ : Cache.PromoRow) ∈ rows)
    (q : Cache.LPara) (hq : q ∈ paras) (hqd : q.doc_uuid = dn.doc_uuid) :
    ∀ S : Cache.ShortStore,
      Cache.hasEnt (rows.foldl (Cache.promoteRow true exp) S) e.ent_uuid = true ∧
      Cache.hasDoc (rows.foldl (Cache.promoteRow true exp) S) dn.doc_uuid = true ∧
      Cache.hasPara (rows.foldl (Cache.promoteRow true exp) S) q.para_uuid = true ∧
      Cache.hasPartOf (rows.foldl (Cache.promoteRow true exp) S)
        q.para_uuid dn.doc_uuid = true ∧
      Cache.hasMention (rows.foldl (Cache.promoteRow true exp) S)
        e.ent_uuid (Cache.TargetRef.para q.para_uuid) = true := by
  induction rows with
  | nil => exact absurd hrow (List.not_mem_nil _)
  | cons row rest ih =>
    intro S
    rcases List.mem_cons.mp hrow with hhead | htail
    · obtain ⟨h1, h2, h3, h4, h5⟩ :=
        promoteRow_reach exp S e dn paras q hq hqd
    -- propagate through the remaining rows
      have hfold : ∀ (rs : List Cache.PromoRow) (S0 : Cache.ShortStore),
          Cache.hasEnt S0 e.ent_uuid = true → Cache.hasDoc S0 dn.doc_uuid = true →
          Cache.hasPara S0 q.para_uuid = true →
          Cache.hasPartOf S0 q.para_uuid dn.doc_uuid = true →
          Cache.hasMention S0 e.ent_uuid (Cache.TargetRef.para q.para_uuid) = true →
          Cache.hasEnt (rs.foldl (Cache.promoteRow true exp) S0) e.ent_uuid = true ∧
          Cache.hasDoc (rs.foldl (Cache.promoteRow true exp) S0) dn.doc_uuid = true ∧
          Cache.hasPara (rs.foldl (Cache.promoteRow true exp) S0) q.para_uuid = true ∧
          Cache.hasPartOf (rs.foldl (Cache.promoteRow true exp) S0)
            q.para_uuid dn.doc_uuid = true ∧
          Cache.hasMention (rs.foldl (Cache.promoteRow true exp) S0)
            e.ent_uuid (Cache.TargetRef.para q.para_uuid) = true := by
        intro rs
        induction rs with
        | nil => exact fun S0 a b c d f => ⟨a, b, c, d, f⟩
        | cons r rrest ihr =>
          intro S0 a b c d f
          simp only [List.foldl_cons]
          obtain ⟨pe, pd', pp, ppo, pm⟩ := promoteRow_pres true exp S0 r
          exact ihr _ (pe _ a) (pd' _ b) (pp _ c) (ppo _ _ d) (pm _ _ f)
      simp only [List.foldl_cons]
      rw [← hhead]
      exact hfold rest _ h1 h2 h3 h4 h5
    · simp only [List.foldl_cons]
      exact ih htail _

/-- The resolved-document row built from a visible `MENTIONS` edge is a
record of `PROMOTION_QUERY`. -/
theorem promotionQuery_row_mem (L : Cache.LongStore) (name label : String) (now : Int)
    (e : Cache.LEntity) (he : e ∈ L.entities) (hen : e.name = name) (hel : e.label = label)
    (m : Cache.LMention) (hm : m ∈ L.mentions) (hme : m.ent_uuid = e.ent_uuid)
    (hmv : visibleExp m.expiration now = true)
    (r : Cache.Resolved) (hr : r ∈ Cache.resolveTargets L m.target) :
    (⟨e, r, Cache.docParas L r⟩ : Cache.PromoRow) ∈
      Cache.promotionQuery L name label now := by
  unfold Cache.promotionQuery
  apply List.mem_flatMap.mpr
  refine ⟨e, List.mem_filter.mpr ⟨he, by simp [hen, hel]⟩, ?_⟩
  dsimp only
  apply List.mem_map.mpr
  refine ⟨r, ?_, rfl⟩
  rw [List.mem_dedup]
  apply List.mem_flatMap.mpr
  refine ⟨m.target, ?_, hr⟩
  exact List.mem_map.mpr ⟨m, List.mem_filter.mpr ⟨hm, by simp [hme, hmv]⟩, rfl⟩

/-- A document-typed mention target resolves to its document node. -/
theorem resolveTargets_doc (L : Cache.LongStore) (du : String) (d : Cache.LDoc)
    (hd : d ∈ L.docs) (hdu : d.doc_uuid = du) :
    Cache.Resolved.toDoc d ∈ Cache.resolveTargets L (Cache.TargetRef.doc du) := by
  unfold Cache.resolveTargets
  exact List.mem_map.mpr ⟨d, List.mem_filter.mpr ⟨hd, by simp [hdu]⟩, rfl⟩

/-- A paragraph-typed mention target resolves through its `PART_OF` edge
to the parent document node. -/
theorem resolveTargets_para (L : Cache.LongStore) (pid : String) (po : Cache.LPartOf)
    (hpo : po ∈ L.partOf) (hpop : po.para = pid)
    (d : Cache.LDoc) (hd : d ∈ L.docs) (hdu : d.doc_uuid = po.doc) :
    Cache.Resolved.toDoc d ∈ Cache.resolveTargets L (Cache.TargetRef.para pid) := by
  unfold Cache.resolveTargets
  dsimp only
  have hmem : Cache.Resolved.toDoc d ∈
      ((L.partOf.filter (fun po => po.para == pid)).flatMap
        (fun po => L.docs.filter (fun d => d.doc_uuid == po.doc))).map
          Cache.Resolved.toDoc := by
    apply List.mem_map.mpr
    refine ⟨d, ?_, rfl⟩
    apply List.mem_flatMap.mpr
    exact ⟨po, List.mem_filter.mpr ⟨hpo, by simp [hpop]⟩,
      List.mem_filter.mpr ⟨hd, by simp [hdu]⟩⟩
  rw [if_neg ?_]
  · exact hmem
  · intro hempty
    rw [List.isEmpty_iff] at hempty
    rw [hempty] at hmem
    exact absurd hmem (List.not_mem_nil _)

/-- Every paragraph attached to the resolved document by a `PART_OF`
edge is collected by `PROMOTION_QUERY`. -/
theorem docParas_mem (L : Cache.LongStore) (d : Cache.LDoc) (p : Cache.LPara)
    (hp : p ∈ L.paras) (po : Cache.LPartOf) (hpo : po ∈ L.partOf)
    (hpod : po.doc = d.doc_uuid) (hpop : po.para = p.para_uuid) :
    p ∈ Cache.docParas L (Cache.Resolved.toDoc d) := by
  unfold Cache.docParas
  rw [List.mem_dedup]
  apply List.mem_flatMap.mpr
  exact ⟨po, List.mem_filter.mpr ⟨hpo, by simp [hpod]⟩,
    List.mem_filter.mpr ⟨hp, by simp [hpop]⟩⟩

/-- Claim C5 — confirmed.  If an entity matching the promoted key has a
currently-visible `MENTIONS` edge whose target resolves to document `d`
(either the target is `d` itself, or it is a paragraph with a `PART_OF`
edge to `d`), then `promote_entity` (with document promotion enabled)
copies EVERY paragraph `p` attached to `d` — not only the matching one —
together with its `PART_OF` edge and an entity→paragraph `MENTIONS`
edge, and the document itself, into the working-set store. -/
theorem C5_full_document (L : Cache.LongStore) (S : Cache.ShortStore)
    (name label : String) (now : Int)
    (e : Cache.LEntity) (he : e ∈ L.entities) (hen : e.name = name) (hel : e.label = label)
    (m : Cache.LMention) (hm : m ∈ L.mentions) (hme : m.ent_uuid = e.ent_uuid)
    (hmv : visibleExp m.expiration now = true)
    (d : Cache.LDoc) (hd : d ∈ L.docs)
    (hres : m.target = Cache.TargetRef.doc d.doc_uuid ∨
      ∃ pid, m.target = Cache.TargetRef.para pid ∧
        ∃ po0 ∈ L.partOf, po0.para = pid ∧ po0.doc = d.doc_uuid)
    (p : Cache.LPara) (hp : p ∈ L.paras) (hpdu : p.doc_uuid = d.doc_uuid)
    (po : Cache.LPartOf) (hpo : po ∈ L.partOf) (hpod : po.doc = d.doc_uuid)
    (hpop : po.para = p.para_uuid) :
    Cache.hasDoc (Cache.promote_entity true L S name label now) d.doc_uuid = true ∧
    Cache.hasPara (Cache.promote_entity true L S name label now) p.para_uuid = true ∧
    Cache.hasPartOf (Cache.promote_entity true L S name label now)
      p.para_uuid d.doc_uuid = true ∧
    Cache.hasMention (Cache.promote_entity true L S name label now)
      e.ent_uuid (Cache.TargetRef.para p.para_uuid) = true := by
  have hrd : Cache.Resolved.toDoc d ∈ Cache.resolveTargets L m.target := by
    rcases hres with h | ⟨pid, hpt, po0, hpo0, hpo0p, hpo0d⟩
    · rw [h]
      exact resolveTargets_doc L d.doc_uuid d hd rfl
    · rw [hpt]
      exact resolveTargets_para L pid po0 hpo0 hpo0p d hd hpo0d.symm
  have hrow : (⟨e, Cache.Resolved.toDoc d,
      Cache.docParas L (Cache.Resolved.toDoc d)⟩ : Cache.PromoRow) ∈
      Cache.promotionQuery L name label now :=
    promotionQuery_row_mem L name label now e he hen hel m hm hme hmv _ hrd
  have hq : p ∈ Cache.docParas L (Cache.Resolved.toDoc d) :=
    docParas_mem L d p hp po hpo hpod hpop
  obtain ⟨h1, h2, h3, h4, h5⟩ := rowsFold_reach (now + Cache.TTL_MS)
    (Cache.promotionQuery L name label now) e d
    (Cache.docParas L (Cache.Resolved.toDoc d)) hrow p hq hpdu S
  exact ⟨h2, h3, by rw [← hpdu] at h4 ⊢; exact h4, h5⟩

/-- Claim C5 — witness: the entity mentions only paragraph `p2` of a
two-paragraph document, and promotion copies both paragraphs, their
`PART_OF` edges and both `MENTIONS` edges. -/
theorem C5_full_document_witness :
    Cache.hasDoc (Cache.promote_entity true
      ⟨[⟨"e1", "acme", "ORG", some 0⟩],
       [⟨"p1", "t1", 0, "d1", some 0⟩, ⟨"p2", "t2", 1, "d1", some 0⟩],
       [⟨"d1", "T", "C", "cat", some 0⟩],
       [⟨"e1", Cache.TargetRef.para "p2", some 0⟩],
       [⟨"p1", "d1", some 0⟩, ⟨"p2", "d1", some 0⟩]⟩
      Cache.emptyShort "acme" "ORG" 1000) "d1" = true ∧
    Cache.hasPara (Cache.promote_entity true
      ⟨[⟨"e1", "acme", "ORG", some 0⟩],
       [⟨"p1", "t1", 0, "d1", some 0⟩, ⟨"p2", "t2", 1, "d1", some 0⟩],
       [⟨"d1", "T", "C", "cat", some 0⟩],
       [⟨"e1", Cache.TargetRef.para "p2", some 0⟩],
       [⟨"p1", "d1", some 0⟩, ⟨"p2", "d1", some 0⟩]⟩
      Cache.emptyShort "acme" "ORG" 1000) "p1" = true ∧
    Cache.hasPartOf (Cache.promote_entity true
      ⟨[⟨"e1", "acme", "ORG", some 0⟩],
       [⟨"p1", "t1", 0, "d1", some 0⟩, ⟨"p2", "t2", 1, "d1", some 0⟩],
       [⟨"d1", "T", "C", "cat", some 0⟩],
       [⟨"e1", Cache.TargetRef.para "p2", some 0⟩],
       [⟨"p1", "d1", some 0⟩, ⟨"p2", "d1", some 0⟩]⟩
      Cache.emptyShort "acme" "ORG" 1000) "p1" "d1" = true ∧
    Cache.hasMention (Cache.promote_entity true
      ⟨[⟨"e1", "acme", "ORG", some 0⟩],
       [⟨"p1", "t1", 0, "d1", some 0⟩, ⟨"p2", "t2", 1, "d1", some 0⟩],
       [⟨"d1", "T", "C", "cat", some 0⟩],
       [⟨"e1", Cache.TargetRef.para "p2", some 0⟩],
       [⟨"p1", "d1", some 0⟩, ⟨"p2", "d1", some 0⟩]⟩
      Cache.emptyShort "acme" "ORG" 1000) "e1" (Cache.TargetRef.para "p1") = true :=
  C5_full_document
    ⟨[⟨"e1", "acme", "ORG", some 0⟩],
     [⟨"p1", "t1", 0, "d1", some 0⟩, ⟨"p2", "t2", 1, "d1", some 0⟩],
     [⟨"d1", "T", "C", "cat", some 0⟩],
     [⟨"e1", Cache.TargetRef.para "p2", some 0⟩],
     [⟨"p1", "d1", some 0⟩, ⟨"p2", "d1", some 0⟩]⟩
    Cache.emptyShort "acme" "ORG" 1000
    ⟨"e1", "acme", "ORG", some 0⟩ (by decide) rfl rfl
    ⟨"e1", Cache.TargetRef.para "p2", some 0⟩ (by decide) rfl (by decide)
    ⟨"d1", "T", "C", "cat", some 0⟩ (by decide)
    (Or.inr ⟨"p2", rfl, ⟨"p2", "d1", some 0⟩, by decide, rfl, rfl⟩)
    ⟨"p1", "t1", 0, "d1", some 0⟩ (by decide) rfl
    ⟨"p1", "d1", some 0⟩ (by decide) rfl rfl

/-- After an entity merge, every entity record either was just stamped
(with the merge key) or is an untouched pre-existing record with a
different key. -/
theorem mergeEntity_write (S : Cache.ShortStore) (u n l : String) (exp : Int) :
    ∀ x ∈ (Cache.mergeEntity S u n l exp).entities,
      (x.expiration = some exp ∧ x.ent_uuid = u) ∨
      (x ∈ S.entities ∧ x.ent_uuid ≠ u) := by
  intro x hx
  unfold Cache.mergeEntity at hx
  by_cases hc : (S.entities.any (fun e => e.ent_uuid == u)) = true
  · rw [if_pos hc] at hx
    obtain ⟨y, hy, heq⟩ := List.mem_map.mp hx
    by_cases hyu : (y.ent_uuid == u) = true
    · rw [if_pos hyu] at heq
      exact Or.inl ⟨by rw [← heq], by rw [← heq]; simpa using hyu⟩
    · rw [if_neg hyu] at heq
      exact Or.inr ⟨heq ▸ hy, by rw [← heq]; simpa using hyu⟩
  · rw [if_neg hc] at hx
    rcases List.mem_append.mp hx with h | h
    · refine Or.inr ⟨h, ?_⟩
      simp only [Bool.not_eq_true, List.any_eq_false] at hc
      simpa using hc x h
    · simp only [List.mem_singleton] at h
      exact Or.inl ⟨by rw [h], by rw [h]⟩

/-- After a mention merge whose `MATCH` succeeded, every mention record
either was just stamped (with the merge key) or is an untouched
pre-existing record with a different key. -/
theorem mergeMentions_write (S : Cache.ShortStore) (ent : String) (t : Cache.TargetRef)
    (exp : Int)
    (hok : (S.entities.any (fun e => e.ent_uuid == ent) && Cache.targetExists S t) = true) :
    ∀ x ∈ (Cache.mergeMentions S ent t exp).mentions,
      (x.expiration = some exp ∧ x.ent_uuid = ent ∧ x.target = t) ∨
      (x ∈ S.mentions ∧ ¬(x.ent_uuid = ent ∧ x.target = t)) := by
  intro x hx
  unfold Cache.mergeMentions at hx
  rw [if_pos hok] at hx
  by_cases hc : (S.mentions.any (fun m => m.ent_uuid == ent && m.target == t)) = true
  · rw [if_pos hc] at hx
    obtain ⟨y, hy, heq⟩ := List.mem_map.mp hx
    by_cases hyu : (y.ent_uuid == ent && y.target == t) = true
    · rw [if_pos hyu] at heq
      simp only [Bool.and_eq_true, beq_iff_eq] at hyu
      exact Or.inl ⟨by rw [← heq], by rw [← heq]; exact hyu.1, by rw [← heq]; exact hyu.2⟩
    · rw [if_neg hyu] at heq
      refine Or.inr ⟨heq ▸ hy, ?_⟩
      rw [← heq]
      simpa using hyu
  · rw [if_neg hc] at hx
    rcases List.mem_append.mp hx with h | h
    · refine Or.inr ⟨h, ?_⟩
      simp only [Bool.not_eq_true, List.any_eq_false] at hc
      simpa using hc x h
    · simp only [List.mem_singleton] at h
      exact Or.inl ⟨by rw [h], by rw [h], by rw [h]⟩

/-- A `PART_OF` merge only adds property-less edges. -/
theorem mergePartOf_write (S : Cache.ShortStore) (p d : String) :
    ∀ x ∈ (Cache.mergePartOf S p d).partOf, x ∈ S.partOf ∨ x.expiration = none := by
  intro x hx
  unfold Cache.mergePartOf at hx
  split at hx
  · split at hx
    · exact Or.inl hx
    · rcases List.mem_append.mp hx with h | h
      · exact Or.inl h
      · simp only [List.mem_singleton] at h
        exact Or.inr (by rw [h])
  · exact Or.inl hx

/-- The per-paragraph step stamps its own `MENTIONS` edge key and leaves
every other mention untouched (the entity must be present for the
`MATCH` to succeed). -/
theorem promoStep_mentions_write (ent : String) (exp : Int) (q : Cache.LPara)
    (S : Cache.ShortStore) (he : Cache.hasEnt S ent = true) :
    ∀ x ∈ (Cache.mergeMentions (Cache.mergePartOf
        (Cache.mergeParagraph S q.para_uuid q.text q.index q.doc_uuid exp)
        q.para_uuid q.doc_uuid) ent (Cache.TargetRef.para q.para_uuid) exp).mentions,
      (x.expiration = some exp ∧ x.ent_uuid = ent ∧
        x.target = Cache.TargetRef.para q.para_uuid) ∨
      (x ∈ S.mentions ∧ ¬(x.ent_uuid = ent ∧
        x.target = Cache.TargetRef.para q.para_uuid)) := by
  intro x hx
  have hok : ((Cache.mergePartOf (Cache.mergeParagraph S q.para_uuid q.text q.index
      q.doc_uuid exp) q.para_uuid q.doc_uuid).entities.any (fun e => e.ent_uuid == ent) &&
      Cache.targetExists (Cache.mergePartOf (Cache.mergeParagraph S q.para_uuid q.text
        q.index q.doc_uuid exp) q.para_uuid q.doc_uuid)
        (Cache.TargetRef.para q.para_uuid)) = true := by
    rw [Bool.and_eq_true]
    constructor
    · rw [mergePartOf_entities, mergeParagraph_entities]
      exact he
    · rw [targetExists_para]
      unfold Cache.hasPara
      rw [mergePartOf_paragraphs]
      exact mergeParagraph_hasPara_self S q.para_uuid q.text q.index q.doc_uuid exp
  rcases mergeMentions_write _ ent (Cache.TargetRef.para q.para_uuid) exp hok x hx
    with h | ⟨hmem, hkey⟩
  · exact Or.inl h
  · refine Or.inr ⟨?_, hkey⟩
    rw [mergePartOf_mentions, mergeParagraph_mentions] at hmem
    exact hmem

/-- The per-paragraph loop stamps exactly the mention keys of its
paragraph list and leaves other mentions untouched. -/
theorem paraFold_mentions_write (ent : String) (exp : Int) (ps : List Cache.LPara) :
    ∀ (S : Cache.ShortStore), Cache.hasEnt S ent = true →
      ∀ x ∈ ((ps.foldl (fun S p => Cache.mergeMentions
          (Cache.mergePartOf (Cache.mergeParagraph S p.para_uuid p.text p.index p.doc_uuid exp)
            p.para_uuid p.doc_uuid)
          ent (Cache.TargetRef.para p.para_uuid) exp) S).mentions),
        (x.expiration = some exp ∧
          (x.ent_uuid, x.target) ∈ ps.map (fun p => (ent, Cache.TargetRef.para p.para_uuid))) ∨
        (x ∈ S.mentions ∧
          (x.ent_uuid, x.target) ∉ ps.map (fun p => (ent, Cache.TargetRef.para p.para_uuid))) := by
  induction ps with
  | nil => exact fun S _ x hx => Or.inr ⟨hx, by simp⟩
  | cons q qs ih =>
    intro S he x hx
    simp only [List.foldl_cons] at hx
    have he' : Cache.hasEnt (Cache.mergeMentions (Cache.mergePartOf
        (Cache.mergeParagraph S q.para_uuid q.text q.index q.doc_uuid exp)
        q.para_uuid q.doc_uuid) ent (Cache.TargetRef.para q.para_uuid) exp) ent = true := by
      rw [promoStep_hasEnt]
      exact he
    rcases ih _ he' x hx with ⟨hexp, hkey⟩ | ⟨hmem, hkey⟩
    · exact Or.inl ⟨hexp, by simp only [List.map_cons, List.mem_cons]; exact Or.inr hkey⟩
    · rcases promoStep_mentions_write ent exp q S he x hmem with h | ⟨hmem2, hkey2⟩
      · refine Or.inl ⟨h.1, ?_⟩
        simp only [List.map_cons, List.mem_cons]
        exact Or.inl (by rw [h.2.1, h.2.2])
      · refine Or.inr ⟨hmem2, ?_⟩
        simp only [List.map_cons, List.mem_cons]
        rintro (h | h)
        · exact hkey2 ⟨by simpa using congrArg Prod.fst h, by simpa using congrArg Prod.snd h⟩
        · exact hkey h

/-- Processing one promotion record stamps exactly its own mention keys
and leaves every other mention untouched. -/
theorem promoteRow_mentions_write (exp : Int) (S : Cache.ShortStore)
    (row : Cache.PromoRow) :
    ∀ x ∈ (Cache.promoteRow true exp S row).mentions,
      (x.expiration = some exp ∧ (x.ent_uuid, x.target) ∈ Cache.rowMentionKeys row) ∨
      (x ∈ S.mentions ∧ (x.ent_uuid, x.target) ∉ Cache.rowMentionKeys row) := by
  intro x hx
  unfold Cache.promoteRow at hx
  dsimp only at hx
  cases hres : row.resolved with
  | toDoc dn =>
    rw [hres] at hx
    dsimp only at hx
    rw [if_pos rfl] at hx
    have hok : ((Cache.mergeDocument (Cache.mergeEntity S row.ent.ent_uuid row.ent.name
        row.ent.label exp) dn.doc_uuid dn.title dn.content dn.category exp).entities.any
          (fun e => e.ent_uuid == row.ent.ent_uuid) &&
        Cache.targetExists (Cache.mergeDocument (Cache.mergeEntity S row.ent.ent_uuid
          row.ent.name row.ent.label exp) dn.doc_uuid dn.title dn.content dn.category exp)
          (Cache.TargetRef.doc dn.doc_uuid)) = true := by
      rw [Bool.and_eq_true]
      constructor
      · rw [mergeDocument_entities]
        exact mergeEntity_hasEnt_self S row.ent.ent_uuid row.ent.name row.ent.label exp
      · exact mergeDocument_hasDoc_self _ dn.doc_uuid dn.title dn.content dn.category exp
    have he2 : Cache.hasEnt (Cache.mergeMentions (Cache.mergeDocument
        (Cache.mergeEntity S row.ent.ent_uuid row.ent.name row.ent.label exp) dn.doc_uuid
        dn.title dn.content dn.category exp) row.ent.ent_uuid
        (Cache.TargetRef.doc dn.doc_uuid) exp) row.ent.ent_uuid = true := by
      unfold Cache.hasEnt
      rw [mergeMentions_entities, mergeDocument_entities]
      exact mergeEntity_hasEnt_self S row.ent.ent_uuid row.ent.name row.ent.label exp
    rcases paraFold_mentions_write row.ent.ent_uuid exp row.paras _ he2 x hx
      with ⟨hexp, hkey⟩ | ⟨hmem, hkey⟩
    · refine Or.inl ⟨hexp, ?_⟩
      simp only [Cache.rowMentionKeys, hres, List.singleton_append, List.mem_cons]
      exact Or.inr hkey
    · rcases mergeMentions_write _ row.ent.ent_uuid (Cache.TargetRef.doc dn.doc_uuid)
        exp hok x hmem with ⟨hexp2, hu, ht⟩ | ⟨hmem2, hkey2⟩
      · refine Or.inl ⟨hexp2, ?_⟩
        simp only [Cache.rowMentionKeys, hres, List.singleton_append, List.mem_cons]
        exact Or.inl (by rw [hu, ht])
      · rw [mergeDocument_mentions, mergeEntity_mentions] at hmem2
        refine Or.inr ⟨hmem2, ?_⟩
        simp only [Cache.rowMentionKeys, hres, List.singleton_append, List.mem_cons]
        rintro (h | h)
        · exact hkey2 ⟨by simpa using congrArg Prod.fst h, by simpa using congrArg Prod.snd h⟩
        · exact hkey h
  | orphan pid =>
    rw [hres] at hx
    dsimp only at hx
    have he1 : Cache.hasEnt (Cache.mergeEntity S row.ent.ent_uuid row.ent.name
        row.ent.label exp) row.ent.ent_uuid = true :=
      mergeEntity_hasEnt_self S row.ent.ent_uuid row.ent.name row.ent.label exp
    rcases paraFold_mentions_write row.ent.ent_uuid exp row.paras _ he1 x hx
      with ⟨hexp, hkey⟩ | ⟨hmem, hkey⟩
    · refine Or.inl ⟨hexp, ?_⟩
      simp only [Cache.rowMentionKeys, hres, List.nil_append]
      exact hkey
    · rw [mergeEntity_mentions] at hmem
      refine Or.inr ⟨hmem, ?_⟩
      simp only [Cache.rowMentionKeys, hres, List.nil_append]
      exact hkey

/-- A promotion pass stamps exactly the mention keys of its query rows
and leaves every other mention untouched. -/
theorem rowsFold_mentions_write (exp : Int) (rows : List Cache.PromoRow) :
    ∀ (S : Cache.ShortStore), ∀ x ∈ ((rows.foldl (Cache.promoteRow true exp) S).mentions),
      (x.expiration = some exp ∧ (x.ent_uuid, x.target) ∈ Cache.mentionKeys rows) ∨
      (x ∈ S.mentions ∧ (x.ent_uuid, x.target) ∉ Cache.mentionKeys rows) := by
  induction rows with
  | nil => exact fun S x hx => Or.inr ⟨hx, by simp [Cache.mentionKeys]⟩
  | cons row rest ih =>
    intro S x hx
    simp only [List.foldl_cons] at hx
    have hsplit : Cache.mentionKeys (row :: rest)
        = Cache.rowMentionKeys row ++ Cache.mentionKeys rest := by
      simp [Cache.mentionKeys]
    rcases ih _ x hx with ⟨hexp, hkey⟩ | ⟨hmem, hkey⟩
    · exact Or.inl ⟨hexp, by rw [hsplit]; exact List.mem_append_right _ hkey⟩
    · rcases promoteRow_mentions_write exp S row x hmem with ⟨hexp2, hkey2⟩ | ⟨hmem2, hkey2⟩
      · exact Or.inl ⟨hexp2, by rw [hsplit]; exact List.mem_append_left _ hkey2⟩
      · refine Or.inr ⟨hmem2, ?_⟩
        rw [hsplit]
        intro h
        rcases List.mem_append.mp h with h | h
        · exact hkey2 h
        · exact hkey h

/-- Processing one promotion record stamps exactly its own entity uuid
and leaves every other entity untouched. -/
theorem promoteRow_entities_write (pd : Bool) (exp : Int) (S : Cache.ShortStore)
    (row : Cache.PromoRow) :
    ∀ x ∈ (Cache.promoteRow pd exp S row).entities,
      (x.expiration = some exp ∧ x.ent_uuid = row.ent.ent_uuid) ∨
      (x ∈ S.entities ∧ x.ent_uuid ≠ row.ent.ent_uuid) := by
  intro x hx
  rw [promoteRow_entities] at hx
  exact mergeEntity_write S row.ent.ent_uuid row.ent.name row.ent.label exp x hx

/-- A promotion pass stamps exactly the entity uuids of its query rows
and leaves every other entity untouched. -/
theorem rowsFold_entities_write (pd : Bool) (exp : Int) (rows : List Cache.PromoRow) :
    ∀ (S : Cache.ShortStore), ∀ x ∈ ((rows.foldl (Cache.promoteRow pd exp) S).entities),
      (x.expiration = some exp ∧ x.ent_uuid ∈ Cache.entIds rows) ∨
      (x ∈ S.entities ∧ x.ent_uuid ∉ Cache.entIds rows) := by
  induction rows with
  | nil => exact fun S x hx => Or.inr ⟨hx, by simp [Cache.entIds]⟩
  | cons row rest ih =>
    intro S x hx
    simp only [List.foldl_cons] at hx
    rcases ih _ x hx with ⟨hexp, hkey⟩ | ⟨hmem, hkey⟩
    · refine Or.inl ⟨hexp, ?_⟩
      simp only [Cache.entIds, List.map_cons, List.mem_cons]
      exact Or.inr (by simpa [Cache.entIds] using hkey)
    · rcases promoteRow_entities_write pd exp S row x hmem with ⟨hexp2, hkey2⟩ | ⟨hmem2, hkey2⟩
      · refine Or.inl ⟨hexp2, ?_⟩
        simp only [Cache.entIds, List.map_cons, List.mem_cons]
        exact Or.inl hkey2
      · refine Or.inr ⟨hmem2, ?_⟩
        simp only [Cache.entIds, List.map_cons, List.mem_cons]
        rintro (h | h)
        · exact hkey2 h
        · exact hkey (by simpa [Cache.entIds] using h)

/-- Processing one promotion record only adds property-less `PART_OF`
edges. -/
theorem promoteRow_partOf_write (pd : Bool) (exp : Int) (S : Cache.ShortStore)
    (row : Cache.PromoRow) :
    ∀ x ∈ (Cache.promoteRow pd exp S row).partOf,
      x ∈ S.partOf ∨ x.expiration = none := by
  intro x hx
  unfold Cache.promoteRow at hx
  dsimp only at hx
  have hfold : ∀ (ps : List Cache.LPara) (S0 : Cache.ShortStore),
      ∀ x ∈ ((ps.foldl (fun S p => Cache.mergeMentions
        (Cache.mergePartOf (Cache.mergeParagraph S p.para_uuid p.text p.index p.doc_uuid exp)
          p.para_uuid p.doc_uuid)
        row.ent.ent_uuid (Cache.TargetRef.para p.para_uuid) exp) S0).partOf),
        x ∈ S0.partOf ∨ x.expiration = none := by
    intro ps
    induction ps with
    | nil => exact fun S0 x hx => Or.inl hx
    | cons y ys ihy =>
      intro S0 x hx
      simp only [List.foldl_cons] at hx
      rcases ihy _ x hx with h | h
      · rw [mergeMentions_partOf] at h
        rcases mergePartOf_write _ y.para_uuid y.doc_uuid x h with h' | h'
        · rw [mergeParagraph_partOf] at h'
          exact Or.inl h'
        · exact Or.inr h'
      · exact Or.inr h
  rcases hfold row.paras _ x hx with h | h
  · cases hres : row.resolved with
    | toDoc dn =>
      rw [hres] at h
      dsimp only at h
      by_cases hpd : pd = true
      · rw [if_pos hpd] at h
        rw [mergeMentions_partOf, mergeDocument_partOf, mergeEntity_partOf] at h
        exact Or.inl h
      · rw [if_neg hpd] at h
        rw [mergeEntity_partOf] at h
        exact Or.inl h
    | orphan pid =>
      rw [hres] at h
      dsimp only at h
      rw [mergeEntity_partOf] at h
      exact Or.inl h
  · exact Or.inr h

/-- A promotion pass only adds property-less `PART_OF` edges. -/
theorem rowsFold_partOf_write (pd : Bool) (exp : Int) (rows : List Cache.PromoRow) :
    ∀ (S : Cache.ShortStore), ∀ x ∈ ((rows.foldl (Cache.promoteRow pd exp) S).partOf),
      x ∈ S.partOf ∨ x.expiration = none := by
  induction rows with
  | nil => exact fun S x hx => Or.inl hx
  | cons row rest ih =>
    intro S x hx
    simp only [List.foldl_cons] at hx
    rcases ih _ x hx with h | h
    · rcases promoteRow_partOf_write pd exp S row x h with h' | h'
      · exact Or.inl h'
      · exact Or.inr h'
    · exact Or.inr h

/-- An entity merge keeps entity uuids duplicate-free. -/
theorem mergeEntity_nodup (S : Cache.ShortStore) (u n l : String) (exp : Int)
    (h : S.entities.Pairwise (fun a b => a.ent_uuid ≠ b.ent_uuid)) :
    (Cache.mergeEntity S u n l exp).entities.Pairwise
      (fun a b => a.ent_uuid ≠ b.ent_uuid) := by
  unfold Cache.mergeEntity
  by_cases hc : (S.entities.any (fun e => e.ent_uuid == u)) = true
  · rw [if_pos hc]
    refine List.Pairwise.map _ ?_ h
    intro a b hab
    by_cases ha : (a.ent_uuid == u) = true <;> by_cases hb : (b.ent_uuid == u) = true <;>
      simp [ha, hb, hab]
  · rw [if_neg hc]
    rw [List.pairwise_append]
    refine ⟨h, by simp, ?_⟩
    intro a ha b hb
    simp only [List.mem_singleton] at hb
    subst hb
    simp only [Bool.not_eq_true, List.any_eq_false] at hc
    simpa using hc a ha

/-- A mention merge keeps mention keys duplicate-free. -/
theorem mergeMentions_nodup (S : Cache.ShortStore) (ent : String) (t : Cache.TargetRef)
    (exp : Int)
    (h : S.mentions.Pairwise (fun a b => ¬(a.ent_uuid = b.ent_uuid ∧ a.target = b.target))) :
    (Cache.mergeMentions S ent t exp).mentions.Pairwise
      (fun a b => ¬(a.ent_uuid = b.ent_uuid ∧ a.target = b.target)) := by
  unfold Cache.mergeMentions
  split
  · by_cases hc : (S.mentions.any (fun m => m.ent_uuid == ent && m.target == t)) = true
    · rw [if_pos hc]
      refine List.Pairwise.map _ ?_ h
      intro a b hab
      by_cases ha : (a.ent_uuid == ent && a.target == t) = true <;>
        by_cases hb : (b.ent_uuid == ent && b.target == t) = true <;>
        simp [ha, hb, hab]
    · rw [if_neg hc]
      rw [List.pairwise_append]
      refine ⟨h, by simp, ?_⟩
      intro a ha b hb
      simp only [List.mem_singleton] at hb
      subst hb
      simp only [Bool.not_eq_true, List.any_eq_false] at hc
      simpa using hc a ha
  · exact h

/-- A `PART_OF` merge keeps `PART_OF` edge keys duplicate-free. -/
theorem mergePartOf_nodup (S : Cache.ShortStore) (p d : String)
    (h : S.partOf.Pairwise (fun a b => ¬(a.para = b.para ∧ a.doc = b.doc))) :
    (Cache.mergePartOf S p d).partOf.Pairwise
      (fun a b => ¬(a.para = b.para ∧ a.doc = b.doc)) := by
  unfold Cache.mergePartOf
  split
  · by_cases hc : (S.partOf.any (fun po => po.para == p && po.doc == d)) = true
    · rw [if_pos hc]
      exact h
    · rw [if_neg hc]
      rw [List.pairwise_append]
      refine ⟨h, by simp, ?_⟩
      intro a ha b hb
      simp only [List.mem_singleton] at hb
      subst hb
      simp only [Bool.not_eq_true, List.any_eq_false] at hc
      simpa using hc a ha
  · exact h

/-- Processing one promotion record keeps all three key families
duplicate-free. -/
theorem promoteRow_nodup (pd : Bool) (exp : Int) (S : Cache.ShortStore)
    (row : Cache.PromoRow)
    (he : S.entities.Pairwise (fun a b => a.ent_uuid ≠ b.ent_uuid))
    (hm : S.mentions.Pairwise (fun a b => ¬(a.ent_uuid = b.ent_uuid ∧ a.target = b.target)))
    (hpo : S.partOf.Pairwise (fun a b => ¬(a.para = b.para ∧ a.doc = b.doc))) :
    (Cache.promoteRow pd exp S row).entities.Pairwise
      (fun a b => a.ent_uuid ≠ b.ent_uuid) ∧
    (Cache.promoteRow pd exp S row).mentions.Pairwise
      (fun a b => ¬(a.ent_uuid = b.ent_uuid ∧ a.target = b.target)) ∧
    (Cache.promoteRow pd exp S row).partOf.Pairwise
      (fun a b => ¬(a.para = b.para ∧ a.doc = b.doc)) := by
  have hfold : ∀ (ps : List Cache.LPara) (S0 : Cache.ShortStore),
      S0.entities.Pairwise (fun a b => a.ent_uuid ≠ b.ent_uuid) →
      S0.mentions.Pairwise (fun a b => ¬(a.ent_uuid = b.ent_uuid ∧ a.target = b.target)) →
      S0.partOf.Pairwise (fun a b => ¬(a.para = b.para ∧ a.doc = b.doc)) →
      ((ps.foldl (fun S p => Cache.mergeMentions
        (Cache.mergePartOf (Cache.mergeParagraph S p.para_uuid p.text p.index p.doc_uuid exp)
          p.para_uuid p.doc_uuid)
        row.ent.ent_uuid (Cache.TargetRef.para p.para_uuid) exp) S0).entities.Pairwise
          (fun a b => a.ent_uuid ≠ b.ent_uuid)) ∧
      ((ps.foldl (fun S p => Cache.mergeMentions
        (Cache.mergePartOf (Cache.mergeParagraph S p.para_uuid p.text p.index p.doc_uuid exp)
          p.para_uuid p.doc_uuid)
        row.ent.ent_uuid (Cache.TargetRef.para p.para_uuid) exp) S0).mentions.Pairwise
          (fun a b => ¬(a.ent_uuid = b.ent_uuid ∧ a.target = b.target))) ∧
      ((ps.foldl (fun S p => Cache.mergeMentions
        (Cache.mergePartOf (Cache.mergeParagraph S p.para_uuid p.text p.index p.doc_uuid exp)
          p.para_uuid p.doc_uuid)
        row.ent.ent_uuid (Cache.TargetRef.para p.para_uuid) exp) S0).partOf.Pairwise
          (fun a b => ¬(a.para = b.para ∧ a.doc = b.doc))) := by
    intro ps
    induction ps with
    | nil => exact fun S0 a b c => ⟨a, b, c⟩
    | cons y ys ihy =>
      intro S0 a b c
      simp only [List.foldl_cons]
      refine ihy _ ?_ ?_ ?_
      · rw [mergeMentions_entities, mergePartOf_entities, mergeParagraph_entities]
        exact a
      · apply mergeMentions_nodup
        rw [mergePartOf_mentions, mergeParagraph_mentions]
        exact b
      · rw [mergeMentions_partOf]
        apply mergePartOf_nodup
        rw [mergeParagraph_partOf]
        exact c
  unfold Cache.promoteRow
  dsimp only
  apply hfold
  all_goals cases hres : row.resolved with
  | toDoc dn =>
    dsimp only
    by_cases hpd : pd = true
    · rw [if_pos hpd]
      first
        | { rw [mergeMentions_entities, mergeDocument_entities]
            exact mergeEntity_nodup S _ _ _ exp he }
        | { apply mergeMentions_nodup
            rw [mergeDocument_mentions, mergeEntity_mentions]
            exact hm }
        | { rw [mergeMentions_partOf, mergeDocument_partOf, mergeEntity_partOf]
            exact hpo }
    · rw [if_neg hpd]
      first
        | exact mergeEntity_nodup S _ _ _ exp he
        | { rw [mergeEntity_mentions]; exact hm }
        | { rw [mergeEntity_partOf]; exact hpo }
  | orphan pid =>
    dsimp only
    first
      | exact mergeEntity_nodup S _ _ _ exp he
      | { rw [mergeEntity_mentions]; exact hm }
      | { rw [mergeEntity_partOf]; exact hpo }

/-- A whole promotion pass keeps all three key families
duplicate-free. -/
theorem rowsFold_nodup (pd : Bool) (exp : Int) (rows : List Cache.PromoRow) :
    ∀ (S : Cache.ShortStore),
      S.entities.Pairwise (fun a b => a.ent_uuid ≠ b.ent_uuid) →
      S.mentions.Pairwise (fun a b => ¬(a.ent_uuid = b.ent_uuid ∧ a.target = b.target)) →
      S.partOf.Pairwise (fun a b => ¬(a.para = b.para ∧ a.doc = b.doc)) →
      ((rows.foldl (Cache.promoteRow pd exp) S).entities.Pairwise
        (fun a b => a.ent_uuid ≠ b.ent_uuid)) ∧
      ((rows.foldl (Cache.promoteRow pd exp) S).mentions.Pairwise
        (fun a b => ¬(a.ent_uuid = b.ent_uuid ∧ a.target = b.target))) ∧
      ((rows.foldl (Cache.promoteRow pd exp) S).partOf.Pairwise
        (fun a b => ¬(a.para = b.para ∧ a.doc = b.doc))) := by
  induction rows with
  | nil => exact fun S a b c => ⟨a, b, c⟩
  | cons row rest ih =>
    intro S a b c
    simp only [List.foldl_cons]
    obtain ⟨a', b', c'⟩ := promoteRow_nodup pd exp S row a b c
    exact ih _ a' b' c'

/-- A promotion pass makes each query row's entity present. -/
theorem rowsFold_hasEnt_present (pd : Bool) (exp : Int) (rows : List Cache.PromoRow)
    (row : Cache.PromoRow) (hrow : row ∈ rows) :
    ∀ S : Cache.ShortStore,
      Cache.hasEnt (rows.foldl (Cache.promoteRow pd exp) S) row.ent.ent_uuid = true := by
  induction rows with
  | nil => exact absurd hrow (List.not_mem_nil _)
  | cons r rest ih =>
    intro S
    rcases List.mem_cons.mp hrow with hhead | htail
    · subst hhead
      simp only [List.foldl_cons]
      have hself : Cache.hasEnt (Cache.promoteRow pd exp S row) row.ent.ent_uuid = true := by
        unfold Cache.hasEnt
        rw [promoteRow_entities]
        exact mergeEntity_hasEnt_self S _ _ _ exp
      have hfold : ∀ (rs : List Cache.PromoRow) (S0 : Cache.ShortStore),
          Cache.hasEnt S0 row.ent.ent_uuid = true →
          Cache.hasEnt (rs.foldl (Cache.promoteRow pd exp) S0) row.ent.ent_uuid = true := by
        intro rs
        induction rs with
        | nil => exact fun S0 h => h
        | cons r2 rrest ihr =>
          intro S0 h
          simp only [List.foldl_cons]
          exact ihr _ ((promoteRow_pres pd exp S0 r2).1 _ h)
      exact hfold rest _ hself
    · simp only [List.foldl_cons]
      exact ih htail _

/-- With entity uuids duplicate-free, the per-uuid record count is an
indicator. -/
theorem ent_filter_len (u : String) (es : List Cache.SEntity)
    (h : es.Pairwise (fun a b => a.ent_uuid ≠ b.ent_uuid)) :
    (es.filter (fun e => e.ent_uuid == u)).length
      = if es.any (fun e => e.ent_uuid == u) then 1 else 0 := by
  induction es with
  | nil => rfl
  | cons e es ih =>
    rcases List.pairwise_cons.mp h with ⟨hhead, htail⟩
    by_cases hc : (e.ent_uuid == u) = true
    · have hrest : (es.filter (fun e => e.ent_uuid == u)) = [] := by
        rw [List.filter_eq_nil_iff]
        intro x hx hxc
        simp only [beq_iff_eq] at hc hxc
        exact hhead x hx (hc.trans hxc.symm)
      simp [List.filter_cons, List.any_cons, hc, hrest]
    · have hc' : (e.ent_uuid == u) = false := by simpa using hc
      simp only [List.filter_cons, List.any_cons, hc', Bool.false_or, if_false]
      exact ih htail

/-- When every authoritative `MENTIONS` edge is permanent (expiration
absent or `0`, exactly what ingest writes), the promotion read is the
same at every time. -/
theorem promotionQuery_time (L : Cache.LongStore) (name label : String)
    (hperm : ∀ m ∈ L.mentions, m.expiration = none ∨ m.expiration = some 0)
    (t t' : Int) :
    Cache.promotionQuery L name label t = Cache.promotionQuery L name label t' := by
  unfold Cache.promotionQuery
  apply congrArg
  funext e
  have hf : (L.mentions.filter (fun m =>
      m.ent_uuid == e.ent_uuid && visibleExp m.expiration t))
      = (L.mentions.filter (fun m =>
        m.ent_uuid == e.ent_uuid && visibleExp m.expiration t')) := by
    apply List.filter_congr
    intro m hm
    rcases hperm m hm with h | h <;> rw [h] <;> rfl
  rw [hf]

/-- Claim C4 — counterexample.  The claim states that after promoting
the same key twice every node's and edge's expiration equals
`t2 + ttl`.  `_merge_part_of` writes no property at all, so after two
promotions of `("acme","ORG")` both `PART_OF` edges carry no
`expiration`, not `t2 + TTL_MS`. -/
theorem C4_counterexample :
    ((Cache.promote_entity true
        ⟨[⟨"e1", "acme", "ORG", some 0⟩],
         [⟨"p1", "t1", 0, "d1", some 0⟩, ⟨"p2", "t2", 1, "d1", some 0⟩],
         [⟨"d1", "T", "C", "cat", some 0⟩],
         [⟨"e1", Cache.TargetRef.para "p2", some 0⟩],
         [⟨"p1", "d1", some 0⟩, ⟨"p2", "d1", some 0⟩]⟩
        (Cache.promote_entity true
          ⟨[⟨"e1", "acme", "ORG", some 0⟩],
           [⟨"p1", "t1", 0, "d1", some 0⟩, ⟨"p2", "t2", 1, "d1", some 0⟩],
           [⟨"d1", "T", "C", "cat", some 0⟩],
           [⟨"e1", Cache.TargetRef.para "p2", some 0⟩],
           [⟨"p1", "d1", some 0⟩, ⟨"p2", "d1", some 0⟩]⟩
          Cache.emptyShort "acme" "ORG" 1000)
        "acme" "ORG" 2000).partOf.map Cache.SPartOf.expiration) = [none, none] ∧
    (none : Option Int) ≠ some (2000 + Cache.TTL_MS) := by decide

/-- Claim C4 — amended.  Promoting the same `(name, label)` key twice at
times `t1 < t2` over an authoritative store with permanent mention edges
(as ingest writes them) leaves no duplicates in the working set — entity
uuids, `MENTIONS` keys and `PART_OF` keys are all pairwise distinct, and
each promoted entity uuid is held by exactly one node — with every
`Entity` node and every `MENTIONS` edge stamped `expiration = t2 + ttl`
(the second promotion overwrites, it never extends), while every
`PART_OF` edge carries no expiration property at all. -/
theorem C4_amended (L : Cache.LongStore) (name label : String) (t1 t2 : Int)
    (hperm : ∀ m ∈ L.mentions, m.expiration = none ∨ m.expiration = some 0) :
    (∀ x ∈ (Cache.promote_entity true L (Cache.promote_entity true L Cache.emptyShort
        name label t1) name label t2).entities,
      x.expiration = some (t2 + Cache.TTL_MS)) ∧
    (∀ x ∈ (Cache.promote_entity true L (Cache.promote_entity true L Cache.emptyShort
        name label t1) name label t2).mentions,
      x.expiration = some (t2 + Cache.TTL_MS)) ∧
    (∀ x ∈ (Cache.promote_entity true L (Cache.promote_entity true L Cache.emptyShort
        name label t1) name label t2).partOf,
      x.expiration = none) ∧
    ((Cache.promote_entity true L (Cache.promote_entity true L Cache.emptyShort
        name label t1) name label t2).entities.Pairwise
      (fun a b => a.ent_uuid ≠ b.ent_uuid)) ∧
    ((Cache.promote_entity true L (Cache.promote_entity true L Cache.emptyShort
        name label t1) name label t2).mentions.Pairwise
      (fun a b => ¬(a.ent_uuid = b.ent_uuid ∧ a.target = b.target))) ∧
    ((Cache.promote_entity true L (Cache.promote_entity true L Cache.emptyShort
        name label t1) name label t2).partOf.Pairwise
      (fun a b => ¬(a.para = b.para ∧ a.doc = b.doc))) ∧
    (∀ row ∈ Cache.promotionQuery L name label t2,
      ((Cache.promote_entity true L (Cache.promote_entity true L Cache.emptyShort
        name label t1) name label t2).entities.filter
          (fun x => x.ent_uuid == row.ent.ent_uuid)).length = 1) := by
  have hq : Cache.promotionQuery L name label t1 = Cache.promotionQuery L name label t2 :=
    promotionQuery_time L name label hperm t1 t2
  have hS1 : ∀ x ∈ (Cache.promote_entity true L Cache.emptyShort name label t1).entities,
      x.ent_uuid ∈ Cache.entIds (Cache.promotionQuery L name label t2) := by
    intro x hx
    unfold Cache.promote_entity Cache.promoteWithExp at hx
    rcases rowsFold_entities_write true (t1 + Cache.TTL_MS)
        (Cache.promotionQuery L name label t1) Cache.emptyShort x hx
      with ⟨_, hkey⟩ | ⟨habs, _⟩
    · rw [← hq]
      exact hkey
    · exact absurd habs (List.not_mem_nil x)
  have hS1m : ∀ x ∈ (Cache.promote_entity true L Cache.emptyShort name label t1).mentions,
      (x.ent_uuid, x.target) ∈ Cache.mentionKeys (Cache.promotionQuery L name label t2) := by
    intro x hx
    unfold Cache.promote_entity Cache.promoteWithExp at hx
    rcases rowsFold_mentions_write (t1 + Cache.TTL_MS)
        (Cache.promotionQuery L name label t1) Cache.emptyShort x hx
      with ⟨_, hkey⟩ | ⟨habs, _⟩
    · rw [← hq]
      exact hkey
    · exact absurd habs (List.not_mem_nil x)
  have hS1po : ∀ x ∈ (Cache.promote_entity true L Cache.emptyShort name label t1).partOf,
      x.expiration = none := by
    intro x hx
    unfold Cache.promote_entity Cache.promoteWithExp at hx
    rcases rowsFold_partOf_write true (t1 + Cache.TTL_MS)
        (Cache.promotionQuery L name label t1) Cache.emptyShort x hx
      with habs | h
    · exact absurd habs (List.not_mem_nil x)
    · exact h
  have hWf := rowsFold_nodup true (t2 + Cache.TTL_MS)
    (Cache.promotionQuery L name label t2)
    (Cache.promote_entity true L Cache.emptyShort name label t1)
  have hWf1 := rowsFold_nodup true (t1 + Cache.TTL_MS)
    (Cache.promotionQuery L name label t1) Cache.emptyShort
    (by exact List.Pairwise.nil) (by exact List.Pairwise.nil) (by exact List.Pairwise.nil)
  have hWf2 := hWf hWf1.1 hWf1.2.1 hWf1.2.2
  refine ⟨?_, ?_, ?_, hWf2.1, hWf2.2.1, hWf2.2.2, ?_⟩
  · intro x hx
    unfold Cache.promote_entity Cache.promoteWithExp at hx
    rcases rowsFold_entities_write true (t2 + Cache.TTL_MS)
        (Cache.promotionQuery L name label t2) _ x hx with ⟨hexp, _⟩ | ⟨hmem, hnot⟩
    · exact hexp
    · exact absurd (hS1 x hmem) hnot
  · intro x hx
    unfold Cache.promote_entity Cache.promoteWithExp at hx
    rcases rowsFold_mentions_write (t2 + Cache.TTL_MS)
        (Cache.promotionQuery L name label t2) _ x hx with ⟨hexp, _⟩ | ⟨hmem, hnot⟩
    · exact hexp
    · exact absurd (hS1m x hmem) hnot
  · intro x hx
    unfold Cache.promote_entity Cache.promoteWithExp at hx
    rcases rowsFold_partOf_write true (t2 + Cache.TTL_MS)
        (Cache.promotionQuery L name label t2) _ x hx with hmem | h
    · exact hS1po x hmem
    · exact h
  · intro row hrow
    have hpresent : Cache.hasEnt (Cache.promote_entity true L
        (Cache.promote_entity true L Cache.emptyShort name label t1) name label t2)
        row.ent.ent_uuid = true := by
      unfold Cache.promote_entity Cache.promoteWithExp
      exact rowsFold_hasEnt_present true (t2 + Cache.TTL_MS)
        (Cache.promotionQuery L name label t2) row hrow _
    show (((Cache.promotionQuery L name label t2).foldl
        (Cache.promoteRow true (t2 + Cache.TTL_MS))
        (Cache.promote_entity true L Cache.emptyShort name label t1)).entities.filter
          (fun x => x.ent_uuid == row.ent.ent_uuid)).length = 1
    rw [ent_filter_len row.ent.ent_uuid _ hWf2.1]
    have hpresent2 : (((Cache.promotionQuery L name label t2).foldl
        (Cache.promoteRow true (t2 + Cache.TTL_MS))
        (Cache.promote_entity true L Cache.emptyShort name label t1)).entities.any
          (fun e => e.ent_uuid == row.ent.ent_uuid)) = true := hpresent
    rw [if_pos hpresent2]

/-- Claim C4 — witness: double promotion of `("acme","ORG")` at
`t1 = 1000` and `t2 = 2000` over a permanent one-document store. -/
theorem C4_amended_witness :
    (∀ x ∈ (Cache.promote_entity true
        ⟨[⟨"e1", "acme", "ORG", some 0⟩],
         [⟨"p1", "t1", 0, "d1", some 0⟩, ⟨"p2", "t2", 1, "d1", some 0⟩],
         [⟨"d1", "T", "C", "cat", some 0⟩],
         [⟨"e1", Cache.TargetRef.para "p2", some 0⟩],
         [⟨"p1", "d1", some 0⟩, ⟨"p2", "d1", some 0⟩]⟩
        (Cache.promote_entity true
          ⟨[⟨"e1", "acme", "ORG", some 0⟩],
           [⟨"p1", "t1", 0, "d1", some 0⟩, ⟨"p2", "t2", 1, "d1", some 0⟩],
           [⟨"d1", "T", "C", "cat", some 0⟩],
           [⟨"e1", Cache.TargetRef.para "p2", some 0⟩],
           [⟨"p1", "d1", some 0⟩, ⟨"p2", "d1", some 0⟩]⟩
          Cache.emptyShort "acme" "ORG" 1000)
        "acme" "ORG" 2000).entities,
      x.expiration = some (2000 + Cache.TTL_MS)) ∧
    (∀ x ∈ (Cache.promote_entity true
        ⟨[⟨"e1", "acme", "ORG", some 0⟩],
         [⟨"p1", "t1", 0, "d1", some 0⟩, ⟨"p2", "t2", 1, "d1", some 0⟩],
         [⟨"d1", "T", "C", "cat", some 0⟩],
         [⟨"e1", Cache.TargetRef.para "p2", some 0⟩],
         [⟨"p1", "d1", some 0⟩, ⟨"p2", "d1", some 0⟩]⟩
        (Cache.promote_entity true
          ⟨[⟨"e1", "acme", "ORG", some 0⟩],
           [⟨"p1", "t1", 0, "d1", some 0⟩, ⟨"p2", "t2", 1, "d1", some 0⟩],
           [⟨"d1", "T", "C", "cat", some 0⟩],
           [⟨"e1", Cache.TargetRef.para "p2", some 0⟩],
           [⟨"p1", "d1", some 0⟩, ⟨"p2", "d1", some 0⟩]⟩
          Cache.emptyShort "acme" "ORG" 1000)
        "acme" "ORG" 2000).mentions,
      x.expiration = some (2000 + Cache.TTL_MS)) ∧
    (∀ x ∈ (Cache.promote_entity true
        ⟨[⟨"e1", "acme", "ORG", some 0⟩],
         [⟨"p1", "t1", 0, "d1", some 0⟩, ⟨"p2", "t2", 1, "d1", some 0⟩],
         [⟨"d1", "T", "C", "cat", some 0⟩],
         [⟨"e1", Cache.TargetRef.para "p2", some 0⟩],
         [⟨"p1", "d1", some 0⟩, ⟨"p2", "d1", some 0⟩]⟩
        (Cache.promote_entity true
          ⟨[⟨"e1", "acme", "ORG", some 0⟩],
           [⟨"p1", "t1", 0, "d1", some 0⟩, ⟨"p2", "t2", 1, "d1", some 0⟩],
           [⟨"d1", "T", "C", "cat", some 0⟩],
           [⟨"e1", Cache.TargetRef.para "p2", some 0⟩],
           [⟨"p1", "d1", some 0⟩, ⟨"p2", "d1", some 0⟩]⟩
          Cache.emptyShort "acme" "ORG" 1000)
        "acme" "ORG" 2000).partOf,
      x.expiration = none) ∧
    ((Cache.promote_entity true
        ⟨[⟨"e1", "acme", "ORG", some 0⟩],
         [⟨"p1", "t1", 0, "d1", some 0⟩, ⟨"p2", "t2", 1, "d1", some 0⟩],
         [⟨"d1", "T", "C", "cat", some 0⟩],
         [⟨"e1", Cache.TargetRef.para "p2", some 0⟩],
         [⟨"p1", "d1", some 0⟩, ⟨"p2", "d1", some 0⟩]⟩
        (Cache.promote_entity true
          ⟨[⟨"e1", "acme", "ORG", some 0⟩],
           [⟨"p1", "t1", 0, "d1", some 0⟩, ⟨"p2", "t2", 1, "d1", some 0⟩],
           [⟨"d1", "T", "C", "cat", some 0⟩],
           [⟨"e1", Cache.TargetRef.para "p2", some 0⟩],
           [⟨"p1", "d1", some 0⟩, ⟨"p2", "d1", some 0⟩]⟩
          Cache.emptyShort "acme" "ORG" 1000)
        "acme" "ORG" 2000).entities.Pairwise
      (fun a b => a.ent_uuid ≠ b.ent_uuid)) ∧
    ((Cache.promote_entity true
        ⟨[⟨"e1", "acme", "ORG", some 0⟩],
         [⟨"p1", "t1", 0, "d1", some 0⟩, ⟨"p2", "t2", 1, "d1", some 0⟩],
         [⟨"d1", "T", "C", "cat", some 0⟩],
         [⟨"e1", Cache.TargetRef.para "p2", some 0⟩],
         [⟨"p1", "d1", some 0⟩, ⟨"p2", "d1", some 0⟩]⟩
        (Cache.promote_entity true
          ⟨[⟨"e1", "acme", "ORG", some 0⟩],
           [⟨"p1", "t1", 0, "d1", some 0⟩, ⟨"p2", "t2", 1, "d1", some 0⟩],
           [⟨"d1", "T", "C", "cat", some 0⟩],
           [⟨"e1", Cache.TargetRef.para "p2", some 0⟩],
           [⟨"p1", "d1", some 0⟩, ⟨"p2", "d1", some 0⟩]⟩
          Cache.emptyShort "acme" "ORG" 1000)
        "acme" "ORG" 2000).mentions.Pairwise
      (fun a b => ¬(a.ent_uuid = b.ent_uuid ∧ a.target = b.target))) ∧
    ((Cache.promote_entity true
        ⟨[⟨"e1", "acme", "ORG", some 0⟩],
         [⟨"p1", "t1", 0, "d1", some 0⟩, ⟨"p2", "t2", 1, "d1", some 0⟩],
         [⟨"d1", "T", "C", "cat", some 0⟩],
         [⟨"e1", Cache.TargetRef.para "p2", some 0⟩],
         [⟨"p1", "d1", some 0⟩, ⟨"p2", "d1", some 0⟩]⟩
        (Cache.promote_entity true
          ⟨[⟨"e1", "acme", "ORG", some 0⟩],
           [⟨"p1", "t1", 0, "d1", some 0⟩, ⟨"p2", "t2", 1, "d1", some 0⟩],
           [⟨"d1", "T", "C", "cat", some 0⟩],
           [⟨"e1", Cache.TargetRef.para "p2", some 0⟩],
           [⟨"p1", "d1", some 0⟩, ⟨"p2", "d1", some 0⟩]⟩
          Cache.emptyShort "acme" "ORG" 1000)
        "acme" "ORG" 2000).partOf.Pairwise
      (fun a b => ¬(a.para = b.para ∧ a.doc = b.doc))) ∧
    (∀ row ∈ Cache.promotionQuery
        ⟨[⟨"e1", "acme", "ORG", some 0⟩],
         [⟨"p1", "t1", 0, "d1", some 0⟩, ⟨"p2", "t2", 1, "d1", some 0⟩],
         [⟨"d1", "T", "C", "cat", some 0⟩],
         [⟨"e1", Cache.TargetRef.para "p2", some 0⟩],
         [⟨"p1", "d1", some 0⟩, ⟨"p2", "d1", some 0⟩]⟩ "acme" "ORG" 2000,
      ((Cache.promote_entity true
        ⟨[⟨"e1", "acme", "ORG", some 0⟩],
         [⟨"p1", "t1", 0, "d1", some 0⟩, ⟨"p2", "t2", 1, "d1", some 0⟩],
         [⟨"d1", "T", "C", "cat", some 0⟩],
         [⟨"e1", Cache.TargetRef.para "p2", some 0⟩],
         [⟨"p1", "d1", some 0⟩, ⟨"p2", "d1", some 0⟩]⟩
        (Cache.promote_entity true
          ⟨[⟨"e1", "acme", "ORG", some 0⟩],
           [⟨"p1", "t1", 0, "d1", some 0⟩, ⟨"p2", "t2", 1, "d1", some 0⟩],
           [⟨"d1", "T", "C", "cat", some 0⟩],
           [⟨"e1", Cache.TargetRef.para "p2", some 0⟩],
           [⟨"p1", "d1", some 0⟩, ⟨"p2", "d1", some 0⟩]⟩
          Cache.emptyShort "acme" "ORG" 1000)
        "acme" "ORG" 2000).entities.filter
          (fun x => x.ent_uuid == row.ent.ent_uuid)).length = 1) :=
  C4_amended
    ⟨[⟨"e1", "acme", "ORG", some 0⟩],
     [⟨"p1", "t1", 0, "d1", some 0⟩, ⟨"p2", "t2", 1, "d1", some 0⟩],
     [⟨"d1", "T", "C", "cat", some 0⟩],
     [⟨"e1", Cache.TargetRef.para "p2", some 0⟩],
     [⟨"p1", "d1", some 0⟩, ⟨"p2", "d1", some 0⟩]⟩
    "acme" "ORG" 1000 2000 (by decide)
